import Mathlib

/-!
The rule loading pipeline of pf_ruler (`pkg/rules/loader.go`).

A shallow embedding of the markdown parsers of the rule loader.

Go strings are modelled as lists of Unicode code points (`List Char`), i.e. the
development is about well-formed UTF-8 text.  On such text the byte-level
functions of Go's `strings` package used by the loader (`Split`, `HasPrefix`,
`TrimPrefix`, `Contains`, `Join`) agree with their code-point-level versions
below, because UTF-8 is self-synchronising.
-/

namespace PfRuler

/-- A Go `string` holding well-formed UTF-8, as its sequence of runes. -/
abbrev Str := List Char

/-! ## The `strings` and `unicode` functions used by the loader -/

/-- Go `unicode.IsSpace`: the Latin-1 spaces `\t \n \v \f \r`, space, U+0085,
U+00A0, and the other code points with the White_Space property. -/
def isSpace (c : Char) : Bool :=
  let n := c.toNat
  (9 ≤ n && n ≤ 13) || n == 0x20 || n == 0x85 || n == 0xA0 || n == 0x1680 ||
  (0x2000 ≤ n && n ≤ 0x200A) || n == 0x2028 || n == 0x2029 || n == 0x202F ||
  n == 0x205F || n == 0x3000

/-- Go `strings.TrimSpace`: drop leading and trailing white space. -/
def TrimSpace (s : Str) : Str :=
  ((s.dropWhile isSpace).reverse.dropWhile isSpace).reverse

/-- Go `strings.HasPrefix`. -/
def HasPrefix (s pre : Str) : Bool := pre.isPrefixOf s

/-- Go `strings.HasSuffix`. -/
def HasSuffix (s suf : Str) : Bool := suf.isSuffixOf s

/-- Go `strings.TrimPrefix`: `s` without the leading `pre`, or `s` unchanged. -/
def TrimPrefix (s pre : Str) : Str :=
  if HasPrefix s pre then s.drop pre.length else s

/-- Go `strings.Contains`: `sub` occurs in `s` at some position. -/
def Contains : Str → Str → Bool
  | [], sub => HasPrefix [] sub
  | c :: s, sub => HasPrefix (c :: s) sub || Contains s sub

/-- Go `strings.Split(s, sep)` for a separator of one rune (the loader only
splits on `"\n"`): the pieces between the separators, at least one piece. -/
def Split : Str → Char → List Str
  | [], _ => [[]]
  | c :: s, sep =>
    if c = sep then [] :: Split s sep
    else match Split s sep with
      | [] => [[c]]
      | piece :: rest => (c :: piece) :: rest

/-- Go `strings.Join`. -/
def Join (elems : List Str) (sep : Str) : Str := sep.intercalate elems

/-- The simple lower-case mappings of the Unicode character database (version
14), as `(first, last, stride, image of first)`: the code points `first,
first + stride, …, last` are mapped, in this order, to the code points that
start at the image of `first` and advance by the same stride.  Go's
`unicode.CaseRanges` encodes these mappings for `unicode.ToLower`; every other
code point is its own lower case. -/
def lowerRanges : List (Nat × Nat × Nat × Nat) :=
  [(0x41, 0x5A, 1, 0x61), (0xC0, 0xD6, 1, 0xE0), (0xD8, 0xDE, 1, 0xF8), (0x100, 0x12E, 2, 0x101),
   (0x130, 0x130, 1, 0x69), (0x132, 0x136, 2, 0x133), (0x139, 0x147, 2, 0x13A),
   (0x14A, 0x176, 2, 0x14B), (0x178, 0x178, 1, 0xFF), (0x179, 0x17D, 2, 0x17A),
   (0x181, 0x181, 1, 0x253), (0x182, 0x184, 2, 0x183), (0x186, 0x186, 1, 0x254),
   (0x187, 0x187, 1, 0x188), (0x189, 0x18A, 1, 0x256), (0x18B, 0x18B, 1, 0x18C),
   (0x18E, 0x18E, 1, 0x1DD), (0x18F, 0x18F, 1, 0x259), (0x190, 0x190, 1, 0x25B),
   (0x191, 0x191, 1, 0x192), (0x193, 0x193, 1, 0x260), (0x194, 0x194, 1, 0x263),
   (0x196, 0x196, 1, 0x269), (0x197, 0x197, 1, 0x268), (0x198, 0x198, 1, 0x199),
   (0x19C, 0x19C, 1, 0x26F), (0x19D, 0x19D, 1, 0x272), (0x19F, 0x19F, 1, 0x275),
   (0x1A0, 0x1A4, 2, 0x1A1), (0x1A6, 0x1A6, 1, 0x280), (0x1A7, 0x1A7, 1, 0x1A8),
   (0x1A9, 0x1A9, 1, 0x283), (0x1AC, 0x1AC, 1, 0x1AD), (0x1AE, 0x1AE, 1, 0x288),
   (0x1AF, 0x1AF, 1, 0x1B0), (0x1B1, 0x1B2, 1, 0x28A), (0x1B3, 0x1B5, 2, 0x1B4),
   (0x1B7, 0x1B7, 1, 0x292), (0x1B8, 0x1B8, 1, 0x1B9), (0x1BC, 0x1BC, 1, 0x1BD),
   (0x1C4, 0x1C4, 1, 0x1C6), (0x1C5, 0x1C5, 1, 0x1C6), (0x1C7, 0x1C7, 1, 0x1C9),
   (0x1C8, 0x1C8, 1, 0x1C9), (0x1CA, 0x1CA, 1, 0x1CC), (0x1CB, 0x1DB, 2, 0x1CC),
   (0x1DE, 0x1EE, 2, 0x1DF), (0x1F1, 0x1F1, 1, 0x1F3), (0x1F2, 0x1F4, 2, 0x1F3),
   (0x1F6, 0x1F6, 1, 0x195), (0x1F7, 0x1F7, 1, 0x1BF), (0x1F8, 0x21E, 2, 0x1F9),
   (0x220, 0x220, 1, 0x19E), (0x222, 0x232, 2, 0x223), (0x23A, 0x23A, 1, 0x2C65),
   (0x23B, 0x23B, 1, 0x23C), (0x23D, 0x23D, 1, 0x19A), (0x23E, 0x23E, 1, 0x2C66),
   (0x241, 0x241, 1, 0x242), (0x243, 0x243, 1, 0x180), (0x244, 0x244, 1, 0x289),
   (0x245, 0x245, 1, 0x28C), (0x246, 0x24E, 2, 0x247), (0x370, 0x372, 2, 0x371),
   (0x376, 0x376, 1, 0x377), (0x37F, 0x37F, 1, 0x3F3), (0x386, 0x386, 1, 0x3AC),
   (0x388, 0x38A, 1, 0x3AD), (0x38C, 0x38C, 1, 0x3CC), (0x38E, 0x38F, 1, 0x3CD),
   (0x391, 0x3A1, 1, 0x3B1), (0x3A3, 0x3AB, 1, 0x3C3), (0x3CF, 0x3CF, 1, 0x3D7),
   (0x3D8, 0x3EE, 2, 0x3D9), (0x3F4, 0x3F4, 1, 0x3B8), (0x3F7, 0x3F7, 1, 0x3F8),
   (0x3F9, 0x3F9, 1, 0x3F2), (0x3FA, 0x3FA, 1, 0x3FB), (0x3FD, 0x3FF, 1, 0x37B),
   (0x400, 0x40F, 1, 0x450), (0x410, 0x42F, 1, 0x430), (0x460, 0x480, 2, 0x461),
   (0x48A, 0x4BE, 2, 0x48B), (0x4C0, 0x4C0, 1, 0x4CF), (0x4C1, 0x4CD, 2, 0x4C2),
   (0x4D0, 0x52E, 2, 0x4D1), (0x531, 0x556, 1, 0x561), (0x10A0, 0x10C5, 1, 0x2D00),
   (0x10C7, 0x10C7, 1, 0x2D27), (0x10CD, 0x10CD, 1, 0x2D2D), (0x13A0, 0x13EF, 1, 0xAB70),
   (0x13F0, 0x13F5, 1, 0x13F8), (0x1C90, 0x1CBA, 1, 0x10D0), (0x1CBD, 0x1CBF, 1, 0x10FD),
   (0x1E00, 0x1E94, 2, 0x1E01), (0x1E9E, 0x1E9E, 1, 0xDF), (0x1EA0, 0x1EFE, 2, 0x1EA1),
   (0x1F08, 0x1F0F, 1, 0x1F00), (0x1F18, 0x1F1D, 1, 0x1F10), (0x1F28, 0x1F2F, 1, 0x1F20),
   (0x1F38, 0x1F3F, 1, 0x1F30), (0x1F48, 0x1F4D, 1, 0x1F40), (0x1F59, 0x1F5F, 2, 0x1F51),
   (0x1F68, 0x1F6F, 1, 0x1F60), (0x1F88, 0x1F8F, 1, 0x1F80), (0x1F98, 0x1F9F, 1, 0x1F90),
   (0x1FA8, 0x1FAF, 1, 0x1FA0), (0x1FB8, 0x1FB9, 1, 0x1FB0), (0x1FBA, 0x1FBB, 1, 0x1F70),
   (0x1FBC, 0x1FBC, 1, 0x1FB3), (0x1FC8, 0x1FCB, 1, 0x1F72), (0x1FCC, 0x1FCC, 1, 0x1FC3),
   (0x1FD8, 0x1FD9, 1, 0x1FD0), (0x1FDA, 0x1FDB, 1, 0x1F76), (0x1FE8, 0x1FE9, 1, 0x1FE0),
   (0x1FEA, 0x1FEB, 1, 0x1F7A), (0x1FEC, 0x1FEC, 1, 0x1FE5), (0x1FF8, 0x1FF9, 1, 0x1F78),
   (0x1FFA, 0x1FFB, 1, 0x1F7C), (0x1FFC, 0x1FFC, 1, 0x1FF3), (0x2126, 0x2126, 1, 0x3C9),
   (0x212A, 0x212A, 1, 0x6B), (0x212B, 0x212B, 1, 0xE5), (0x2132, 0x2132, 1, 0x214E),
   (0x2160, 0x216F, 1, 0x2170), (0x2183, 0x2183, 1, 0x2184), (0x24B6, 0x24CF, 1, 0x24D0),
   (0x2C00, 0x2C2F, 1, 0x2C30), (0x2C60, 0x2C60, 1, 0x2C61), (0x2C62, 0x2C62, 1, 0x26B),
   (0x2C63, 0x2C63, 1, 0x1D7D), (0x2C64, 0x2C64, 1, 0x27D), (0x2C67, 0x2C6B, 2, 0x2C68),
   (0x2C6D, 0x2C6D, 1, 0x251), (0x2C6E, 0x2C6E, 1, 0x271), (0x2C6F, 0x2C6F, 1, 0x250),
   (0x2C70, 0x2C70, 1, 0x252), (0x2C72, 0x2C72, 1, 0x2C73), (0x2C75, 0x2C75, 1, 0x2C76),
   (0x2C7E, 0x2C7F, 1, 0x23F), (0x2C80, 0x2CE2, 2, 0x2C81), (0x2CEB, 0x2CED, 2, 0x2CEC),
   (0x2CF2, 0x2CF2, 1, 0x2CF3), (0xA640, 0xA66C, 2, 0xA641), (0xA680, 0xA69A, 2, 0xA681),
   (0xA722, 0xA72E, 2, 0xA723), (0xA732, 0xA76E, 2, 0xA733), (0xA779, 0xA77B, 2, 0xA77A),
   (0xA77D, 0xA77D, 1, 0x1D79), (0xA77E, 0xA786, 2, 0xA77F), (0xA78B, 0xA78B, 1, 0xA78C),
   (0xA78D, 0xA78D, 1, 0x265), (0xA790, 0xA792, 2, 0xA791), (0xA796, 0xA7A8, 2, 0xA797),
   (0xA7AA, 0xA7AA, 1, 0x266), (0xA7AB, 0xA7AB, 1, 0x25C), (0xA7AC, 0xA7AC, 1, 0x261),
   (0xA7AD, 0xA7AD, 1, 0x26C), (0xA7AE, 0xA7AE, 1, 0x26A), (0xA7B0, 0xA7B0, 1, 0x29E),
   (0xA7B1, 0xA7B1, 1, 0x287), (0xA7B2, 0xA7B2, 1, 0x29D), (0xA7B3, 0xA7B3, 1, 0xAB53),
   (0xA7B4, 0xA7C2, 2, 0xA7B5), (0xA7C4, 0xA7C4, 1, 0xA794), (0xA7C5, 0xA7C5, 1, 0x282),
   (0xA7C6, 0xA7C6, 1, 0x1D8E), (0xA7C7, 0xA7C9, 2, 0xA7C8), (0xA7D0, 0xA7D0, 1, 0xA7D1),
   (0xA7D6, 0xA7D8, 2, 0xA7D7), (0xA7F5, 0xA7F5, 1, 0xA7F6), (0xFF21, 0xFF3A, 1, 0xFF41),
   (0x10400, 0x10427, 1, 0x10428), (0x104B0, 0x104D3, 1, 0x104D8), (0x10570, 0x1057A, 1, 0x10597),
   (0x1057C, 0x1058A, 1, 0x105A3), (0x1058C, 0x10592, 1, 0x105B3), (0x10594, 0x10595, 1, 0x105BB),
   (0x10C80, 0x10CB2, 1, 0x10CC0), (0x118A0, 0x118BF, 1, 0x118C0), (0x16E40, 0x16E5F, 1, 0x16E60),
   (0x1E900, 0x1E921, 1, 0x1E922)]

/-- Whether code point `n` is a source of the range `r`. -/
def inLowerRange (n : Nat) (r : Nat × Nat × Nat × Nat) : Bool :=
  r.1 ≤ n && n ≤ r.2.1 && (n - r.1) % r.2.2.1 == 0

/-- Go `unicode.ToLower`. -/
def unicodeToLower (c : Char) : Char :=
  match lowerRanges.find? (inLowerRange c.toNat) with
  | some r => Char.ofNat (r.2.2.2 + (c.toNat - r.1))
  | none => c

/-- Go `strings.ToLower`: every rune mapped by `unicode.ToLower`. -/
def ToLower (s : Str) : Str := s.map unicodeToLower


/-! ## The rule model (`pkg/rules/types.go`) -/

/-- One rule.  The two timestamps are readings of the clock (`time.Now()`),
modelled as a number supplied by the caller. -/
structure Rule where
  Title : Str
  Description : Str
  Type_ : Str
  Content : Str
  Priority : Int
  Enabled : Bool
  Tags : List Str
  CreatedAt : Nat
  UpdatedAt : Nat
  deriving DecidableEq, Repr

/-- The file based loader; its only field is the root directory. -/
structure FileLoader where
  basePath : Str
  deriving DecidableEq, Repr

/-! ## Requirements document parser -/

/-- Source `inferRuleTypeAndTags`: rule type and tags from a section name. -/
def inferRuleTypeAndTags (sectionName : Str) : Str × List Str :=
  let sectionLower := ToLower sectionName
  let (ruleType, tags) : Str × List Str :=
    if Contains sectionLower "代码规范".toList || Contains sectionLower "编码规范".toList then
      ("code_style".toList, ["code".toList, "style".toList, "naming".toList])
    else if Contains sectionLower "安全约束".toList || Contains sectionLower "安全规范".toList then
      ("security".toList, ["security".toList, "encryption".toList])
    else if Contains sectionLower "性能".toList || Contains sectionLower "优化".toList then
      ("performance".toList, ["performance".toList, "optimization".toList])
    else if Contains sectionLower "测试".toList || Contains sectionLower "单元测试".toList then
      ("testing".toList, ["testing".toList, "unit_test".toList])
    else if Contains sectionLower "部署".toList || Contains sectionLower "运维".toList then
      ("deployment".toList, ["deployment".toList, "devops".toList])
    else if Contains sectionLower "数据库".toList || Contains sectionLower "存储".toList then
      ("database".toList, ["database".toList, "storage".toList])
    else if Contains sectionLower "缓存".toList || Contains sectionLower "redis".toList then
      ("cache".toList, ["cache".toList, "redis".toList])
    else if Contains sectionLower "接口".toList || Contains sectionLower "api".toList then
      ("api".toList, ["api".toList, "interface".toList])
    else if Contains sectionLower "文档".toList || Contains sectionLower "注释".toList then
      ("documentation".toList, ["documentation".toList, "comments".toList])
    else
      ("general".toList, ["general".toList, "requirements".toList])
  (ruleType, tags ++ [ToLower sectionName])

/-- Source `createRuleFromSection`: `none` is the nil pointer returned for an
empty body. -/
def createRuleFromSection (now : Nat) (sectionName : Str) (content : List Str) :
    Option Rule :=
  if content.length = 0 then none
  else
    let (ruleType, tags) := inferRuleTypeAndTags sectionName
    let contentText := Join content "\n".toList
    let priority : Int :=
      if Contains (ToLower sectionName) "安全".toList ||
          Contains (ToLower sectionName) "性能".toList then 5 else 4
    some
      { Title := sectionName
        Description := "项目 ".toList ++ sectionName ++ " 相关的要求和规范".toList
        Type_ := ruleType
        Content := contentText
        Priority := priority
        Enabled := true
        Tags := tags
        CreatedAt := now
        UpdatedAt := now }

/-- The loop variables of `parseRequirementsMarkdown`. -/
structure ReqState where
  rules : List Rule
  currentSection : Str
  currentContent : List Str
  inSection : Bool
  deriving DecidableEq, Repr

/-- The "save the section" block of `parseRequirementsMarkdown` (it occurs at
every header and once more after the loop): the rules after it. -/
def reqSave (now : Nat) (st : ReqState) : List Rule :=
  if st.inSection = true ∧ st.currentSection ≠ [] ∧ 0 < st.currentContent.length then
    match createRuleFromSection now st.currentSection st.currentContent with
    | some rule => st.rules ++ [rule]
    | none => st.rules
  else st.rules

/-- One iteration of the loop of `parseRequirementsMarkdown`. -/
def reqStep (now : Nat) (st : ReqState) (rawLine : Str) : ReqState :=
  let line := TrimSpace rawLine
  if HasPrefix line "## ".toList then
    let currentSection := TrimPrefix line "## ".toList
    { rules := reqSave now st
      currentSection := currentSection
      currentContent := []
      inSection :=
        if currentSection = "项目基本信息".toList ∨ currentSection = "技术栈".toList ∨
            currentSection = "目标 AI 编辑器".toList then false else true }
  else if st.inSection = true ∧ line ≠ [] ∧ HasPrefix line "#".toList = false then
    { st with currentContent := st.currentContent ++ [line] }
  else st

/-- Source `parseRequirementsMarkdown`. -/
def parseRequirementsMarkdown (now : Nat) (content : Str) : List Rule :=
  if content = [] then []
  else
    reqSave now ((Split content '\n').foldl (reqStep now)
      { rules := [], currentSection := [], currentContent := [], inSection := false })

/-! ## Global rule file parser -/

/-- Source `FileLoader.inferRuleType`. -/
def FileLoader.inferRuleType (_l : FileLoader) (title : Str) : Str :=
  let title := ToLower title
  if Contains title "安全".toList then "security".toList
  else if Contains title "性能".toList then "performance".toList
  else if Contains title "代码".toList then "code_style".toList
  else if Contains title "测试".toList then "testing".toList
  else if Contains title "部署".toList then "deployment".toList
  else if Contains title "数据库".toList then "database".toList
  else if Contains title "缓存".toList then "cache".toList
  else "general".toList

/-- Source `FileLoader.inferTags`. -/
def FileLoader.inferTags (_l : FileLoader) (title filename : Str) : List Str :=
  let tags : List Str := []
  let filename := ToLower filename
  let tags :=
    if Contains filename "php".toList then tags ++ ["php".toList]
    else if Contains filename "go".toList then tags ++ ["go".toList]
    else if Contains filename "java".toList then tags ++ ["java".toList]
    else if Contains filename "python".toList then tags ++ ["python".toList]
    else if Contains filename "nodejs".toList then tags ++ ["nodejs".toList]
    else if Contains filename "frontend".toList then tags ++ ["frontend".toList]
    else if Contains filename "database".toList then tags ++ ["database".toList]
    else if Contains filename "cache".toList then tags ++ ["cache".toList]
    else if Contains filename "devops".toList then tags ++ ["devops".toList]
    else tags
  let title := ToLower title
  let tags :=
    if Contains title "安全".toList then tags ++ ["security".toList]
    else if Contains title "性能".toList then tags ++ ["performance".toList]
    else if Contains title "代码".toList then tags ++ ["code_style".toList]
    else if Contains title "测试".toList then tags ++ ["testing".toList]
    else tags
  tags

/-- The loop variables of `parseMarkdownRules`; `currentRule = none` is the nil
pointer. -/
structure MdState where
  rules : List Rule
  currentRule : Option Rule
  currentContent : List Str
  deriving DecidableEq, Repr

/-- The "save the rule" block of `parseMarkdownRules` (at every header and once
more after the loop): the rules after it. -/
def mdSave (st : MdState) : List Rule :=
  match st.currentRule with
  | some rule =>
    if 0 < st.currentContent.length then
      st.rules ++ [{ rule with Content := Join st.currentContent "\n".toList }]
    else st.rules
  | none => st.rules

/-- One iteration of the loop of `parseMarkdownRules`. -/
def mdStep (l : FileLoader) (now : Nat) (filename : Str) (st : MdState) (rawLine : Str) :
    MdState :=
  let line := TrimSpace rawLine
  if HasPrefix line "## ".toList then
    let title := TrimPrefix line "## ".toList
    { rules := mdSave st
      currentRule := some
        { Title := title
          Description := "来自 ".toList ++ filename ++ " 的规则".toList
          Type_ := l.inferRuleType title
          Content := []
          Priority := 4
          Enabled := true
          Tags := l.inferTags title filename
          CreatedAt := now
          UpdatedAt := now }
      currentContent := [] }
  else if HasPrefix line "- ".toList = true ∧ st.currentRule ≠ none then
    { st with currentContent := st.currentContent ++ [line] }
  else st

/-- Source `FileLoader.parseMarkdownRules`. -/
def FileLoader.parseMarkdownRules (l : FileLoader) (now : Nat) (content filename : Str) :
    List Rule :=
  mdSave ((Split content '\n').foldl (mdStep l now filename)
    { rules := [], currentRule := none, currentContent := [] })

/-! ## Errors, the file system and the YAML decoder -/

/-- A Go `error`: an error with a message, or an error made by `fmt.Errorf`
from a format `"<label>%w"` and the error it wraps. -/
inductive GoError where
  | base (msg : Str)
  | wrapped (label : Str) (cause : GoError)
  deriving DecidableEq, Repr

/-- The method `Error()`: the message of an error. -/
def GoError.Error : GoError → Str
  | .base msg => msg
  | .wrapped label cause => label ++ cause.Error

/-- A file path, as the list of the elements given to `filepath.Join`, which
here concatenates. -/
abbrev Path := List Str

/-- What `os.Stat` says about a path: no error, an error for which
`os.IsNotExist` holds, or another error. -/
inductive StatResult where
  | found
  | notExist
  | failed
  deriving DecidableEq, Repr

/-- An entry of a directory, as `os.ReadDir` returns it. -/
structure DirEntry where
  Name : Str
  IsDir : Bool
  deriving DecidableEq, Repr

/-- The state of the file system, as the loader observes it: the results of
`os.Stat`, `os.ReadFile` and `os.ReadDir` on every path. -/
structure FileSystem where
  Stat : Path → StatResult
  ReadFile : Path → Except GoError Str
  ReadDir : Path → Except GoError (List DirEntry)

/-- A decoded YAML value (a Go `interface{}`): nil, a string, a sequence
(`[]interface{}`), or a value of another type. -/
inductive YamlValue where
  | null
  | str (s : Str)
  | seq (items : List YamlValue)
  | other

/-- A decoded YAML mapping (a non-nil Go `map[string]interface{}`). -/
abbrev YamlMap := List (Str × YamlValue)

/-- The decoder `yaml.Unmarshal` into a nil `map[string]interface{}`: an error,
or the map afterwards (`none` when it is still nil). -/
abbrev Unmarshal := Str → Except GoError (Option YamlMap)

/-- The Go index expression `data[key]` with its `exists` flag; a nil map has
no key. -/
def mapLookup (data : Option YamlMap) (key : Str) : Option YamlValue :=
  match data with
  | some m => m.lookup key
  | none => none

/-- The Go test `data[key] != nil`: the key is present with a value that is
not nil. -/
def indexNotNil (data : Option YamlMap) (key : Str) : Bool :=
  match mapLookup data key with
  | some .null => false
  | some _ => true
  | none => false

/-- Source `getString`. -/
def getString (data : Option YamlMap) (key defaultValue : Str) : Str :=
  match mapLookup data key with
  | some (.str s) => s
  | _ => defaultValue

/-- Source `getStringSlice`: an item that is not a string leaves the empty
string of `make` in its place. -/
def getStringSlice (data : Option YamlMap) (key : Str) : List Str :=
  match mapLookup data key with
  | some (.seq slice) =>
    slice.map (fun item =>
      match item with
      | .str s => s
      | _ => [])
  | _ => []

/-! ## The rule loader -/

/-- Project metadata (`pkg/rules/types.go`). -/
structure Metadata where
  ProjectName : Str
  TechStacks : List Str
  AIEditors : List Str
  CreatedAt : Nat
  LastUpdatedAt : Nat
  Version : Str
  deriving DecidableEq, Repr

/-- The complete rule set (`pkg/rules/types.go`). -/
structure RuleSet where
  ProjectRules : List Rule
  GlobalRules : List Rule
  TemplateRules : List Rule
  Metadata : Metadata
  deriving DecidableEq, Repr

/-- The synthetic tech-stack rule of `LoadProjectRules`. -/
def techStackRule (now : Nat) (techStacks : List Str) : Rule :=
  { Title := "技术栈规范".toList
    Description := "项目使用的技术栈和版本要求".toList
    Type_ := "tech_stack".toList
    Content := "技术栈: ".toList ++ Join techStacks ", ".toList
    Priority := 5
    Enabled := true
    Tags := ["tech".toList, "stack".toList]
    CreatedAt := now
    UpdatedAt := now }

/-- The two default rules of `LoadProjectRules`. -/
def fallbackRules (now : Nat) : List Rule :=
  [{ Title := "代码规范".toList
     Description := "项目代码编写规范和要求".toList
     Type_ := "code_style".toList
     Content := "函数命名采用 snake_case，每行代码不超过 80 字符".toList
     Priority := 4
     Enabled := true
     Tags := ["code".toList, "style".toList, "naming".toList]
     CreatedAt := now
     UpdatedAt := now },
   { Title := "安全约束".toList
     Description := "项目安全相关的要求和约束".toList
     Type_ := "security".toList
     Content := "敏感数据（如密码）需加密存储".toList
     Priority := 5
     Enabled := true
     Tags := ["security".toList, "encryption".toList]
     CreatedAt := now
     UpdatedAt := now }]

/-- The part of `LoadProjectRules` after the files are read: the rules made of
the decoded tech-stack file and of the rules parsed from the requirements. -/
def assembleProjectRules (now : Nat) (techStack : Option YamlMap)
    (requirementsRules : List Rule) : List Rule :=
  let rules : List Rule := []
  let rules :=
    if techStack.isSome && indexNotNil techStack "tech_stacks".toList then
      let techStacks := getStringSlice techStack "tech_stacks".toList
      if 0 < techStacks.length then rules ++ [techStackRule now techStacks] else rules
    else rules
  let rules := rules ++ requirementsRules
  if rules.length = 0 then rules ++ fallbackRules now else rules

/-- The part of `LoadProjectRules` that reads the optional `requirements.md`. -/
def readRequirements (fs : FileSystem) (requirementsPath : Path) : Except GoError Str :=
  if fs.Stat requirementsPath = .found then
    match fs.ReadFile requirementsPath with
    | .error err => .error (.wrapped "读取项目需求文件失败: ".toList err)
    | .ok requirementsData => .ok requirementsData
  else .ok []

/-- The part of `LoadProjectRules` that reads the optional `tech_stack.yaml`. -/
def readTechStack (fs : FileSystem) (unmarshal : Unmarshal) (techStackPath : Path) :
    Except GoError (Option YamlMap) :=
  if fs.Stat techStackPath = .found then
    match fs.ReadFile techStackPath with
    | .error err => .error (.wrapped "读取技术栈文件失败: ".toList err)
    | .ok techStackData =>
      match unmarshal techStackData with
      | .error err => .error (.wrapped "解析技术栈文件失败: ".toList err)
      | .ok techStack => .ok techStack
  else .ok none

/-- Source `FileLoader.LoadProjectRules`. -/
def FileLoader.LoadProjectRules (l : FileLoader) (fs : FileSystem) (unmarshal : Unmarshal)
    (now : Nat) : Except GoError (List Rule) :=
  let projectDir : Path := [l.basePath, "project".toList]
  if fs.Stat projectDir = .notExist then .ok []
  else
    let requirementsPath := projectDir ++ ["requirements.md".toList]
    match readRequirements fs requirementsPath with
    | .error err => .error err
    | .ok requirementsContent =>
      let techStackPath := projectDir ++ ["tech_stack.yaml".toList]
      match readTechStack fs unmarshal techStackPath with
      | .error err => .error err
      | .ok techStack =>
        let requirementsRules := parseRequirementsMarkdown now requirementsContent
        .ok (assembleProjectRules now techStack requirementsRules)

/-- Source `FileLoader.getProjectTechStacks`. -/
def FileLoader.getProjectTechStacks (l : FileLoader) (fs : FileSystem)
    (unmarshal : Unmarshal) : List Str :=
  let techStackPath : Path := [l.basePath, "project".toList, "tech_stack.yaml".toList]
  if fs.Stat techStackPath = .notExist then []
  else
    match fs.ReadFile techStackPath with
    | .error _ => []
    | .ok techStackData =>
      match unmarshal techStackData with
      | .error _ => []
      | .ok techStack => getStringSlice techStack "tech_stacks".toList

/-- Source `FileLoader.generatePHPRules`. -/
def FileLoader.generatePHPRules (_l : FileLoader) (now : Nat) (tech : Str) : List Rule :=
  let rules : List Rule :=
    [{ Title := "PHP安全规范".toList
       Description := "PHP开发中的安全注意事项和规避规则".toList
       Type_ := "security".toList
       Content := "使用 PDO 预处理语句防止 SQL 注入，验证所有用户输入，使用 password_hash() 加密密码".toList
       Priority := 5
       Enabled := true
       Tags := ["security".toList, "php".toList, "sql-injection".toList]
       CreatedAt := now
       UpdatedAt := now },
     { Title := "PHP性能优化".toList
       Description := "PHP性能优化的关键规则".toList
       Type_ := "performance".toList
       Content := "启用 OPcache，使用 Composer 自动加载，避免在循环中执行数据库查询".toList
       Priority := 4
       Enabled := true
       Tags := ["performance".toList, "php".toList, "optimization".toList]
       CreatedAt := now
       UpdatedAt := now }]
  if Contains tech "Laravel".toList then
    rules ++
      [{ Title := "Laravel最佳实践".toList
         Description := "Laravel框架开发的最佳实践".toList
         Type_ := "framework".toList
         Content := "使用 Eloquent ORM，遵循 MVC 模式，使用 Artisan 命令，启用 CSRF 保护".toList
         Priority := 4
         Enabled := true
         Tags := ["framework".toList, "laravel".toList, "best-practices".toList]
         CreatedAt := now
         UpdatedAt := now }]
  else rules

/-- Source `FileLoader.generateGoRules`. -/
def FileLoader.generateGoRules (_l : FileLoader) (now : Nat) (_tech : Str) : List Rule :=
  [{ Title := "Go代码规范".toList
     Description := "Go语言开发的标准规范".toList
     Type_ := "code_style".toList
     Content := "使用 gofmt 格式化代码，遵循 Go 官方命名约定，使用 go mod 管理依赖".toList
     Priority := 4
     Enabled := true
     Tags := ["code_style".toList, "go".toList, "golang".toList]
     CreatedAt := now
     UpdatedAt := now },
   { Title := "Go错误处理".toList
     Description := "Go语言错误处理的最佳实践".toList
     Type_ := "error_handling".toList
     Content := "始终检查错误返回值，使用 errors.Wrap 包装错误，避免忽略错误".toList
     Priority := 5
     Enabled := true
     Tags := ["error_handling".toList, "go".toList, "best-practices".toList]
     CreatedAt := now
     UpdatedAt := now }]

/-- Source `FileLoader.generateJavaRules`. -/
def FileLoader.generateJavaRules (_l : FileLoader) (now : Nat) (_tech : Str) : List Rule :=
  [{ Title := "Java代码规范".toList
     Description := "Java开发的标准规范".toList
     Type_ := "code_style".toList
     Content := "遵循 Java 命名约定，使用 Lombok 减少样板代码，启用代码检查工具".toList
     Priority := 4
     Enabled := true
     Tags := ["code_style".toList, "java".toList, "spring".toList]
     CreatedAt := now
     UpdatedAt := now }]

/-- Source `FileLoader.generatePythonRules`. -/
def FileLoader.generatePythonRules (_l : FileLoader) (now : Nat) (_tech : Str) : List Rule :=
  [{ Title := "Python代码规范".toList
     Description := "Python开发的标准规范".toList
     Type_ := "code_style".toList
     Content := "遵循 PEP 8 规范，使用类型提示，使用虚拟环境管理依赖".toList
     Priority := 4
     Enabled := true
     Tags := ["code_style".toList, "python".toList, "pep8".toList]
     CreatedAt := now
     UpdatedAt := now }]

/-- Source `FileLoader.generateNodeRules`. -/
def FileLoader.generateNodeRules (_l : FileLoader) (now : Nat) (_tech : Str) : List Rule :=
  [{ Title := "Node.js安全规范".toList
     Description := "Node.js开发中的安全注意事项".toList
     Type_ := "security".toList
     Content := "使用 helmet 中间件，验证所有输入，使用 bcrypt 加密密码，定期更新依赖".toList
     Priority := 5
     Enabled := true
     Tags := ["security".toList, "nodejs".toList, "express".toList]
     CreatedAt := now
     UpdatedAt := now }]

/-- Source `FileLoader.generateFrontendRules`. -/
def FileLoader.generateFrontendRules (_l : FileLoader) (now : Nat) (_tech : Str) : List Rule :=
  [{ Title := "前端安全规范".toList
     Description := "前端开发中的安全注意事项".toList
     Type_ := "security".toList
     Content := "使用 HTTPS，验证用户输入，防止 XSS 攻击，使用 CSP 策略".toList
     Priority := 5
     Enabled := true
     Tags := ["security".toList, "frontend".toList, "xss".toList]
     CreatedAt := now
     UpdatedAt := now }]

/-- Source `FileLoader.generateDatabaseRules`. -/
def FileLoader.generateDatabaseRules (_l : FileLoader) (now : Nat) (_tech : Str) : List Rule :=
  [{ Title := "数据库安全规范".toList
     Description := "数据库操作的安全注意事项".toList
     Type_ := "security".toList
     Content := "使用参数化查询防止 SQL 注入，限制数据库用户权限，定期备份数据".toList
     Priority := 5
     Enabled := true
     Tags := ["security".toList, "database".toList, "sql-injection".toList]
     CreatedAt := now
     UpdatedAt := now }]

/-- Source `FileLoader.generateCacheRules`. -/
def FileLoader.generateCacheRules (_l : FileLoader) (now : Nat) (_tech : Str) : List Rule :=
  [{ Title := "缓存使用规范".toList
     Description := "缓存系统使用的最佳实践".toList
     Type_ := "performance".toList
     Content := "设置合理的过期时间，避免缓存穿透，使用缓存预热，监控缓存命中率".toList
     Priority := 4
     Enabled := true
     Tags := ["performance".toList, "cache".toList, "redis".toList]
     CreatedAt := now
     UpdatedAt := now }]

/-- Source `FileLoader.generateDevOpsRules`. -/
def FileLoader.generateDevOpsRules (_l : FileLoader) (now : Nat) (_tech : Str) : List Rule :=
  [{ Title := "容器安全规范".toList
     Description := "容器化部署的安全注意事项".toList
     Type_ := "security".toList
     Content := "使用非 root 用户运行容器，定期更新基础镜像，扫描镜像漏洞，限制容器权限".toList
     Priority := 5
     Enabled := true
     Tags := ["security".toList, "docker".toList, "kubernetes".toList]
     CreatedAt := now
     UpdatedAt := now }]

/-- One iteration of the loop of `generateTechSpecificRules`. -/
def techStep (l : FileLoader) (now : Nat) (rules : List Rule) (tech : Str) : List Rule :=
  if Contains tech "PHP".toList then rules ++ l.generatePHPRules now tech
  else if Contains tech "Go".toList then rules ++ l.generateGoRules now tech
  else if Contains tech "Java".toList then rules ++ l.generateJavaRules now tech
  else if Contains tech "Python".toList then rules ++ l.generatePythonRules now tech
  else if Contains tech "Node.js".toList then rules ++ l.generateNodeRules now tech
  else if Contains tech "React".toList || Contains tech "Vue".toList then
    rules ++ l.generateFrontendRules now tech
  else if Contains tech "MySQL".toList || Contains tech "PostgreSQL".toList then
    rules ++ l.generateDatabaseRules now tech
  else if Contains tech "Redis".toList || Contains tech "Memcached".toList then
    rules ++ l.generateCacheRules now tech
  else if Contains tech "Docker".toList || Contains tech "Kubernetes".toList then
    rules ++ l.generateDevOpsRules now tech
  else rules

/-- Source `FileLoader.generateTechSpecificRules`. -/
def FileLoader.generateTechSpecificRules (l : FileLoader) (now : Nat)
    (techStacks : List Str) : List Rule :=
  techStacks.foldl (techStep l now) []

/-- One iteration of the loop of `loadGlobalFiles`. -/
def globalFileStep (l : FileLoader) (fs : FileSystem) (now : Nat) (globalDir : Path)
    (allRules : List Rule) (file : DirEntry) : List Rule :=
  if file.IsDir || !HasSuffix file.Name ".md".toList then allRules
  else
    let filePath := globalDir ++ [file.Name]
    match fs.ReadFile filePath with
    | .error _ => allRules
    | .ok content => allRules ++ l.parseMarkdownRules now content file.Name

/-- Source `FileLoader.loadGlobalFiles`. -/
def FileLoader.loadGlobalFiles (l : FileLoader) (fs : FileSystem) (now : Nat)
    (globalDir : Path) : Except GoError (List Rule) :=
  match fs.ReadDir globalDir with
  | .error err => .error (.wrapped "读取全局目录失败: ".toList err)
  | .ok files => .ok (files.foldl (globalFileStep l fs now globalDir) [])

/-- The three default global rules of `LoadGlobalRules`. -/
def baselineRules (now : Nat) : List Rule :=
  [{ Title := "通用命名规范".toList
     Description := "适用于所有项目的通用命名规范".toList
     Type_ := "naming".toList
     Content := "变量和函数名应具有描述性，避免使用缩写".toList
     Priority := 3
     Enabled := true
     Tags := ["naming".toList, "general".toList]
     CreatedAt := now
     UpdatedAt := now },
   { Title := "代码注释规范".toList
     Description := "代码注释的编写规范".toList
     Type_ := "documentation".toList
     Content := "所有公共函数和复杂逻辑都应添加注释".toList
     Priority := 3
     Enabled := true
     Tags := ["documentation".toList, "comments".toList]
     CreatedAt := now
     UpdatedAt := now },
   { Title := "错误处理规范".toList
     Description := "错误处理的标准做法".toList
     Type_ := "error_handling".toList
     Content := "所有可能失败的操作都应进行错误处理".toList
     Priority := 4
     Enabled := true
     Tags := ["error".toList, "handling".toList]
     CreatedAt := now
     UpdatedAt := now }]

/-- Source `FileLoader.LoadGlobalRules`. -/
def FileLoader.LoadGlobalRules (l : FileLoader) (fs : FileSystem) (unmarshal : Unmarshal)
    (now : Nat) : Except GoError (List Rule) :=
  let globalDir : Path := [l.basePath, "global".toList]
  if fs.Stat globalDir = .notExist then .ok []
  else
    match l.loadGlobalFiles fs now globalDir with
    | .error err => .error (.wrapped "读取全局规则文件失败: ".toList err)
    | .ok fileRules =>
      let techStacks := l.getProjectTechStacks fs unmarshal
      let rules := baselineRules now
      let techSpecificRules := l.generateTechSpecificRules now techStacks
      let rules := rules ++ techSpecificRules
      let rules := rules ++ fileRules
      .ok rules

/-- Source `FileLoader.LoadTemplateRules`. -/
def FileLoader.LoadTemplateRules (l : FileLoader) (fs : FileSystem) :
    Except GoError (List Rule) :=
  let templatesDir : Path := [l.basePath, "templates".toList]
  if fs.Stat templatesDir = .notExist then .ok []
  else .ok []

/-- Source `FileLoader.LoadMetadata`. -/
def FileLoader.LoadMetadata (l : FileLoader) (fs : FileSystem) (unmarshal : Unmarshal)
    (now : Nat) : Except GoError Metadata :=
  let projectDir : Path := [l.basePath, "project".toList]
  let techStackPath := projectDir ++ ["tech_stack.yaml".toList]
  match fs.ReadFile techStackPath with
  | .error err => .error (.wrapped "读取技术栈文件失败: ".toList err)
  | .ok techStackData =>
    match unmarshal techStackData with
    | .error err => .error (.wrapped "解析技术栈文件失败: ".toList err)
    | .ok techStack =>
      let configPath : Path := [l.basePath, "config.yaml".toList]
      match fs.ReadFile configPath with
      | .error err => .error (.wrapped "读取配置文件失败: ".toList err)
      | .ok configData =>
        match unmarshal configData with
        | .error err => .error (.wrapped "解析配置文件失败: ".toList err)
        | .ok _config =>
          .ok
            { ProjectName := getString techStack "project_name".toList "未知项目".toList
              TechStacks := getStringSlice techStack "tech_stacks".toList
              AIEditors := getStringSlice techStack "ai_editors".toList
              CreatedAt := now
              LastUpdatedAt := now
              Version := "1.0.0".toList }

/-- Source `FileLoader.LoadAllRules`. -/
def FileLoader.LoadAllRules (l : FileLoader) (fs : FileSystem) (unmarshal : Unmarshal)
    (now : Nat) : Except GoError RuleSet :=
  match l.LoadProjectRules fs unmarshal now with
  | .error err => .error (.wrapped "加载项目规则失败: ".toList err)
  | .ok projectRules =>
    match l.LoadGlobalRules fs unmarshal now with
    | .error err => .error (.wrapped "加载全局规则失败: ".toList err)
    | .ok globalRules =>
      match l.LoadTemplateRules fs with
      | .error err => .error (.wrapped "加载模板规则失败: ".toList err)
      | .ok templateRules =>
        match l.LoadMetadata fs unmarshal now with
        | .error err => .error (.wrapped "加载元数据失败: ".toList err)
        | .ok metadata =>
          .ok
            { ProjectRules := projectRules
              GlobalRules := globalRules
              TemplateRules := templateRules
              Metadata := metadata }

/-! ## Sections of a document, as the specification describes them -/

/-- The lines of a document, each white-space trimmed. -/
def docLines (content : Str) : List Str := (Split content '\n').map TrimSpace

/-- A header line: it starts with `"## "`. -/
def isHeader (line : Str) : Bool := HasPrefix line "## ".toList

/-- The header text: the line with the `"## "` prefix removed. -/
def headerText (line : Str) : Str := TrimPrefix line "## ".toList

/-- The sections of a list of lines, in document order: for every header line
its text, with the lines between it and the next header or the end of input. -/
def sections : List Str → List (Str × List Str)
  | [] => []
  | line :: rest =>
    if isHeader line then
      (headerText line, rest.takeWhile (fun x => !isHeader x)) :: sections rest
    else sections rest

/-- The three section names that the requirements parser suppresses. -/
def suppressedNames : List Str :=
  ["项目基本信息".toList, "技术栈".toList, "目标 AI 编辑器".toList]

/-- The body lines the requirements parser keeps: not blank, not starting
with `#`. -/
def keptLines (body : List Str) : List Str :=
  body.filter (fun x => x ≠ [] ∧ HasPrefix x "#".toList = false)

/-- The bullet lines of a section of a global rule file. -/
def bulletLines (body : List Str) : List Str :=
  body.filter (fun x => HasPrefix x "- ".toList)


/-- The rule the requirements parser makes of a section, if any. -/
def sectionRule (now : Nat) (sec : Str × List Str) : Option Rule :=
  if sec.1 ∈ suppressedNames then none
  else createRuleFromSection now sec.1 (keptLines sec.2)

/-- The rule that the open section of a loop state of the requirements parser
will give once the lines up to the next header have been read. -/
def reqPending (now : Nat) (st : ReqState) (lines : List Str) : List Rule :=
  if st.inSection = true ∧ st.currentSection ≠ [] then
    (createRuleFromSection now st.currentSection
      (st.currentContent ++ keptLines (lines.takeWhile (fun x => !isHeader x)))).toList
  else []

/-- The rule the global file parser makes of a section, if any. -/
def mdSectionRule (l : FileLoader) (now : Nat) (filename : Str) (sec : Str × List Str) :
    Option Rule :=
  if 0 < (bulletLines sec.2).length then
    some
      { Title := sec.1
        Description := "来自 ".toList ++ filename ++ " 的规则".toList
        Type_ := l.inferRuleType sec.1
        Content := Join (bulletLines sec.2) "\n".toList
        Priority := 4
        Enabled := true
        Tags := l.inferTags sec.1 filename
        CreatedAt := now
        UpdatedAt := now }
  else none

/-- The rule that the open section of a loop state of the global file parser
will give once the lines up to the next header have been read. -/
def mdPending (st : MdState) (lines : List Str) : List Rule :=
  match st.currentRule with
  | some rule =>
    if 0 < (st.currentContent ++ bulletLines (lines.takeWhile (fun x => !isHeader x))).length
    then
      [{ rule with
          Content := Join (st.currentContent ++
            bulletLines (lines.takeWhile (fun x => !isHeader x))) "\n".toList }]
    else []
  | none => []

/-! ## The classifiers as ordered tables, as the specification describes them -/

/-- The nine branches of the section classifier in declared order: keywords,
rule type, fixed tags. -/
def classifierBranches : List (List Str × Str × List Str) :=
  [(["代码规范".toList, "编码规范".toList], "code_style".toList,
      ["code".toList, "style".toList, "naming".toList]),
   (["安全约束".toList, "安全规范".toList], "security".toList,
      ["security".toList, "encryption".toList]),
   (["性能".toList, "优化".toList], "performance".toList,
      ["performance".toList, "optimization".toList]),
   (["测试".toList, "单元测试".toList], "testing".toList,
      ["testing".toList, "unit_test".toList]),
   (["部署".toList, "运维".toList], "deployment".toList,
      ["deployment".toList, "devops".toList]),
   (["数据库".toList, "存储".toList], "database".toList,
      ["database".toList, "storage".toList]),
   (["缓存".toList, "redis".toList], "cache".toList, ["cache".toList, "redis".toList]),
   (["接口".toList, "api".toList], "api".toList, ["api".toList, "interface".toList]),
   (["文档".toList, "注释".toList], "documentation".toList,
      ["documentation".toList, "comments".toList])]

/-- The condition of a branch: one of its keywords occurs in the text. -/
def branchHolds (text : Str) (b : List Str × Str × List Str) : Bool :=
  b.1.any (fun k => Contains text k)

/-- The classifier read off the table: the first branch whose condition holds
on the lower-cased title, `general` when there is none; the lower-cased title
is the last tag. -/
def classifyByTable (sectionName : Str) : Str × List Str :=
  match classifierBranches.find? (branchHolds (ToLower sectionName)) with
  | some b => (b.2.1, b.2.2 ++ [ToLower sectionName])
  | none =>
    ("general".toList, ["general".toList, "requirements".toList] ++ [ToLower sectionName])

/-- The keywords of the classifier of the global file parser in declared
order, with their rule type. -/
def globalTypeTable : List (Str × Str) :=
  [("安全".toList, "security".toList), ("性能".toList, "performance".toList),
   ("代码".toList, "code_style".toList), ("测试".toList, "testing".toList),
   ("部署".toList, "deployment".toList), ("数据库".toList, "database".toList),
   ("缓存".toList, "cache".toList)]

/-- The technology markers looked for in a file name, in declared order; the
marker is the tag. -/
def fileMarkers : List Str :=
  ["php".toList, "go".toList, "java".toList, "python".toList, "nodejs".toList,
   "frontend".toList, "database".toList, "cache".toList, "devops".toList]

/-- The title keywords of `inferTags` in declared order, with their tag. -/
def titleTagTable : List (Str × Str) :=
  [("安全".toList, "security".toList), ("性能".toList, "performance".toList),
   ("代码".toList, "code_style".toList), ("测试".toList, "testing".toList)]

/-- A code point without case: it lies in no source range and in no image range
of `lowerRanges`. -/
def caseless (n : Nat) : Bool :=
  lowerRanges.all (fun r =>
    (n < r.1 || r.2.1 < n) && (n < r.2.2.2 || r.2.2.2 + (r.2.1 - r.1) < n))

/-! ## The platform adapters (`pkg/platform`) -/

/-- A platform adapter, a value of the interface `PlatformAdapter`, as its three
methods.  `Convert` also takes the clock as `time.Now().Format` writes it. -/
structure PlatformAdapter where
  Name : Str
  DefaultOutputPath : Str
  Convert : RuleSet → Str → Except GoError Str

/-- The registry: a Go map from names to adapters, as the list of its entries,
one per name. -/
structure PlatformRegistry where
  adapters : List (Str × PlatformAdapter)

/-- Source `NewPlatformRegistry`. -/
def NewPlatformRegistry : PlatformRegistry := { adapters := [] }

/-- Source `PlatformRegistry.Register`: the map assignment
`r.adapters[adapter.Name()] = adapter`. -/
def PlatformRegistry.Register (r : PlatformRegistry) (adapter : PlatformAdapter) :
    PlatformRegistry :=
  { adapters :=
      (adapter.Name, adapter) :: r.adapters.filter (fun e => e.1 != adapter.Name) }

/-- Source `PlatformRegistry.Get`: `some adapter` is `(adapter, true)`, `none` is
`(nil, false)`. -/
def PlatformRegistry.Get (r : PlatformRegistry) (name : Str) : Option PlatformAdapter :=
  r.adapters.lookup name

/-- The verb `%d` of `fmt.Sprintf` on an `int`. -/
def formatInt (n : Int) : Str := (toString n).toList

/-- The Trae adapter; the Go struct has no field. -/
structure TraeAdapter where
  deriving DecidableEq, Repr

/-- Source `TraeAdapter.Name`. -/
def TraeAdapter.Name (_t : TraeAdapter) : Str := "trae".toList

/-- Source `TraeAdapter.DefaultOutputPath`. -/
def TraeAdapter.DefaultOutputPath (_t : TraeAdapter) : Str :=
  ".trae/rules/project_rules.md".toList

/-- The body of the loop over `ruleSet.ProjectRules` in `TraeAdapter.Convert`; `content` is
the text written so far. -/
def projectRuleStep (content : Str) (rule : Rule) : Str :=
  if !rule.Enabled then content
  else
    let content := content ++ ("### ".toList ++ rule.Title ++ "\n\n".toList)
    let content :=
      content ++
        ("**类型**: ".toList ++ rule.Type_ ++ "  |  **优先级**: ".toList ++
          formatInt rule.Priority ++ "  |  **标签**: ".toList ++ Join rule.Tags ", ".toList ++
          "\n\n".toList)
    let content := content ++ (rule.Description ++ "\n\n".toList)
    let content := content ++ ("**规则内容**:\n".toList ++ rule.Content ++ "\n\n".toList)
    content

/-- The body of the loop over `ruleSet.GlobalRules` in `TraeAdapter.Convert`; `content` is
the text written so far. -/
def globalRuleStep (content : Str) (rule : Rule) : Str :=
  if !rule.Enabled then content
  else
    let content := content ++ ("### ".toList ++ rule.Title ++ "\n\n".toList)
    let content :=
      content ++
        ("**类型**: ".toList ++ rule.Type_ ++ "  |  **优先级**: ".toList ++
          formatInt rule.Priority ++ "  |  **标签**: ".toList ++ Join rule.Tags ", ".toList ++
          "\n\n".toList)
    let content := content ++ (rule.Description ++ "\n\n".toList)
    let content := content ++ ("**规则内容**:\n".toList ++ rule.Content ++ "\n\n".toList)
    content

/-- The body of the loop over `ruleSet.TemplateRules` in `TraeAdapter.Convert`; `content` is
the text written so far. -/
def templateRuleStep (content : Str) (rule : Rule) : Str :=
  if !rule.Enabled then content
  else
    let content := content ++ ("### ".toList ++ rule.Title ++ "\n\n".toList)
    let content :=
      content ++
        ("**类型**: ".toList ++ rule.Type_ ++ "  |  **优先级**: ".toList ++
          formatInt rule.Priority ++ "  |  **标签**: ".toList ++ Join rule.Tags ", ".toList ++
          "\n\n".toList)
    let content := content ++ (rule.Description ++ "\n\n".toList)
    let content := content ++ ("**规则内容**:\n".toList ++ rule.Content ++ "\n\n".toList)
    content

/-- The block of `TraeAdapter.Convert` that writes `ruleSet.ProjectRules`. -/
def writeProjectRules (content : Str) (rules : List Rule) : Str :=
  if 0 < rules.length then
    let content := content ++ "## 项目特定规则\n\n".toList
    let content := content ++ "*这些规则具有最高优先级，适用于当前项目*\n\n".toList
    rules.foldl projectRuleStep content
  else content

/-- The block of `TraeAdapter.Convert` that writes `ruleSet.GlobalRules`. -/
def writeGlobalRules (content : Str) (rules : List Rule) : Str :=
  if 0 < rules.length then
    let content := content ++ "## 全局通用规则\n\n".toList
    let content := content ++ "*这些规则适用于所有项目，具有中等优先级*\n\n".toList
    rules.foldl globalRuleStep content
  else content

/-- The block of `TraeAdapter.Convert` that writes `ruleSet.TemplateRules`. -/
def writeTemplateRules (content : Str) (rules : List Rule) : Str :=
  if 0 < rules.length then
    let content := content ++ "## 自定义模板规则\n\n".toList
    let content := content ++ "*这些规则来自用户自定义模板*\n\n".toList
    rules.foldl templateRuleStep content
  else content

/-- Source `TraeAdapter.Convert`; `content` is the `strings.Builder`, `clock` the
text of `time.Now().Format("2006-01-02 15:04:05")`. -/
def TraeAdapter.Convert (_t : TraeAdapter) (ruleSet : RuleSet) (clock : Str) :
    Except GoError Str :=
  let content : Str := []
  let content :=
    content ++ ("# ".toList ++ ruleSet.Metadata.ProjectName ++ " 项目规则集\n\n".toList)
  let content := content ++ "## 项目信息\n\n".toList
  let content :=
    content ++ ("- **项目名称**: ".toList ++ ruleSet.Metadata.ProjectName ++ "\n".toList)
  let content :=
    content ++
      ("- **技术栈**: ".toList ++ Join ruleSet.Metadata.TechStacks ", ".toList ++ "\n".toList)
  let content :=
    content ++
      ("- **目标AI编辑器**: ".toList ++ Join ruleSet.Metadata.AIEditors ", ".toList ++
        "\n".toList)
  let content := content ++ ("- **生成时间**: ".toList ++ clock ++ "\n".toList)
  let content := content ++ ("- **版本**: ".toList ++ ruleSet.Metadata.Version ++ "\n\n".toList)
  let content := writeProjectRules content ruleSet.ProjectRules
  let content := writeGlobalRules content ruleSet.GlobalRules
  let content := writeTemplateRules content ruleSet.TemplateRules
  let content := content ++ "## 使用说明\n\n".toList
  let content := content ++ "本规则集由 pf_ruler 工具自动生成，用于指导 AI 编辑器生成符合项目规范的代码。\n\n".toList
  let content := content ++ "### 规则优先级\n\n".toList
  let content := content ++ "1. **项目特定规则** - 最高优先级，覆盖其他规则\n".toList
  let content := content ++ "2. **全局通用规则** - 中等优先级，适用于所有项目\n".toList
  let content := content ++ "3. **自定义模板规则** - 可选，来自用户配置\n\n".toList
  let content := content ++ "### 更新规则\n\n".toList
  let content := content ++ "如需更新规则，请修改 `.ruler` 目录下的相应文件，然后重新运行 `pf_ruler generate --platform=trae` 命令。\n".toList
  .ok content

/-- The Trae adapter as a value of the interface. -/
def TraeAdapter.toPlatformAdapter (t : TraeAdapter) : PlatformAdapter :=
  { Name := t.Name, DefaultOutputPath := t.DefaultOutputPath, Convert := t.Convert }

/-! ## The rendered document, as the specification describes it -/

/-- The block of one rule: a subheading with the title, the line of type,
priority and tags, the description, and the content under its label. -/
def ruleBlock (rule : Rule) : Str :=
  "### ".toList ++ rule.Title ++ "\n\n".toList ++
    ("**类型**: ".toList ++ rule.Type_ ++ "  |  **优先级**: ".toList ++
      formatInt rule.Priority ++ "  |  **标签**: ".toList ++ Join rule.Tags ", ".toList ++
      "\n\n".toList) ++
    (rule.Description ++ "\n\n".toList) ++
    ("**规则内容**:\n".toList ++ rule.Content ++ "\n\n".toList)

/-- A section of the document: nothing for an empty sequence, else the header,
the caveat and the blocks of the enabled rules in order. -/
def renderSection (header caveat : Str) (rules : List Rule) : Str :=
  if rules = [] then []
  else header ++ caveat ++ (rules.filter (fun r => r.Enabled)).flatMap ruleBlock

/-- The title line and the metadata block. -/
def traeHeader (metadata : Metadata) (clock : Str) : Str :=
  "# ".toList ++ metadata.ProjectName ++ " 项目规则集\n\n".toList ++
    "## 项目信息\n\n".toList ++
    ("- **项目名称**: ".toList ++ metadata.ProjectName ++ "\n".toList) ++
    ("- **技术栈**: ".toList ++ Join metadata.TechStacks ", ".toList ++ "\n".toList) ++
    ("- **目标AI编辑器**: ".toList ++ Join metadata.AIEditors ", ".toList ++ "\n".toList) ++
    ("- **生成时间**: ".toList ++ clock ++ "\n".toList) ++
    ("- **版本**: ".toList ++ metadata.Version ++ "\n\n".toList)

/-- The static usage instructions that close the document. -/
def traeUsage : Str :=
  "## 使用说明\n\n".toList ++
    "本规则集由 pf_ruler 工具自动生成，用于指导 AI 编辑器生成符合项目规范的代码。\n\n".toList ++
    "### 规则优先级\n\n".toList ++
    "1. **项目特定规则** - 最高优先级，覆盖其他规则\n".toList ++
    "2. **全局通用规则** - 中等优先级，适用于所有项目\n".toList ++
    "3. **自定义模板规则** - 可选，来自用户配置\n\n".toList ++
    "### 更新规则\n\n".toList ++
    "如需更新规则，请修改 `.ruler` 目录下的相应文件，然后重新运行 `pf_ruler generate --platform=trae` 命令。\n".toList

/-! ## Project initialisation (`cmd/init.go`) -/

/-- The tech stacks that `collectProjectRequirements` offers. -/
def techStackOptions : List Str :=
  ["Go+Gin".toList, "PHP+Laravel".toList, "PHP+ThinkPHP".toList, "PHP+Slim".toList,
   "React+TypeScript".toList, "Vue.js".toList, "Java+SpringBoot".toList, "Python+Django".toList,
   "Python+Flask".toList, "Node.js+Express".toList, "Node.js+Koa".toList, "MySQL".toList,
   "PostgreSQL".toList, "MongoDB".toList, "Redis".toList, "Memcached".toList, "JWT".toList,
   "OAuth2".toList, "Docker".toList, "Kubernetes".toList]

/-- Source `formatList`; `pfx` is its parameter `prefix`, `result` the
`strings.Builder`. -/
def formatList (items : List Str) (pfx : Str) : Str :=
  if items.length = 0 then "暂无配置".toList
  else TrimSpace (items.foldl (fun result item => result ++ (pfx ++ item ++ "\n".toList)) [])

/-- The text of `requirements.md` that `collectProjectRequirements` writes, from
the five answers and the clock as `time.Now().Format` writes it. -/
def requirementsContent (projectName clock : Str) (techStacks : List Str)
    (codeStandards securityConstraints : Str) (aiEditors : List Str) : Str :=
  "# ".toList ++
    projectName ++
    " 项目需求文档\n\n## 项目基本信息\n- 项目名称：".toList ++
    projectName ++
    "\n- 初始化时间：".toList ++
    clock ++
    "\n\n## 技术栈\n".toList ++
    formatList techStacks "- ".toList ++
    "\n\n## 代码规范\n".toList ++
    codeStandards ++
    "\n\n## 安全约束\n".toList ++
    securityConstraints ++
    "\n\n## 目标 AI 编辑器\n".toList ++
    formatList aiEditors "- ".toList ++
    "\n".toList

/-! ## The loader as the specification describes it, and example file systems -/

/-- A file system given by the list of its files, with their contents, and the
list of its directories, with their entries; nothing else exists. -/
def listFS (files : List (Path × Str)) (dirs : List (Path × List DirEntry)) : FileSystem where
  Stat := fun p =>
    if (files.lookup p).isSome || (dirs.lookup p).isSome then .found else .notExist
  ReadFile := fun p =>
    match files.lookup p with
    | some content => .ok content
    | none => .error (.base "no such file or directory".toList)
  ReadDir := fun p =>
    match dirs.lookup p with
    | some entries => .ok entries
    | none => .error (.base "no such file or directory".toList)

/-- A decoder that knows three documents, for the examples. -/
def demoUnmarshal : Unmarshal := fun data =>
  if data = "project_name: demo\ntech_stacks:\n  - Go+Gin\n".toList then
    .ok (some [("project_name".toList, .str "demo".toList),
      ("tech_stacks".toList, .seq [.str "Go+Gin".toList])])
  else if data = "version: 1\n".toList then .ok (some [("version".toList, .other)])
  else if data = "\x7b\x7d".toList then .ok (some [])
  else .error (.base "yaml: unmarshal errors".toList)

/-- The files of the round-trip scenario: a tech-stack file declaring "Go+Gin"
for the project "demo", and a configuration file. -/
def demoFiles : List (Path × Str) :=
  [(["rules".toList, "project".toList, "tech_stack.yaml".toList],
      "project_name: demo\ntech_stacks:\n  - Go+Gin\n".toList),
   (["rules".toList, "config.yaml".toList], "version: 1\n".toList)]

/-- The directories of the round-trip scenario: only `project`. -/
def demoDirs : List (Path × List DirEntry) :=
  [(["rules".toList, "project".toList],
    [{ Name := "tech_stack.yaml".toList, IsDir := false }])]

/-- The rules that one entry of the global directory contributes: those parsed
from it when it is a readable file whose name ends in `.md`, none otherwise. -/
def globalFileRules (l : FileLoader) (fs : FileSystem) (now : Nat) (globalDir : Path)
    (file : DirEntry) : List Rule :=
  if file.IsDir = true ∨ HasSuffix file.Name ".md".toList = false then []
  else
    match fs.ReadFile (globalDir ++ [file.Name]) with
    | .error _ => []
    | .ok content => l.parseMarkdownRules now content file.Name

/-- The technology categories in declared order: keywords and rule generator. -/
def techCategories : List (List Str × (FileLoader → Nat → Str → List Rule)) :=
  [(["PHP".toList], FileLoader.generatePHPRules),
   (["Go".toList], FileLoader.generateGoRules),
   (["Java".toList], FileLoader.generateJavaRules),
   (["Python".toList], FileLoader.generatePythonRules),
   (["Node.js".toList], FileLoader.generateNodeRules),
   (["React".toList, "Vue".toList], FileLoader.generateFrontendRules),
   (["MySQL".toList, "PostgreSQL".toList], FileLoader.generateDatabaseRules),
   (["Redis".toList, "Memcached".toList], FileLoader.generateCacheRules),
   (["Docker".toList, "Kubernetes".toList], FileLoader.generateDevOpsRules)]

/-- The rules that one tech string contributes: those of the first category
one of whose keywords occurs in it, none when there is no such category. -/
def techContribution (l : FileLoader) (now : Nat) (tech : Str) : List Rule :=
  match techCategories.find? (fun c => c.1.any (fun k => Contains tech k)) with
  | some c => c.2 l now tech
  | none => []

/-- The files of the round-trip scenario, seen from the loader `l`: the project
directory exists and has no `requirements.md`; `tech_stack.yaml` is there and
decodes to a mapping with `tech_stacks: ["Go+Gin"]` and `project_name: "demo"`;
`config.yaml` is there and decodes. -/
structure RoundTripScenario (l : FileLoader) (fs : FileSystem) (unmarshal : Unmarshal) :
    Prop where
  projectDir : fs.Stat [l.basePath, "project".toList] ≠ .notExist
  noRequirements :
    fs.Stat [l.basePath, "project".toList, "requirements.md".toList] ≠ .found
  techStackFile : fs.Stat [l.basePath, "project".toList, "tech_stack.yaml".toList] = .found
  techStackDecodes :
    ∃ data m, fs.ReadFile [l.basePath, "project".toList, "tech_stack.yaml".toList] = .ok data ∧
      unmarshal data = .ok (some m) ∧
      mapLookup (some m) "tech_stacks".toList = some (.seq [.str "Go+Gin".toList]) ∧
      mapLookup (some m) "project_name".toList = some (.str "demo".toList)
  configDecodes :
    ∃ data config, fs.ReadFile [l.basePath, "config.yaml".toList] = .ok data ∧
      unmarshal data = .ok config

/-- An enabled rule, for the examples. -/
def demoRule : Rule :=
  { Title := "接口".toList
    Description := "项目 接口 相关的要求和规范".toList
    Type_ := "api".toList
    Content := "REST".toList
    Priority := 4
    Enabled := true
    Tags := ["api".toList, "interface".toList]
    CreatedAt := 0
    UpdatedAt := 0 }

/-- A disabled rule with the given title, for the examples. -/
def hiddenRule (title : Str) : Rule :=
  { demoRule with Title := title, Enabled := false }

/-- The metadata of the round-trip scenario. -/
def demoMetadata : Metadata :=
  { ProjectName := "demo".toList
    TechStacks := ["Go+Gin".toList]
    AIEditors := []
    CreatedAt := 0
    LastUpdatedAt := 0
    Version := "1.0.0".toList }

/-- The rule set as the specification's "with its disabled rules removed":
each of the three sequences keeps its enabled rules, in order. -/
def RuleSet.withoutDisabled (rs : RuleSet) : RuleSet :=
  { rs with
    ProjectRules := rs.ProjectRules.filter (fun r => r.Enabled)
    GlobalRules := rs.GlobalRules.filter (fun r => r.Enabled)
    TemplateRules := rs.TemplateRules.filter (fun r => r.Enabled) }

/-- A decoder that knows one document, whose `tech_stacks` items are numbers. -/
def numbersUnmarshal : Unmarshal := fun data =>
  if data = "tech_stacks:\n  - 1\n  - 2\n".toList then
    .ok (some [("tech_stacks".toList, .seq [.other, .other])])
  else .error (.base "yaml: unmarshal errors".toList)

/-- A project directory whose tech-stack file lists two numbers. -/
def numbersFiles : List (Path × Str) :=
  [(["rules".toList, "project".toList, "tech_stack.yaml".toList],
      "tech_stacks:\n  - 1\n  - 2\n".toList)]

/-- A decoder that, like `yaml.Unmarshal`, reports no error for the empty
document and leaves the map nil; it also knows one configuration document. -/
def emptyDocUnmarshal : Unmarshal := fun data =>
  if data = [] then .ok none
  else if data = "version: 1\n".toList then .ok (some [("version".toList, .other)])
  else .error (.base "yaml: unmarshal errors".toList)

/-- A project whose tech-stack file is empty, with a configuration file. -/
def emptyDocFiles : List (Path × Str) :=
  [(["rules".toList, "project".toList, "tech_stack.yaml".toList], []),
   (["rules".toList, "config.yaml".toList], "version: 1\n".toList)]

/-! ## Facts about the string functions -/

theorem Contains_iff_occurs (s sub : Str) : Contains s sub = true ↔ sub <:+: s := by
  induction s with
  | nil =>
    simp [Contains, HasPrefix, List.isPrefixOf_iff_prefix]
  | cons c s ih =>
    simp only [Contains, HasPrefix, Bool.or_eq_true, List.isPrefixOf_iff_prefix, ih,
      List.infix_cons_iff]

theorem Contains_map_of_Contains (f : Char → Char) (s sub : Str)
    (hfix : ∀ x ∈ sub, f x = x) (h : Contains s sub = true) :
    Contains (s.map f) sub = true := by
  rw [Contains_iff_occurs] at h ⊢
  obtain ⟨a, b, rfl⟩ := h
  refine ⟨a.map f, b.map f, ?_⟩
  have hsub : sub.map f = sub := by
    conv_rhs => rw [← List.map_id sub]
    exact List.map_congr_left (fun x hx => by simpa using hfix x hx)
  simp [hsub]

theorem eq_of_map_eq_of_pre (f : Char → Char) :
    ∀ (k l : Str), (∀ x ∈ k, ∀ c, f c = x → c = x) → l.map f = k → l = k
  | [], l, _, h => by simpa using h
  | x :: k, [], _, h => by simp at h
  | x :: k, c :: l, hpre, h => by
    simp only [List.map_cons, List.cons.injEq] at h
    have h1 : c = x := hpre x (List.mem_cons_self _ _) c h.1
    have h2 : l = k :=
      eq_of_map_eq_of_pre f k l (fun y hy => hpre y (List.mem_cons_of_mem _ hy)) h.2
    rw [h1, h2]

theorem Contains_of_Contains_map (f : Char → Char) (s sub : Str)
    (hpre : ∀ x ∈ sub, ∀ c, f c = x → c = x) (h : Contains (s.map f) sub = true) :
    Contains s sub = true := by
  rw [Contains_iff_occurs] at h ⊢
  obtain ⟨a, b, hab⟩ := h
  have hab2 : s.map f = a ++ (sub ++ b) := by rw [← hab, List.append_assoc]
  obtain ⟨a1, r, hs, _, hr⟩ := List.map_eq_append_iff.mp hab2
  obtain ⟨k1, b1, hr2, hk1, _⟩ := List.map_eq_append_iff.mp hr
  have : k1 = sub := eq_of_map_eq_of_pre f sub k1 hpre hk1
  exact ⟨a1, b1, by rw [hs, hr2, this, List.append_assoc]⟩

theorem toNat_ofNat_of_valid (n : Nat) (h : n.isValidChar) : (Char.ofNat n).toNat = n := by
  unfold Char.ofNat
  rw [dif_pos h]
  rfl

theorem lowerRanges_valid :
    lowerRanges.all (fun r =>
      decide (r.2.2.2 + (r.2.1 - r.1) < 0xD800) ||
      (decide (0xDFFF < r.2.2.2) && decide (r.2.2.2 + (r.2.1 - r.1) < 0x110000))) = true := by
  decide

theorem unicodeToLower_eq_iff (k c : Char) (hk : caseless k.toNat = true) :
    unicodeToLower c = k ↔ c = k := by
  unfold caseless at hk
  rw [List.all_eq_true] at hk
  constructor
  · intro h
    unfold unicodeToLower at h
    cases hf : lowerRanges.find? (inLowerRange c.toNat) with
    | none => rw [hf] at h; exact h
    | some r =>
      rw [hf] at h
      exfalso
      have hmem : r ∈ lowerRanges := List.mem_of_find?_eq_some hf
      have hin : inLowerRange c.toNat r = true := List.find?_some hf
      have hval := List.all_eq_true.mp lowerRanges_valid r hmem
      have hkr := hk r hmem
      simp only [inLowerRange, Bool.and_eq_true, decide_eq_true_eq, beq_iff_eq] at hin
      simp only [Bool.or_eq_true, Bool.and_eq_true, decide_eq_true_eq] at hval hkr
      have hn : (r.2.2.2 + (c.toNat - r.1)).isValidChar := by
        unfold Nat.isValidChar
        omega
      have := toNat_ofNat_of_valid _ hn
      have h2 : Char.ofNat (r.2.2.2 + (c.toNat - r.1)) = k := h
      rw [h2] at this
      omega
  · intro h
    subst h
    unfold unicodeToLower
    have : lowerRanges.find? (inLowerRange c.toNat) = none := by
      rw [List.find?_eq_none]
      intro r hmem
      have hkr := hk r hmem
      simp only [Bool.or_eq_true, Bool.and_eq_true, decide_eq_true_eq] at hkr
      simp only [inLowerRange, Bool.and_eq_true, decide_eq_true_eq, beq_iff_eq, not_and]
      omega
    rw [this]

/-! ## Facts about the parsers -/

theorem TrimSpace_getLast (s : Str) (c : Char) (h : (TrimSpace s).getLast? = some c) :
    isSpace c = false := by
  unfold TrimSpace at h
  rw [List.getLast?_reverse] at h
  have := List.head?_dropWhile_not isSpace (s.dropWhile isSpace).reverse
  rw [h] at this
  exact this

theorem headerText_TrimSpace_ne_nil (raw : Str) (h : isHeader (TrimSpace raw) = true) :
    headerText (TrimSpace raw) ≠ [] := by
  intro hnil
  unfold isHeader at h
  unfold headerText TrimPrefix at hnil
  rw [if_pos h] at hnil
  unfold HasPrefix at h
  rw [List.isPrefixOf_iff_prefix, List.prefix_iff_eq_append, hnil, List.append_nil] at h
  have := TrimSpace_getLast raw ' ' (by rw [← h]; rfl)
  exact absurd this (by decide)

theorem reqSave_eq (now : Nat) (st : ReqState) :
    reqSave now st = st.rules ++ reqPending now st [] := by
  have hk : st.currentContent ++ keptLines (List.takeWhile (fun x => !isHeader x) []) =
      st.currentContent := by simp [keptLines]
  unfold reqSave reqPending
  rw [hk]
  by_cases h1 : st.inSection = true ∧ st.currentSection ≠ []
  · by_cases h2 : 0 < st.currentContent.length
    · have h3 : st.inSection = true ∧ st.currentSection ≠ [] ∧ 0 < st.currentContent.length :=
        ⟨h1.1, h1.2, h2⟩
      rw [if_pos h3, if_pos h1]
      cases createRuleFromSection now st.currentSection st.currentContent <;> simp
    · have h3 : ¬ (st.inSection = true ∧ st.currentSection ≠ [] ∧
          0 < st.currentContent.length) := fun h => h2 h.2.2
      rw [if_neg h3, if_pos h1]
      have h4 : st.currentContent.length = 0 := by omega
      simp [createRuleFromSection, h4]
  · have h3 : ¬ (st.inSection = true ∧ st.currentSection ≠ [] ∧
        0 < st.currentContent.length) := fun h => h1 ⟨h.1, h.2.1⟩
    rw [if_neg h3, if_neg h1, List.append_nil]

theorem reqStep_header (now : Nat) (st : ReqState) (raw : Str)
    (hh : isHeader (TrimSpace raw) = true) :
    reqStep now st raw =
      { rules := reqSave now st
        currentSection := headerText (TrimSpace raw)
        currentContent := []
        inSection := decide (headerText (TrimSpace raw) ∉ suppressedNames) } := by
  unfold isHeader at hh
  unfold reqStep
  simp only [hh, if_true, headerText, suppressedNames, List.mem_cons, List.mem_singleton,
    List.not_mem_nil, or_false]
  by_cases hs : TrimPrefix (TrimSpace raw) "## ".toList = "项目基本信息".toList ∨
      TrimPrefix (TrimSpace raw) "## ".toList = "技术栈".toList ∨
      TrimPrefix (TrimSpace raw) "## ".toList = "目标 AI 编辑器".toList
  · rw [if_pos hs]; simp only [hs, not_true_eq_false, decide_False]
  · rw [if_neg hs]; simp only [hs, not_false_eq_true, decide_True]

theorem reqStep_body (now : Nat) (st : ReqState) (raw : Str)
    (hh : isHeader (TrimSpace raw) = false) :
    reqStep now st raw =
      if st.inSection = true then
        { st with currentContent := st.currentContent ++ keptLines [TrimSpace raw] }
      else st := by
  unfold isHeader at hh
  unfold reqStep
  simp only [hh, Bool.false_eq_true, if_false]
  by_cases hin : st.inSection = true
  · by_cases hk : TrimSpace raw ≠ [] ∧ HasPrefix (TrimSpace raw) "#".toList = false
    · have hk2 : st.inSection = true ∧ TrimSpace raw ≠ [] ∧
          HasPrefix (TrimSpace raw) "#".toList = false := ⟨hin, hk⟩
      rw [if_pos hk2, if_pos hin]
      have : keptLines [TrimSpace raw] = [TrimSpace raw] := by
        unfold keptLines
        rw [List.filter_cons_of_pos (by simpa using hk), List.filter_nil]
      rw [this]
    · have hk2 : ¬ (st.inSection = true ∧ TrimSpace raw ≠ [] ∧
          HasPrefix (TrimSpace raw) "#".toList = false) := fun h => hk h.2
      rw [if_neg hk2, if_pos hin]
      have : keptLines [TrimSpace raw] = [] := by
        unfold keptLines
        rw [List.filter_cons_of_neg (by simpa using hk), List.filter_nil]
      rw [this, List.append_nil]
  · have hk2 : ¬ (st.inSection = true ∧ TrimSpace raw ≠ [] ∧
        HasPrefix (TrimSpace raw) "#".toList = false) := fun h => hin h.1
    rw [if_neg hk2, if_neg hin]

theorem keptLines_cons (x : Str) (xs : List Str) :
    keptLines (x :: xs) = keptLines [x] ++ keptLines xs := by
  unfold keptLines
  rw [← List.filter_append]
  rfl

theorem filterMap_cons_toList {α β : Type} (f : α → Option β) (a : α) (l : List α) :
    List.filterMap f (a :: l) = (f a).toList ++ List.filterMap f l := by
  rw [List.filterMap_cons]
  cases f a <;> rfl

theorem reqPending_header (now : Nat) (rules : List Rule) (name : Str) (hne : name ≠ [])
    (lines : List Str) :
    reqPending now
        { rules := rules, currentSection := name, currentContent := [],
          inSection := decide (name ∉ suppressedNames) } lines =
      (sectionRule now (name, lines.takeWhile (fun x => !isHeader x))).toList := by
  unfold reqPending sectionRule
  by_cases hs : name ∈ suppressedNames
  · simp [hs]
  · simp [hs, hne]

theorem req_fold (now : Nat) :
    ∀ (raws : List Str) (st : ReqState),
      reqSave now (raws.foldl (reqStep now) st) =
        st.rules ++ reqPending now st (raws.map TrimSpace) ++
          (sections (raws.map TrimSpace)).filterMap (sectionRule now)
  | [], st => by simp [reqSave_eq, sections]
  | raw :: rest, st => by
    rw [List.foldl_cons, req_fold now rest, List.map_cons]
    cases hh : isHeader (TrimSpace raw) with
    | true =>
      have hne := headerText_TrimSpace_ne_nil raw hh
      have hp : reqPending now st (TrimSpace raw :: List.map TrimSpace rest) =
          reqPending now st [] := by
        unfold reqPending
        rw [List.takeWhile_cons]
        simp [hh]
      rw [reqStep_header now st raw hh, reqSave_eq, hp, sections, if_pos hh,
        filterMap_cons_toList, reqPending_header now _ _ hne, List.append_assoc,
        List.append_assoc]
    | false =>
      have htw : List.takeWhile (fun x => !isHeader x)
          (TrimSpace raw :: List.map TrimSpace rest) =
          TrimSpace raw :: List.takeWhile (fun x => !isHeader x) (List.map TrimSpace rest) := by
        rw [List.takeWhile_cons]
        simp [hh]
      have hsec : sections (TrimSpace raw :: List.map TrimSpace rest) =
          sections (List.map TrimSpace rest) := by
        rw [sections]
        simp [hh]
      rw [reqStep_body now st raw hh, hsec]
      congr 1
      by_cases hin : st.inSection = true
      · rw [if_pos hin]
        unfold reqPending
        rw [htw, keptLines_cons (TrimSpace raw)
          (List.takeWhile (fun x => !isHeader x) (List.map TrimSpace rest))]
        simp only [List.append_assoc]
      · rw [if_neg hin]
        unfold reqPending
        simp [hin]

theorem parseRequirementsMarkdown_eq (now : Nat) (content : Str) :
    parseRequirementsMarkdown now content =
      (sections (docLines content)).filterMap (sectionRule now) := by
  unfold parseRequirementsMarkdown docLines
  by_cases hc : content = []
  · subst hc
    rfl
  · rw [if_neg hc, req_fold]
    simp [reqPending]

theorem sections_map_fst :
    ∀ (lines : List Str),
      (sections lines).map (fun sec => sec.1) = (lines.filter isHeader).map headerText
  | [] => rfl
  | line :: rest => by
    cases hh : isHeader line with
    | true =>
      rw [sections, if_pos hh, List.filter_cons_of_pos hh, List.map_cons, List.map_cons,
        sections_map_fst rest]
    | false =>
      rw [sections, if_neg (by simp [hh]), List.filter_cons_of_neg (by simp [hh]),
        sections_map_fst rest]

theorem map_filterMap_eq {α β γ : Type} (f : α → Option β) (proj : β → γ) (g : α → γ)
    (h : ∀ a b, f a = some b → proj b = g a) :
    ∀ (l : List α),
      (l.filterMap f).map proj = (l.filter (fun a => (f a).isSome)).map g
  | [] => rfl
  | a :: l => by
    rw [List.filterMap_cons]
    cases hf : f a with
    | none =>
      rw [List.filter_cons_of_neg (by simp [hf])]
      exact map_filterMap_eq f proj g h l
    | some b =>
      rw [List.filter_cons_of_pos (by simp [hf])]
      simp only [List.map_cons]
      rw [h a b hf, map_filterMap_eq f proj g h l]

theorem createRuleFromSection_some (now : Nat) (name : Str) (body : List Str)
    (hb : body ≠ []) :
    createRuleFromSection now name body = some
      { Title := name
        Description := "项目 ".toList ++ name ++ " 相关的要求和规范".toList
        Type_ := (inferRuleTypeAndTags name).1
        Content := Join body "\n".toList
        Priority :=
          if Contains (ToLower name) "安全".toList || Contains (ToLower name) "性能".toList
          then 5 else 4
        Enabled := true
        Tags := (inferRuleTypeAndTags name).2
        CreatedAt := now
        UpdatedAt := now } := by
  have hl : ¬ body.length = 0 := by
    cases body with
    | nil => exact absurd rfl hb
    | cons a b => simp
  unfold createRuleFromSection
  rw [if_neg hl]

theorem createRuleFromSection_none (now : Nat) (name : Str) :
    createRuleFromSection now name [] = none := rfl

theorem sectionRule_eq_some (now : Nat) (sec : Str × List Str) (r : Rule)
    (h : sectionRule now sec = some r) :
    sec.1 ∉ suppressedNames ∧ keptLines sec.2 ≠ [] ∧
      createRuleFromSection now sec.1 (keptLines sec.2) = some r := by
  unfold sectionRule at h
  by_cases hs : sec.1 ∈ suppressedNames
  · rw [if_pos hs] at h; exact absurd h (by simp)
  · rw [if_neg hs] at h
    refine ⟨hs, ?_, h⟩
    intro hk
    rw [hk, createRuleFromSection_none] at h
    exact absurd h (by simp)

theorem Join_cons_ne_nil (x : Str) (xs : List Str) (sep : Str) (hx : x ≠ []) :
    Join (x :: xs) sep ≠ [] := by
  cases xs with
  | nil => simpa [Join, List.intercalate] using hx
  | cons y ys => simp [Join, List.intercalate, List.intersperse, hx]

theorem Join_keptLines_ne_nil (body : List Str) (h : keptLines body ≠ []) :
    Join (keptLines body) "\n".toList ≠ [] := by
  cases hk : keptLines body with
  | nil => exact absurd hk h
  | cons x xs =>
    have hx : x ∈ keptLines body := by rw [hk]; exact List.mem_cons_self _ _
    unfold keptLines at hx
    have := of_decide_eq_true (List.mem_filter.mp hx).2
    exact Join_cons_ne_nil x xs _ this.1

theorem Contains_ToLower_caseless (s k : Str) (hk : ∀ x ∈ k, caseless x.toNat = true) :
    Contains (ToLower s) k = Contains s k := by
  unfold ToLower
  cases h : Contains s k with
  | true =>
    exact Contains_map_of_Contains unicodeToLower s k
      (fun x hx => (unicodeToLower_eq_iff x x (hk x hx)).mpr rfl) h
  | false =>
    cases h2 : Contains (List.map unicodeToLower s) k with
    | false => rfl
    | true =>
      have := Contains_of_Contains_map unicodeToLower s k
        (fun x hx c hc => (unicodeToLower_eq_iff x c (hk x hx)).mp hc) h2
      rw [h] at this
      exact absurd this (by simp)

theorem Contains_ToLower_anquan (s : Str) :
    Contains (ToLower s) "安全".toList = Contains s "安全".toList :=
  Contains_ToLower_caseless s _ (by decide)

theorem Contains_ToLower_xingneng (s : Str) :
    Contains (ToLower s) "性能".toList = Contains s "性能".toList :=
  Contains_ToLower_caseless s _ (by decide)

theorem mdSave_eq (st : MdState) : mdSave st = st.rules ++ mdPending st [] := by
  have hk : st.currentContent ++ bulletLines (List.takeWhile (fun x => !isHeader x) []) =
      st.currentContent := by simp [bulletLines]
  unfold mdSave mdPending
  rw [hk]
  cases st.currentRule with
  | none => simp
  | some rule =>
    by_cases h : 0 < st.currentContent.length
    · simp only [if_pos h]
    · simp only [if_neg h, List.append_nil]

theorem mdStep_header (l : FileLoader) (now : Nat) (filename : Str) (st : MdState) (raw : Str)
    (hh : isHeader (TrimSpace raw) = true) :
    mdStep l now filename st raw =
      { rules := mdSave st
        currentRule := some
          { Title := headerText (TrimSpace raw)
            Description := "来自 ".toList ++ filename ++ " 的规则".toList
            Type_ := l.inferRuleType (headerText (TrimSpace raw))
            Content := []
            Priority := 4
            Enabled := true
            Tags := l.inferTags (headerText (TrimSpace raw)) filename
            CreatedAt := now
            UpdatedAt := now }
        currentContent := [] } := by
  unfold isHeader at hh
  unfold mdStep
  simp only [hh, if_true, headerText]

theorem bulletLines_cons (x : Str) (xs : List Str) :
    bulletLines (x :: xs) = bulletLines [x] ++ bulletLines xs := by
  unfold bulletLines
  rw [← List.filter_append]
  rfl

theorem mdStep_body (l : FileLoader) (now : Nat) (filename : Str) (st : MdState) (raw : Str)
    (hh : isHeader (TrimSpace raw) = false) :
    mdStep l now filename st raw =
      if st.currentRule ≠ none then
        { st with currentContent := st.currentContent ++ bulletLines [TrimSpace raw] }
      else st := by
  unfold isHeader at hh
  unfold mdStep
  simp only [hh, Bool.false_eq_true, if_false]
  by_cases hr : st.currentRule ≠ none
  · by_cases hb : HasPrefix (TrimSpace raw) "- ".toList = true
    · rw [if_pos ⟨hb, hr⟩, if_pos hr]
      have : bulletLines [TrimSpace raw] = [TrimSpace raw] := by
        simp only [bulletLines, List.filter_cons, List.filter_nil, hb, if_true]
      rw [this]
    · rw [if_neg (fun h => hb h.1), if_pos hr]
      have : bulletLines [TrimSpace raw] = [] := by
        simp only [bulletLines, List.filter_cons, List.filter_nil, hb, Bool.false_eq_true,
          if_false]
      rw [this, List.append_nil]
  · rw [if_neg (fun h => hr h.2), if_neg hr]

theorem mdPending_header (l : FileLoader) (now : Nat) (filename : Str) (rules : List Rule)
    (name : Str) (lines : List Str) :
    mdPending
        { rules := rules
          currentRule := some
            { Title := name
              Description := "来自 ".toList ++ filename ++ " 的规则".toList
              Type_ := l.inferRuleType name
              Content := []
              Priority := 4
              Enabled := true
              Tags := l.inferTags name filename
              CreatedAt := now
              UpdatedAt := now }
          currentContent := [] } lines =
      (mdSectionRule l now filename
        (name, lines.takeWhile (fun x => !isHeader x))).toList := by
  unfold mdPending mdSectionRule
  simp only [List.nil_append]
  by_cases h : 0 < (bulletLines (List.takeWhile (fun x => !isHeader x) lines)).length
  · simp only [if_pos h, Option.toList]
  · simp only [if_neg h, Option.toList]

theorem md_fold (l : FileLoader) (now : Nat) (filename : Str) :
    ∀ (raws : List Str) (st : MdState),
      mdSave (raws.foldl (mdStep l now filename) st) =
        st.rules ++ mdPending st (raws.map TrimSpace) ++
          (sections (raws.map TrimSpace)).filterMap (mdSectionRule l now filename)
  | [], st => by simp [mdSave_eq, sections]
  | raw :: rest, st => by
    rw [List.foldl_cons, md_fold l now filename rest, List.map_cons]
    cases hh : isHeader (TrimSpace raw) with
    | true =>
      have hp : mdPending st (TrimSpace raw :: List.map TrimSpace rest) = mdPending st [] := by
        unfold mdPending
        rw [List.takeWhile_cons]
        simp [hh]
      rw [mdStep_header l now filename st raw hh, mdSave_eq, hp, sections, if_pos hh,
        filterMap_cons_toList, mdPending_header, List.append_assoc, List.append_assoc]
    | false =>
      have htw : List.takeWhile (fun x => !isHeader x)
          (TrimSpace raw :: List.map TrimSpace rest) =
          TrimSpace raw :: List.takeWhile (fun x => !isHeader x) (List.map TrimSpace rest) := by
        rw [List.takeWhile_cons]
        simp [hh]
      have hsec : sections (TrimSpace raw :: List.map TrimSpace rest) =
          sections (List.map TrimSpace rest) := by
        rw [sections]
        simp [hh]
      rw [mdStep_body l now filename st raw hh, hsec]
      congr 1
      cases hr : st.currentRule with
      | none =>
        rw [if_neg (by simp)]
        unfold mdPending
        simp [hr]
      | some rule =>
        rw [if_pos (by simp)]
        unfold mdPending
        rw [htw, bulletLines_cons (TrimSpace raw)
          (List.takeWhile (fun x => !isHeader x) (List.map TrimSpace rest))]
        simp only [hr, List.append_assoc]

theorem parseMarkdownRules_eq (l : FileLoader) (now : Nat) (content filename : Str) :
    l.parseMarkdownRules now content filename =
      (sections (docLines content)).filterMap (mdSectionRule l now filename) := by
  unfold FileLoader.parseMarkdownRules docLines
  rw [md_fold]
  simp [mdPending]

theorem mdSectionRule_eq_some (l : FileLoader) (now : Nat) (filename : Str)
    (sec : Str × List Str) (r : Rule) (h : mdSectionRule l now filename sec = some r) :
    bulletLines sec.2 ≠ [] ∧
      r = { Title := sec.1
            Description := "来自 ".toList ++ filename ++ " 的规则".toList
            Type_ := l.inferRuleType sec.1
            Content := Join (bulletLines sec.2) "\n".toList
            Priority := 4
            Enabled := true
            Tags := l.inferTags sec.1 filename
            CreatedAt := now
            UpdatedAt := now } := by
  unfold mdSectionRule at h
  by_cases hb : 0 < (bulletLines sec.2).length
  · rw [if_pos hb] at h
    refine ⟨?_, (Option.some.inj h).symm⟩
    intro hnil
    rw [hnil] at hb
    exact absurd hb (by simp)
  · rw [if_neg hb] at h
    exact absurd h (by simp)

theorem mdSectionRule_isSome (l : FileLoader) (now : Nat) (filename : Str)
    (sec : Str × List Str) :
    (mdSectionRule l now filename sec).isSome = decide (bulletLines sec.2 ≠ []) := by
  unfold mdSectionRule
  cases hb : bulletLines sec.2 with
  | nil => simp
  | cons a b => simp

theorem Split_cons (c : Char) (s : Str) (sep : Char) :
    Split (c :: s) sep =
      if c = sep then [] :: Split s sep
      else match Split s sep with
        | [] => [[c]]
        | piece :: rest => (c :: piece) :: rest := by
  rw [Split]

theorem Split_ne_nil : ∀ (s : Str) (sep : Char), Split s sep ≠ []
  | [], _ => by simp [Split]
  | c :: s, sep => by
    rw [Split_cons]
    by_cases hc : c = sep
    · rw [if_pos hc]; simp
    · rw [if_neg hc]
      cases Split s sep <;> simp

theorem Split_append_sep (sep : Char) :
    ∀ (a b : Str), Split (a ++ sep :: b) sep = Split a sep ++ Split b sep
  | [], b => by simp [Split]
  | c :: a, b => by
    have ih := Split_append_sep sep a b
    have hne := Split_ne_nil a sep
    rw [List.cons_append, Split_cons, Split_cons, ih]
    by_cases hc : c = sep
    · rw [if_pos hc, if_pos hc, List.cons_append]
    · rw [if_neg hc, if_neg hc]
      cases hs : Split a sep with
      | nil => exact absurd hs hne
      | cons p ps => simp

theorem sections_append_of_no_header :
    ∀ (pre rest : List Str), (∀ x ∈ pre, isHeader x = false) →
      sections (pre ++ rest) = sections rest
  | [], _, _ => rfl
  | x :: pre, rest, h => by
    have hx : isHeader x = false := h x (List.mem_cons_self _ _)
    rw [List.cons_append, sections, if_neg (by simp [hx])]
    exact sections_append_of_no_header pre rest (fun y hy => h y (List.mem_cons_of_mem _ hy))

theorem inferRuleTypeAndTags_eq_table (sectionName : Str) :
    inferRuleTypeAndTags sectionName = classifyByTable sectionName := by
  unfold inferRuleTypeAndTags classifyByTable
  simp only [classifierBranches, List.find?_cons, branchHolds, List.any_cons, List.any_nil,
    Bool.or_false, List.find?_nil]
  generalize ToLower sectionName = lower
  split_ifs with h1 h2 h3 h4 h5 h6 h7 h8 h9 <;> simp only [*, Bool.false_eq_true]

theorem Contains_ToLower_daima (s : Str) :
    Contains (ToLower s) "代码".toList = Contains s "代码".toList :=
  Contains_ToLower_caseless s _ (by decide)

theorem Contains_ToLower_ceshi (s : Str) :
    Contains (ToLower s) "测试".toList = Contains s "测试".toList :=
  Contains_ToLower_caseless s _ (by decide)

theorem find?_eq_of_first {α : Type} (p : α → Bool) :
    ∀ (l : List α) (i : Nat) (b : α), l[i]? = some b → p b = true →
      (∀ j, j < i → ∀ c, l[j]? = some c → p c = false) → l.find? p = some b
  | [], i, b, h, _, _ => by simp at h
  | a :: l, 0, b, h, hb, _ => by
    simp only [List.getElem?_cons_zero, Option.some.injEq] at h
    rw [List.find?_cons, h, hb]
  | a :: l, i + 1, b, h, hb, hlt => by
    have ha : p a = false := hlt 0 (Nat.succ_pos i) a (by simp)
    rw [List.find?_cons, ha]
    simp only [List.getElem?_cons_succ] at h
    exact find?_eq_of_first p l i b h hb
      (fun j hj c hc => hlt (j + 1) (Nat.succ_lt_succ hj) c (by simpa using hc))

theorem inferRuleType_eq_table (l : FileLoader) (title : Str) :
    l.inferRuleType title =
      match globalTypeTable.find? (fun e => Contains (ToLower title) e.1) with
      | some e => e.2
      | none => "general".toList := by
  unfold FileLoader.inferRuleType
  simp only [globalTypeTable, List.find?_cons, List.find?_nil]
  generalize ToLower title = lower
  split_ifs with h1 h2 h3 h4 h5 h6 h7 <;> simp only [*, Bool.false_eq_true]

theorem titleChain_append (c1 c2 c3 c4 : Prop) [Decidable c1] [Decidable c2] [Decidable c3]
    [Decidable c4] (T : List Str) (a1 a2 a3 a4 : Str) :
    (if c1 then T ++ [a1] else if c2 then T ++ [a2] else if c3 then T ++ [a3]
      else if c4 then T ++ [a4] else T) =
    T ++ (if c1 then [a1] else if c2 then [a2] else if c3 then [a3]
      else if c4 then [a4] else []) := by
  split_ifs <;> simp

theorem inferTags_eq_table (l : FileLoader) (title filename : Str) :
    l.inferTags title filename =
      (fileMarkers.find? (fun m => Contains (ToLower filename) m)).toList ++
        ((titleTagTable.find? (fun e => Contains title e.1)).map (fun e => e.2)).toList := by
  unfold FileLoader.inferTags
  simp only [titleChain_append, Contains_ToLower_anquan, Contains_ToLower_xingneng,
    Contains_ToLower_daima, Contains_ToLower_ceshi, List.nil_append]
  generalize ToLower filename = lower
  congr 1
  · simp only [fileMarkers, List.find?_cons, List.find?_nil]
    split_ifs <;> simp only [*, Bool.false_eq_true] <;> rfl
  · simp only [titleTagTable, List.find?_cons, List.find?_nil]
    split_ifs <;> simp only [*, Bool.false_eq_true] <;> rfl

/-! ## The requirements document parser: claims -/

/-- C1, as the claim states it, fails on the lines of the document as they
are written: in "## A\n #x" the header line is followed by the non-blank line
" #x", which does not start with `#`, yet the parser gives no rule; and
"\t## A\nbody" has no line that starts with "## ", yet the parser gives one
rule, titled "A". -/
theorem parseRequirementsMarkdown_raw_lines_differ :
    (Split "## A\n #x".toList '\n' = ["## A".toList, " #x".toList] ∧
      isHeader "## A".toList = true ∧ headerText "## A".toList ∉ suppressedNames ∧
      isHeader " #x".toList = false ∧
      " #x".toList ≠ [] ∧ TrimSpace " #x".toList ≠ [] ∧
      HasPrefix " #x".toList "#".toList = false ∧
      parseRequirementsMarkdown 0 "## A\n #x".toList = []) ∧
    ((Split "\t## A\nbody".toList '\n').filter isHeader = [] ∧
      (parseRequirementsMarkdown 0 "\t## A\nbody".toList).map (fun r => r.Title) =
        ["A".toList]) := by
  decide

/-- C1, amended: take the lines of a requirements document white-space
trimmed, as the parser reads them. If every section (a trimmed line that
starts with "## ", with the trimmed lines up to the next such line) has a name
other than the three suppressed ones and at least one line that is neither
blank nor starts with `#`, the parser returns one rule per header line: the
titles are the header texts in document order, so there are as many rules as
header lines (the headers need not even be distinct); a document without such
a header line gives no rule. -/
theorem parseRequirementsMarkdown_one_rule_per_header (now : Nat) (content : Str)
    (h : ∀ sec ∈ sections (docLines content),
      sec.1 ∉ suppressedNames ∧ ∃ x ∈ sec.2, x ≠ [] ∧ HasPrefix x "#".toList = false) :
    (parseRequirementsMarkdown now content).map (fun r => r.Title) =
        ((docLines content).filter isHeader).map headerText ∧
      (parseRequirementsMarkdown now content).length =
        ((docLines content).filter isHeader).length ∧
      ((docLines content).filter isHeader = [] → parseRequirementsMarkdown now content = []) := by
  have hall : ∀ sec ∈ sections (docLines content),
      (fun a => (sectionRule now a).isSome) sec = true := by
    intro sec hsec
    obtain ⟨hs, x, hx, hx1, hx2⟩ := h sec hsec
    have hk : keptLines sec.2 ≠ [] := by
      intro hnil
      have : x ∈ keptLines sec.2 := by
        unfold keptLines
        exact List.mem_filter.mpr ⟨hx, decide_eq_true ⟨hx1, hx2⟩⟩
      rw [hnil] at this
      exact absurd this (List.not_mem_nil _)
    simp only [sectionRule, if_neg hs, createRuleFromSection_some now sec.1 _ hk,
      Option.isSome_some]
  have htitles : (parseRequirementsMarkdown now content).map (fun r => r.Title) =
      ((docLines content).filter isHeader).map headerText := by
    rw [parseRequirementsMarkdown_eq,
      map_filterMap_eq (sectionRule now) (fun r => r.Title) (fun sec => sec.1) ?_,
      List.filter_eq_self.mpr hall, sections_map_fst]
    intro sec r hr
    obtain ⟨_, hk, hc⟩ := sectionRule_eq_some now sec r hr
    rw [createRuleFromSection_some now sec.1 _ hk] at hc
    rw [← Option.some.inj hc]
  have hlen : (parseRequirementsMarkdown now content).length =
      ((docLines content).filter isHeader).length := by
    have := congrArg List.length htitles
    simpa using this
  refine ⟨htitles, hlen, ?_⟩
  intro hnone
  rw [hnone] at hlen
  exact List.length_eq_zero.mp hlen

/-- C2: no rule returned by the requirements parser is titled "项目基本信息",
"技术栈" or "目标 AI 编辑器", whatever the document. -/
theorem parseRequirementsMarkdown_suppressed (now : Nat) (content : Str) (r : Rule)
    (hr : r ∈ parseRequirementsMarkdown now content) :
    r.Title ≠ "项目基本信息".toList ∧ r.Title ≠ "技术栈".toList ∧
      r.Title ≠ "目标 AI 编辑器".toList := by
  rw [parseRequirementsMarkdown_eq, List.mem_filterMap] at hr
  obtain ⟨sec, _, hsec⟩ := hr
  obtain ⟨hs, hk, hc⟩ := sectionRule_eq_some now sec r hsec
  rw [createRuleFromSection_some now sec.1 _ hk] at hc
  rw [← Option.some.inj hc]
  simp only [suppressedNames, List.mem_cons, List.mem_singleton, List.not_mem_nil, or_false,
    not_or] at hs
  exact hs

/-- C3: `createRuleFromSection` on a non-empty body returns a rule whose
priority is 5 when the section name contains "安全" or "性能" and 4 otherwise,
and so has every rule returned by the requirements parser, relative to its
title. -/
theorem createRuleFromSection_priority (now : Nat) (name : Str) (body : List Str)
    (content : Str) :
    (body ≠ [] → ∃ r, createRuleFromSection now name body = some r ∧
      r.Priority =
        if Contains name "安全".toList = true ∨ Contains name "性能".toList = true then 5
        else 4) ∧
    (∀ r ∈ parseRequirementsMarkdown now content,
      r.Priority =
        if Contains r.Title "安全".toList = true ∨ Contains r.Title "性能".toList = true then 5
        else 4) := by
  have key : ∀ (nm : Str) (bd : List Str), bd ≠ [] →
      ∃ r, createRuleFromSection now nm bd = some r ∧ r.Title = nm ∧
        r.Priority =
          if Contains nm "安全".toList = true ∨ Contains nm "性能".toList = true then 5
          else 4 := by
    intro nm bd hb
    refine ⟨_, createRuleFromSection_some now nm bd hb, rfl, ?_⟩
    simp only [Contains_ToLower_anquan, Contains_ToLower_xingneng, Bool.or_eq_true]
  constructor
  · intro hb
    obtain ⟨r, h1, _, h3⟩ := key name body hb
    exact ⟨r, h1, h3⟩
  · intro r hr
    rw [parseRequirementsMarkdown_eq, List.mem_filterMap] at hr
    obtain ⟨sec, _, hsec⟩ := hr
    obtain ⟨_, hk, hc⟩ := sectionRule_eq_some now sec r hsec
    obtain ⟨r2, h1, h2, h3⟩ := key sec.1 _ hk
    rw [hc] at h1
    rw [Option.some.inj h1, h2]
    exact h3

/-- C4: the rules returned by the requirements parser are, in document order,
those of a subsequence of the sections of the document; each has the section
name as title, the description "项目 <section name> 相关的要求和规范", as content
the trimmed lines of the section that are neither blank nor start with `#`,
joined with a line feed, and is enabled; the content is never empty. -/
theorem parseRequirementsMarkdown_fields (now : Nat) (content : Str) :
    (∃ secs, List.Sublist secs (sections (docLines content)) ∧
      (parseRequirementsMarkdown now content).map
          (fun r => (r.Title, r.Description, r.Content, r.Enabled)) =
        secs.map (fun sec =>
          (sec.1, "项目 ".toList ++ sec.1 ++ " 相关的要求和规范".toList,
            Join (keptLines sec.2) "\n".toList, true))) ∧
    (∀ r ∈ parseRequirementsMarkdown now content, r.Content ≠ []) := by
  constructor
  · refine ⟨(sections (docLines content)).filter (fun a => (sectionRule now a).isSome),
      List.filter_sublist _, ?_⟩
    rw [parseRequirementsMarkdown_eq]
    apply map_filterMap_eq
    intro sec r hr
    obtain ⟨_, hk, hc⟩ := sectionRule_eq_some now sec r hr
    rw [createRuleFromSection_some now sec.1 _ hk] at hc
    rw [← Option.some.inj hc]
  · intro r hr
    rw [parseRequirementsMarkdown_eq, List.mem_filterMap] at hr
    obtain ⟨sec, _, hsec⟩ := hr
    obtain ⟨_, hk, hc⟩ := sectionRule_eq_some now sec r hsec
    rw [createRuleFromSection_some now sec.1 _ hk] at hc
    rw [← Option.some.inj hc]
    exact Join_keptLines_ne_nil sec.2 hk

theorem parseRequirementsMarkdown_one_rule_per_header_witness :
    (∀ sec ∈ sections (docLines "# demo\n## 代码规范\n- snake_case\n\n## 安全约束\n  加密存储 ".toList),
      sec.1 ∉ suppressedNames ∧ ∃ x ∈ sec.2, x ≠ [] ∧ HasPrefix x "#".toList = false) ∧
    (parseRequirementsMarkdown 0
        "# demo\n## 代码规范\n- snake_case\n\n## 安全约束\n  加密存储 ".toList).map
      (fun r => r.Title) = ["代码规范".toList, "安全约束".toList] :=
  ⟨by decide,
    (parseRequirementsMarkdown_one_rule_per_header 0
      "# demo\n## 代码规范\n- snake_case\n\n## 安全约束\n  加密存储 ".toList (by decide)).1.trans
      (by decide)⟩

theorem parseRequirementsMarkdown_suppressed_witness :
    ({ Title := "接口".toList
       Description := "项目 接口 相关的要求和规范".toList
       Type_ := "api".toList
       Content := "REST".toList
       Priority := 4
       Enabled := true
       Tags := ["api".toList, "interface".toList, "接口".toList]
       CreatedAt := 0
       UpdatedAt := 0 } : Rule) ∈
        parseRequirementsMarkdown 0 "## 技术栈\nGo\n## 接口\nREST".toList ∧
      "接口".toList ≠ "项目基本信息".toList ∧ "接口".toList ≠ "技术栈".toList ∧
      "接口".toList ≠ "目标 AI 编辑器".toList :=
  ⟨by decide,
    parseRequirementsMarkdown_suppressed 0 "## 技术栈\nGo\n## 接口\nREST".toList
      { Title := "接口".toList
        Description := "项目 接口 相关的要求和规范".toList
        Type_ := "api".toList
        Content := "REST".toList
        Priority := 4
        Enabled := true
        Tags := ["api".toList, "interface".toList, "接口".toList]
        CreatedAt := 0
        UpdatedAt := 0 } (by decide)⟩

theorem createRuleFromSection_priority_witness :
    (["加密存储".toList] ≠ [] ∧
      ∃ r, createRuleFromSection 0 "安全约束".toList ["加密存储".toList] = some r ∧
        r.Priority = 5) ∧
    (({ Title := "接口".toList
        Description := "项目 接口 相关的要求和规范".toList
        Type_ := "api".toList
        Content := "REST".toList
        Priority := 4
        Enabled := true
        Tags := ["api".toList, "interface".toList, "接口".toList]
        CreatedAt := 0
        UpdatedAt := 0 } : Rule) ∈
        parseRequirementsMarkdown 0 "## 技术栈\nGo\n## 接口\nREST".toList ∧
      (4 : Int) =
        if Contains "接口".toList "安全".toList = true ∨
          Contains "接口".toList "性能".toList = true then 5 else 4) :=
  ⟨⟨by decide,
      (createRuleFromSection_priority 0 "安全约束".toList ["加密存储".toList] []).1 (by decide)⟩,
    by decide,
    (createRuleFromSection_priority 0 [] [] "## 技术栈\nGo\n## 接口\nREST".toList).2
      { Title := "接口".toList
        Description := "项目 接口 相关的要求和规范".toList
        Type_ := "api".toList
        Content := "REST".toList
        Priority := 4
        Enabled := true
        Tags := ["api".toList, "interface".toList, "接口".toList]
        CreatedAt := 0
        UpdatedAt := 0 } (by decide)⟩

theorem parseRequirementsMarkdown_fields_witness :
    ({ Title := "接口".toList
       Description := "项目 接口 相关的要求和规范".toList
       Type_ := "api".toList
       Content := "REST\n- JSON".toList
       Priority := 4
       Enabled := true
       Tags := ["api".toList, "interface".toList, "接口".toList]
       CreatedAt := 0
       UpdatedAt := 0 } : Rule) ∈
        parseRequirementsMarkdown 0 "## 接口\n  REST\n\n### v1\n- JSON\n## 空\n".toList ∧
      "REST\n- JSON".toList ≠ [] :=
  ⟨by decide,
    (parseRequirementsMarkdown_fields 0 "## 接口\n  REST\n\n### v1\n- JSON\n## 空\n".toList).2
      { Title := "接口".toList
        Description := "项目 接口 相关的要求和规范".toList
        Type_ := "api".toList
        Content := "REST\n- JSON".toList
        Priority := 4
        Enabled := true
        Tags := ["api".toList, "interface".toList, "接口".toList]
        CreatedAt := 0
        UpdatedAt := 0 } (by decide)⟩

/-! ## The section classifier: claims -/

/-- C5: `inferRuleTypeAndTags` returns the type of the first branch of the
table `classifierBranches` (declared order) one of whose keywords occurs in the
lower-cased title, `general` when there is none, and as tags the fixed tags of
that branch followed by the lower-cased title; so a title containing both
"代码规范" and "安全约束" is typed `code_style`. -/
theorem inferRuleTypeAndTags_first_branch (sectionName : Str) :
    inferRuleTypeAndTags sectionName =
        (match classifierBranches.find? (branchHolds (ToLower sectionName)) with
          | some b => (b.2.1, b.2.2 ++ [ToLower sectionName])
          | none =>
            ("general".toList,
              ["general".toList, "requirements".toList] ++ [ToLower sectionName])) ∧
      (Contains sectionName "代码规范".toList = true →
        Contains sectionName "安全约束".toList = true →
        (inferRuleTypeAndTags sectionName).1 = "code_style".toList) := by
  refine ⟨inferRuleTypeAndTags_eq_table sectionName, ?_⟩
  intro h1 _
  have h : Contains (ToLower sectionName) "代码规范".toList = true := by
    rw [Contains_ToLower_caseless sectionName _ (by decide)]
    exact h1
  unfold inferRuleTypeAndTags
  simp only [h, Bool.true_or, if_true]

theorem inferRuleTypeAndTags_first_branch_witness :
    Contains "代码规范与安全约束".toList "代码规范".toList = true ∧
      Contains "代码规范与安全约束".toList "安全约束".toList = true ∧
      (inferRuleTypeAndTags "代码规范与安全约束".toList).1 = "code_style".toList :=
  ⟨by decide, by decide,
    (inferRuleTypeAndTags_first_branch "代码规范与安全约束".toList).2 (by decide) (by decide)⟩

/-- C6, as the claim states it, fails: the title "代码规范与安全约束" satisfies
the conditions of two branches (`code_style` and `security`); the classifier
types it `code_style`, although the title "安全约束" alone is typed
`security`. -/
theorem classifier_conditions_overlap :
    ¬ ((classifierBranches.filter
          (branchHolds (ToLower "代码规范与安全约束".toList))).length ≤ 1) ∧
      (inferRuleTypeAndTags "代码规范与安全约束".toList).1 = "code_style".toList ∧
      (inferRuleTypeAndTags "安全约束".toList).1 = "security".toList := by
  decide

/-- C6, amended: by construction of the keyword list the keywords are
separated, a title that is exactly one keyword satisfies the condition of the
branch of that keyword only; and whenever the conditions of several branches
hold, the first branch in declared order gives the type and the tags. -/
theorem classifier_keywords_separated_first_wins :
    (∀ b ∈ classifierBranches, ∀ k ∈ b.1, ∀ c ∈ classifierBranches,
      branchHolds (ToLower k) c = true → c = b) ∧
    (∀ (title : Str) (i : Nat) (b : List Str × Str × List Str),
      classifierBranches[i]? = some b → branchHolds (ToLower title) b = true →
      (∀ j, j < i → ∀ c, classifierBranches[j]? = some c →
        branchHolds (ToLower title) c = false) →
      inferRuleTypeAndTags title = (b.2.1, b.2.2 ++ [ToLower title])) := by
  constructor
  · decide
  · intro title i b hb hp hfirst
    rw [inferRuleTypeAndTags_eq_table, classifyByTable,
      find?_eq_of_first (branchHolds (ToLower title)) classifierBranches i b hb hp hfirst]

theorem classifier_keywords_separated_first_wins_witness :
    (branchHolds (ToLower "安全约束".toList)
        (["安全约束".toList, "安全规范".toList], "security".toList,
          ["security".toList, "encryption".toList]) = true ∧
      (["安全约束".toList, "安全规范".toList], "security".toList,
          ["security".toList, "encryption".toList]) =
        (["安全约束".toList, "安全规范".toList], "security".toList,
          ["security".toList, "encryption".toList])) ∧
    inferRuleTypeAndTags "代码规范与安全约束".toList =
      ("code_style".toList,
        ["code".toList, "style".toList, "naming".toList] ++
          [ToLower "代码规范与安全约束".toList]) :=
  ⟨⟨by decide,
      classifier_keywords_separated_first_wins.1
        (["安全约束".toList, "安全规范".toList], "security".toList,
          ["security".toList, "encryption".toList]) (by decide)
        "安全约束".toList (by decide)
        (["安全约束".toList, "安全规范".toList], "security".toList,
          ["security".toList, "encryption".toList]) (by decide) (by decide)⟩,
    classifier_keywords_separated_first_wins.2 "代码规范与安全约束".toList 0
      (["代码规范".toList, "编码规范".toList], "code_style".toList,
        ["code".toList, "style".toList, "naming".toList])
      (by decide) (by decide) (by decide)⟩

/-! ## The global rule file parser: claims -/

/-- C7: `parseMarkdownRules` returns one rule per `"## "` section of the text
that has at least one trimmed line starting with `"- "`, in document order and
titled with the header text; sections without such a line, wherever they
stand, give no rule, so the number of rules is the number of sections with a
bullet line. -/
theorem parseMarkdownRules_one_rule_per_bullet_section (l : FileLoader) (now : Nat)
    (content filename : Str) :
    (l.parseMarkdownRules now content filename).map (fun r => r.Title) =
        ((sections (docLines content)).filter
          (fun sec => decide (bulletLines sec.2 ≠ []))).map (fun sec => sec.1) ∧
      (l.parseMarkdownRules now content filename).length =
        ((sections (docLines content)).filter
          (fun sec => decide (bulletLines sec.2 ≠ []))).length := by
  have htitles : (l.parseMarkdownRules now content filename).map (fun r => r.Title) =
      ((sections (docLines content)).filter
        (fun sec => decide (bulletLines sec.2 ≠ []))).map (fun sec => sec.1) := by
    rw [parseMarkdownRules_eq,
      map_filterMap_eq (mdSectionRule l now filename) (fun r => r.Title) (fun sec => sec.1) ?_]
    · simp only [mdSectionRule_isSome]
    · intro sec r hr
      rw [(mdSectionRule_eq_some l now filename sec r hr).2]
  refine ⟨htitles, ?_⟩
  have := congrArg List.length htitles
  simpa using this

/-- C8: the rules of `parseMarkdownRules`, in order, are those of the sections
with a bullet line: the content is the trimmed lines of the section that start
with `"- "`, prefix kept, joined with a line feed; the description is
"来自 <filename> 的规则", the priority 4, and the rule is enabled.  Lines before
the first header, bullet lines included, do not change the result. -/
theorem parseMarkdownRules_fields (l : FileLoader) (now : Nat) (content filename : Str) :
    (l.parseMarkdownRules now content filename).map
        (fun r => (r.Title, r.Content, r.Description, r.Priority, r.Enabled)) =
      ((sections (docLines content)).filter
        (fun sec => decide (bulletLines sec.2 ≠ []))).map
        (fun sec => (sec.1, Join (bulletLines sec.2) "\n".toList,
          "来自 ".toList ++ filename ++ " 的规则".toList, (4 : Int), true)) ∧
    (∀ pre : Str, (∀ x ∈ docLines pre, isHeader x = false) →
      l.parseMarkdownRules now (pre ++ '\n' :: content) filename =
        l.parseMarkdownRules now content filename) := by
  constructor
  · rw [parseMarkdownRules_eq,
      map_filterMap_eq (mdSectionRule l now filename)
        (fun r => (r.Title, r.Content, r.Description, r.Priority, r.Enabled))
        (fun sec => (sec.1, Join (bulletLines sec.2) "\n".toList,
          "来自 ".toList ++ filename ++ " 的规则".toList, (4 : Int), true)) ?_]
    · simp only [mdSectionRule_isSome]
    · intro sec r hr
      rw [(mdSectionRule_eq_some l now filename sec r hr).2]
  · intro pre hpre
    rw [parseMarkdownRules_eq, parseMarkdownRules_eq]
    have hd : docLines (pre ++ '\n' :: content) = docLines pre ++ docLines content := by
      unfold docLines
      rw [Split_append_sep, List.map_append]
    rw [hd, sections_append_of_no_header _ _ hpre]

theorem parseMarkdownRules_fields_witness :
    (∀ x ∈ docLines "# Go\n- orphan".toList, isHeader x = false) ∧
      FileLoader.parseMarkdownRules ⟨[]⟩ 0
          ("# Go\n- orphan".toList ++ '\n' :: "## 安全\n- a\ntext\n - b".toList)
          "go.md".toList =
        FileLoader.parseMarkdownRules ⟨[]⟩ 0 "## 安全\n- a\ntext\n - b".toList
          "go.md".toList :=
  ⟨by decide,
    (parseMarkdownRules_fields ⟨[]⟩ 0 "## 安全\n- a\ntext\n - b".toList "go.md".toList).2
      "# Go\n- orphan".toList (by decide)⟩

/-- C9: `inferRuleType` returns the type of the first keyword of
`globalTypeTable` (安全, 性能, 代码, 测试, 部署, 数据库, 缓存, in this order) that
occurs in the lower-cased title, and `general` when none does; every title
containing "安全" is typed `security`. -/
theorem inferRuleType_first_keyword (l : FileLoader) (title : Str) :
    l.inferRuleType title =
        (match globalTypeTable.find? (fun e => Contains (ToLower title) e.1) with
          | some e => e.2
          | none => "general".toList) ∧
      (Contains title "安全".toList = true → l.inferRuleType title = "security".toList) := by
  refine ⟨inferRuleType_eq_table l title, ?_⟩
  intro h
  unfold FileLoader.inferRuleType
  simp only [Contains_ToLower_anquan, h, if_true]

theorem inferRuleType_first_keyword_witness :
    Contains "性能与安全".toList "安全".toList = true ∧
      FileLoader.inferRuleType ⟨[]⟩ "性能与安全".toList = "security".toList :=
  ⟨by decide, (inferRuleType_first_keyword ⟨[]⟩ "性能与安全".toList).2 (by decide)⟩

/-- C10: `inferTags` returns the file name tag, if any, followed by the title
tag, if any: the file name tag is the first marker of `fileMarkers` (php, go,
java, python, nodejs, frontend, database, cache, devops) occurring in the
lower-cased file name, the title tag that of the first keyword of
`titleTagTable` (安全, 性能, 代码, 测试) occurring in the title; there are at
most two tags. -/
theorem inferTags_file_then_title (l : FileLoader) (title filename : Str) :
    l.inferTags title filename =
        (fileMarkers.find? (fun m => Contains (ToLower filename) m)).toList ++
          ((titleTagTable.find? (fun e => Contains title e.1)).map (fun e => e.2)).toList ∧
      (l.inferTags title filename).length ≤ 2 := by
  have h := inferTags_eq_table l title filename
  refine ⟨h, ?_⟩
  rw [h, List.length_append]
  have h1 : ∀ o : Option Str, o.toList.length ≤ 1 := by
    intro o; cases o <;> simp
  have := h1 (fileMarkers.find? (fun m => Contains (ToLower filename) m))
  have := h1 ((titleTagTable.find? (fun e => Contains title e.1)).map (fun e => e.2))
  omega

/-! ## The rule loader: facts and claims -/

theorem LoadProjectRules_absent (l : FileLoader) (fs : FileSystem) (unmarshal : Unmarshal)
    (now : Nat) (h : fs.Stat [l.basePath, "project".toList] = .notExist) :
    l.LoadProjectRules fs unmarshal now = .ok [] := by
  unfold FileLoader.LoadProjectRules
  simp only [h, if_true]

theorem LoadProjectRules_present (l : FileLoader) (fs : FileSystem) (unmarshal : Unmarshal)
    (now : Nat) (content : Str) (techStack : Option YamlMap)
    (h : fs.Stat [l.basePath, "project".toList] ≠ .notExist)
    (hreq : readRequirements fs
      [l.basePath, "project".toList, "requirements.md".toList] = .ok content)
    (htech : readTechStack fs unmarshal
      [l.basePath, "project".toList, "tech_stack.yaml".toList] = .ok techStack) :
    l.LoadProjectRules fs unmarshal now =
      .ok (assembleProjectRules now techStack (parseRequirementsMarkdown now content)) := by
  unfold FileLoader.LoadProjectRules
  simp only [h, if_false, List.cons_append, List.nil_append, hreq, htech]

theorem assembleProjectRules_eq (now : Nat) (techStack : Option YamlMap)
    (requirementsRules : List Rule) :
    assembleProjectRules now techStack requirementsRules =
      if getStringSlice techStack "tech_stacks".toList = [] then
        (if requirementsRules = [] then fallbackRules now else requirementsRules)
      else
        techStackRule now (getStringSlice techStack "tech_stacks".toList) ::
          requirementsRules := by
  unfold assembleProjectRules
  cases hs : getStringSlice techStack "tech_stacks".toList with
  | nil =>
    simp only [List.length_nil, Nat.lt_irrefl, if_false, ite_self, List.nil_append, if_true,
      List.length_eq_zero]
    by_cases hr : requirementsRules = []
    · simp only [hr, if_true, List.nil_append]
    · simp only [hr, if_false]
  | cons a b =>
    have hnn : (techStack.isSome && indexNotNil techStack "tech_stacks".toList) = true := by
      unfold getStringSlice at hs
      unfold indexNotNil
      cases techStack with
      | none => simp [mapLookup] at hs
      | some m =>
        cases hm : mapLookup (some m) "tech_stacks".toList with
        | none => rw [hm] at hs; simp at hs
        | some v =>
          rw [hm] at hs
          cases v <;> simp at hs ⊢
    simp only [hnn, if_true, List.length_cons, Nat.succ_pos, Nat.zero_lt_succ, List.nil_append,
      List.singleton_append, List.length_eq_zero, List.cons_ne_nil, if_false, reduceCtorEq]


theorem assembleProjectRules_ne_nil (now : Nat) (techStack : Option YamlMap)
    (requirementsRules : List Rule) :
    assembleProjectRules now techStack requirementsRules ≠ [] := by
  rw [assembleProjectRules_eq]
  split_ifs with h1 h2
  · simp [fallbackRules]
  · exact h2
  · simp

theorem LoadProjectRules_ok_present (l : FileLoader) (fs : FileSystem) (unmarshal : Unmarshal)
    (now : Nat) (rules : List Rule)
    (h : fs.Stat [l.basePath, "project".toList] ≠ .notExist)
    (hok : l.LoadProjectRules fs unmarshal now = .ok rules) :
    ∃ content techStack,
      readRequirements fs
        [l.basePath, "project".toList, "requirements.md".toList] = .ok content ∧
      readTechStack fs unmarshal
        [l.basePath, "project".toList, "tech_stack.yaml".toList] = .ok techStack ∧
      rules = assembleProjectRules now techStack (parseRequirementsMarkdown now content) := by
  unfold FileLoader.LoadProjectRules at hok
  simp only [h, if_false, List.cons_append, List.nil_append] at hok
  cases hreq : readRequirements fs
      [l.basePath, "project".toList, "requirements.md".toList] with
  | error e => rw [hreq] at hok; simp at hok
  | ok content =>
    cases htech : readTechStack fs unmarshal
        [l.basePath, "project".toList, "tech_stack.yaml".toList] with
    | error e => rw [hreq, htech] at hok; simp at hok
    | ok techStack =>
      rw [hreq, htech] at hok
      simp only [Except.ok.injEq] at hok
      exact ⟨content, techStack, rfl, rfl, hok.symm⟩

theorem getStringSlice_seq_ne_nil (techStack : Option YamlMap) (key : Str)
    (items : List YamlValue) (h : mapLookup techStack key = some (.seq items))
    (hne : items ≠ []) : getStringSlice techStack key ≠ [] := by
  unfold getStringSlice
  rw [h]
  simpa using hne

/-- C11: whatever else the file system holds, `LoadProjectRules`,
`LoadGlobalRules` and `LoadTemplateRules` each return the empty sequence and no
error when `os.Stat` reports their own directory (`project`, `global`,
`templates`) as not existing. -/
theorem loaders_absent_directory (l : FileLoader) (fs : FileSystem) (unmarshal : Unmarshal)
    (now : Nat) :
    (fs.Stat [l.basePath, "project".toList] = .notExist →
      l.LoadProjectRules fs unmarshal now = .ok []) ∧
    (fs.Stat [l.basePath, "global".toList] = .notExist →
      l.LoadGlobalRules fs unmarshal now = .ok []) ∧
    (fs.Stat [l.basePath, "templates".toList] = .notExist →
      l.LoadTemplateRules fs = .ok []) := by
  refine ⟨LoadProjectRules_absent l fs unmarshal now, ?_, ?_⟩
  · intro h
    unfold FileLoader.LoadGlobalRules
    simp only [h, if_true]
  · intro h
    unfold FileLoader.LoadTemplateRules
    simp only [h, if_true]

theorem loaders_absent_directory_witness :
    (listFS demoFiles demoDirs).Stat ["elsewhere".toList, "project".toList] = .notExist ∧
      FileLoader.LoadProjectRules ⟨"elsewhere".toList⟩ (listFS demoFiles demoDirs) demoUnmarshal 0 =
        .ok [] ∧
    (listFS demoFiles demoDirs).Stat ["rules".toList, "global".toList] = .notExist ∧
      FileLoader.LoadGlobalRules ⟨"rules".toList⟩ (listFS demoFiles demoDirs) demoUnmarshal 0 =
        .ok [] ∧
    (listFS demoFiles demoDirs).Stat ["rules".toList, "templates".toList] = .notExist ∧
      FileLoader.LoadTemplateRules ⟨"rules".toList⟩ (listFS demoFiles demoDirs) = .ok [] :=
  ⟨by decide,
    (loaders_absent_directory ⟨"elsewhere".toList⟩ (listFS demoFiles demoDirs) demoUnmarshal 0).1
      (by decide),
    by decide,
    (loaders_absent_directory ⟨"rules".toList⟩ (listFS demoFiles demoDirs) demoUnmarshal 0).2.1
      (by decide),
    by decide,
    (loaders_absent_directory ⟨"rules".toList⟩ (listFS demoFiles demoDirs) demoUnmarshal 0).2.2
      (by decide)⟩

/-- C12, as the claim states it, fails for an absent directory: on a file
system without `project` directory `LoadProjectRules` returns the empty
sequence, not two rules. -/
theorem LoadProjectRules_absent_no_fallback :
    FileLoader.LoadProjectRules ⟨"rules".toList⟩ (listFS [] []) demoUnmarshal 0 = .ok [] ∧
    ¬ ∃ rules, FileLoader.LoadProjectRules ⟨"rules".toList⟩ (listFS [] []) demoUnmarshal 0 =
        .ok rules ∧ rules.length = 2 := by
  have h : FileLoader.LoadProjectRules ⟨"rules".toList⟩ (listFS [] []) demoUnmarshal 0 =
      .ok [] := rfl
  refine ⟨h, ?_⟩
  rintro ⟨rules, hr, hlen⟩
  rw [h] at hr
  simp only [Except.ok.injEq] at hr
  rw [← hr] at hlen
  exact absurd hlen (by decide)

/-- C12, amended: on an absent `project` directory `LoadProjectRules` returns
the empty sequence; on a `project` directory that exists and holds neither
`requirements.md` nor `tech_stack.yaml` it returns exactly two rules, the
first of type `code_style`, the second of type `security`. -/
theorem LoadProjectRules_empty_directory (l : FileLoader) (fs : FileSystem)
    (unmarshal : Unmarshal) (now : Nat) :
    (fs.Stat [l.basePath, "project".toList] = .notExist →
      l.LoadProjectRules fs unmarshal now = .ok []) ∧
    (fs.Stat [l.basePath, "project".toList] ≠ .notExist →
      fs.Stat [l.basePath, "project".toList, "requirements.md".toList] ≠ .found →
      fs.Stat [l.basePath, "project".toList, "tech_stack.yaml".toList] ≠ .found →
      ∃ a b, l.LoadProjectRules fs unmarshal now = .ok [a, b] ∧
        a.Type_ = "code_style".toList ∧ b.Type_ = "security".toList) := by
  refine ⟨LoadProjectRules_absent l fs unmarshal now, ?_⟩
  intro hdir hreq htech
  have h1 : readRequirements fs
      [l.basePath, "project".toList, "requirements.md".toList] = .ok [] := by
    unfold readRequirements
    rw [if_neg hreq]
  have h2 : readTechStack fs unmarshal
      [l.basePath, "project".toList, "tech_stack.yaml".toList] = .ok none := by
    unfold readTechStack
    rw [if_neg htech]
  rw [LoadProjectRules_present l fs unmarshal now [] none hdir h1 h2]
  exact ⟨_, _, rfl, rfl, rfl⟩

theorem LoadProjectRules_empty_directory_witness :
    ((listFS [] []).Stat ["rules".toList, "project".toList] = .notExist ∧
      FileLoader.LoadProjectRules ⟨"rules".toList⟩ (listFS [] []) demoUnmarshal 0 = .ok []) ∧
    ((listFS [] [(["rules".toList, "project".toList], [])]).Stat
        ["rules".toList, "project".toList] ≠ .notExist ∧
      (listFS [] [(["rules".toList, "project".toList], [])]).Stat
        ["rules".toList, "project".toList, "requirements.md".toList] ≠ .found ∧
      (listFS [] [(["rules".toList, "project".toList], [])]).Stat
        ["rules".toList, "project".toList, "tech_stack.yaml".toList] ≠ .found ∧
      ∃ a b, FileLoader.LoadProjectRules ⟨"rules".toList⟩
          (listFS [] [(["rules".toList, "project".toList], [])]) demoUnmarshal 0 = .ok [a, b] ∧
        a.Type_ = "code_style".toList ∧ b.Type_ = "security".toList) :=
  ⟨⟨by decide,
      (LoadProjectRules_empty_directory ⟨"rules".toList⟩ (listFS [] []) demoUnmarshal 0).1
        (by decide)⟩,
    by decide, by decide, by decide,
    (LoadProjectRules_empty_directory ⟨"rules".toList⟩
      (listFS [] [(["rules".toList, "project".toList], [])]) demoUnmarshal 0).2
      (by decide) (by decide) (by decide)⟩



/-- C13: when the project directory exists, the requirements document reads
as `content` (empty when the file is missing) and the tech-stack file decodes
to `techStack` (nil when the file is missing): if `tech_stacks` is a non-empty
sequence, `LoadProjectRules` returns the tech-stack rule (title "技术栈规范",
type `tech_stack`, priority 5, content "技术栈: " followed by the stacks joined
with ", ") followed by the rules of `parseRequirementsMarkdown content`; if
`tech_stacks` gives no string (missing or empty) and the parser gives at least
one rule, it returns exactly the rules of the parser. -/
theorem LoadProjectRules_tech_rule_then_parsed (l : FileLoader) (fs : FileSystem)
    (unmarshal : Unmarshal) (now : Nat) (content : Str) (techStack : Option YamlMap)
    (hdir : fs.Stat [l.basePath, "project".toList] ≠ .notExist)
    (hreq : readRequirements fs
      [l.basePath, "project".toList, "requirements.md".toList] = .ok content)
    (htech : readTechStack fs unmarshal
      [l.basePath, "project".toList, "tech_stack.yaml".toList] = .ok techStack) :
    (∀ items, mapLookup techStack "tech_stacks".toList = some (.seq items) → items ≠ [] →
      ∃ r, l.LoadProjectRules fs unmarshal now =
          .ok (r :: parseRequirementsMarkdown now content) ∧
        r.Title = "技术栈规范".toList ∧ r.Type_ = "tech_stack".toList ∧ r.Priority = 5 ∧
        r.Content =
          "技术栈: ".toList ++ Join (getStringSlice techStack "tech_stacks".toList) ", ".toList) ∧
    (getStringSlice techStack "tech_stacks".toList = [] →
      parseRequirementsMarkdown now content ≠ [] →
      l.LoadProjectRules fs unmarshal now = .ok (parseRequirementsMarkdown now content)) := by
  rw [LoadProjectRules_present l fs unmarshal now content techStack hdir hreq htech,
    assembleProjectRules_eq]
  constructor
  · intro items hitems hne
    rw [if_neg (getStringSlice_seq_ne_nil techStack _ items hitems hne)]
    exact ⟨_, rfl, rfl, rfl, rfl, rfl⟩
  · intro hnone hparse
    rw [if_pos hnone, if_neg hparse]

theorem LoadProjectRules_tech_rule_then_parsed_witness :
    (∃ r, FileLoader.LoadProjectRules ⟨"rules".toList⟩ (listFS demoFiles demoDirs)
          demoUnmarshal 0 = .ok (r :: parseRequirementsMarkdown 0 []) ∧
      r.Title = "技术栈规范".toList ∧ r.Type_ = "tech_stack".toList ∧ r.Priority = 5 ∧
      r.Content = "技术栈: Go+Gin".toList) ∧
    FileLoader.LoadProjectRules ⟨"rules".toList⟩
        (listFS [(["rules".toList, "project".toList, "requirements.md".toList],
          "## 接口\nREST".toList)] [(["rules".toList, "project".toList], [])]) demoUnmarshal 0 =
      .ok (parseRequirementsMarkdown 0 "## 接口\nREST".toList) :=
  ⟨(LoadProjectRules_tech_rule_then_parsed ⟨"rules".toList⟩ (listFS demoFiles demoDirs)
        demoUnmarshal 0 []
        (some [("project_name".toList, .str "demo".toList),
          ("tech_stacks".toList, .seq [.str "Go+Gin".toList])])
        (by decide) rfl rfl).1 [.str "Go+Gin".toList] rfl (List.cons_ne_nil _ _),
    (LoadProjectRules_tech_rule_then_parsed ⟨"rules".toList⟩
        (listFS [(["rules".toList, "project".toList, "requirements.md".toList],
          "## 接口\nREST".toList)] [(["rules".toList, "project".toList], [])]) demoUnmarshal 0
        "## 接口\nREST".toList none
        (by decide) rfl rfl).2 rfl (by decide)⟩

/-- C14: when the project directory exists, no tech stack is declared and the
requirements document is missing or gives no rule, `LoadProjectRules` returns
exactly the two default rules, "代码规范" (`code_style`, priority 4) and then
"安全约束" (`security`, priority 5); and whenever the project directory exists
and `LoadProjectRules` succeeds, its result is not empty. -/
theorem LoadProjectRules_fallback (l : FileLoader) (fs : FileSystem) (unmarshal : Unmarshal)
    (now : Nat) (hdir : fs.Stat [l.basePath, "project".toList] ≠ .notExist) :
    (∀ content techStack,
      readRequirements fs
        [l.basePath, "project".toList, "requirements.md".toList] = .ok content →
      readTechStack fs unmarshal
        [l.basePath, "project".toList, "tech_stack.yaml".toList] = .ok techStack →
      getStringSlice techStack "tech_stacks".toList = [] →
      parseRequirementsMarkdown now content = [] →
      ∃ a b, l.LoadProjectRules fs unmarshal now = .ok [a, b] ∧
        (a.Title, a.Type_, a.Priority) = ("代码规范".toList, "code_style".toList, 4) ∧
        (b.Title, b.Type_, b.Priority) = ("安全约束".toList, "security".toList, 5)) ∧
    (∀ rules, l.LoadProjectRules fs unmarshal now = .ok rules → rules ≠ []) := by
  constructor
  · intro content techStack hreq htech hnone hparse
    rw [LoadProjectRules_present l fs unmarshal now content techStack hdir hreq htech,
      assembleProjectRules_eq, if_pos hnone, if_pos hparse]
    exact ⟨_, _, rfl, rfl, rfl⟩
  · intro rules hok
    obtain ⟨content, techStack, _, _, hr⟩ :=
      LoadProjectRules_ok_present l fs unmarshal now rules hdir hok
    rw [hr]
    exact assembleProjectRules_ne_nil now techStack _

theorem LoadProjectRules_fallback_witness :
    (listFS [(["rules".toList, "project".toList, "requirements.md".toList],
        "# demo\n".toList)] [(["rules".toList, "project".toList], [])]).Stat
      ["rules".toList, "project".toList] ≠ .notExist ∧
    (∃ a b, FileLoader.LoadProjectRules ⟨"rules".toList⟩
        (listFS [(["rules".toList, "project".toList, "requirements.md".toList],
          "# demo\n".toList)] [(["rules".toList, "project".toList], [])]) demoUnmarshal 0 =
          .ok [a, b] ∧
      (a.Title, a.Type_, a.Priority) = ("代码规范".toList, "code_style".toList, 4) ∧
      (b.Title, b.Type_, b.Priority) = ("安全约束".toList, "security".toList, 5)) ∧
    [techStackRule 0 ["Go+Gin".toList]] ≠ [] :=
  ⟨by decide,
    (LoadProjectRules_fallback ⟨"rules".toList⟩
      (listFS [(["rules".toList, "project".toList, "requirements.md".toList],
        "# demo\n".toList)] [(["rules".toList, "project".toList], [])]) demoUnmarshal 0
      (by decide)).1 "# demo\n".toList none rfl rfl rfl (by decide),
    (LoadProjectRules_fallback ⟨"rules".toList⟩ (listFS demoFiles demoDirs) demoUnmarshal 0
      (by decide)).2 [techStackRule 0 ["Go+Gin".toList]] rfl⟩



theorem globalFileStep_eq (l : FileLoader) (fs : FileSystem) (now : Nat) (globalDir : Path)
    (allRules : List Rule) (file : DirEntry) :
    globalFileStep l fs now globalDir allRules file =
      allRules ++ globalFileRules l fs now globalDir file := by
  unfold globalFileStep globalFileRules
  dsimp only
  generalize HasSuffix file.Name ".md".toList = b
  generalize fs.ReadFile (globalDir ++ [file.Name]) = r
  cases file.IsDir <;> cases b <;> cases r <;> simp

theorem foldl_append_flatMap {α β : Type} (step : List β → α → List β) (f : α → List β)
    (h : ∀ acc a, step acc a = acc ++ f a) :
    ∀ (xs : List α) (acc : List β), xs.foldl step acc = acc ++ xs.flatMap f
  | [], acc => by simp
  | x :: xs, acc => by
    rw [List.foldl_cons, foldl_append_flatMap step f h xs, h, List.flatMap_cons,
      List.append_assoc]

theorem techStep_eq (l : FileLoader) (now : Nat) (rules : List Rule) (tech : Str) :
    techStep l now rules tech = rules ++ techContribution l now tech := by
  unfold techStep techContribution
  simp only [techCategories, List.find?_cons, List.find?_nil, List.any_cons, List.any_nil,
    Bool.or_false]
  split_ifs <;> simp only [*, Bool.false_eq_true, List.append_nil]

theorem generateTechSpecificRules_eq (l : FileLoader) (now : Nat) (techStacks : List Str) :
    l.generateTechSpecificRules now techStacks =
      techStacks.flatMap (techContribution l now) := by
  unfold FileLoader.generateTechSpecificRules
  rw [foldl_append_flatMap (techStep l now) (techContribution l now) (techStep_eq l now)]
  rfl

theorem LoadGlobalRules_present (l : FileLoader) (fs : FileSystem) (unmarshal : Unmarshal)
    (now : Nat) (files : List DirEntry)
    (hdir : fs.Stat [l.basePath, "global".toList] ≠ .notExist)
    (hread : fs.ReadDir [l.basePath, "global".toList] = .ok files) :
    l.LoadGlobalRules fs unmarshal now =
      .ok (baselineRules now ++
        l.generateTechSpecificRules now (l.getProjectTechStacks fs unmarshal) ++
        files.flatMap (globalFileRules l fs now [l.basePath, "global".toList])) := by
  unfold FileLoader.LoadGlobalRules FileLoader.loadGlobalFiles
  simp only [hdir, if_false, hread]
  rw [foldl_append_flatMap _ _ (globalFileStep_eq l fs now [l.basePath, "global".toList])]
  rfl



theorem getProjectTechStacks_decoded (l : FileLoader) (fs : FileSystem) (unmarshal : Unmarshal)
    (data : Str) (techStack : Option YamlMap)
    (hstat : fs.Stat [l.basePath, "project".toList, "tech_stack.yaml".toList] ≠ .notExist)
    (hread : fs.ReadFile [l.basePath, "project".toList, "tech_stack.yaml".toList] = .ok data)
    (hdec : unmarshal data = .ok techStack) :
    l.getProjectTechStacks fs unmarshal = getStringSlice techStack "tech_stacks".toList := by
  unfold FileLoader.getProjectTechStacks
  simp only [hstat, if_false, hread, hdec]

theorem getProjectTechStacks_undeclared (l : FileLoader) (fs : FileSystem)
    (unmarshal : Unmarshal)
    (h : fs.Stat [l.basePath, "project".toList, "tech_stack.yaml".toList] = .notExist ∨
      (∃ e, fs.ReadFile [l.basePath, "project".toList, "tech_stack.yaml".toList] = .error e) ∨
      (∃ data e,
        fs.ReadFile [l.basePath, "project".toList, "tech_stack.yaml".toList] = .ok data ∧
        unmarshal data = .error e)) :
    l.getProjectTechStacks fs unmarshal = [] := by
  unfold FileLoader.getProjectTechStacks
  by_cases hs : fs.Stat [l.basePath, "project".toList, "tech_stack.yaml".toList] = .notExist
  · simp only [hs, if_true]
  · simp only [hs, if_false]
    rcases h with h | ⟨e, he⟩ | ⟨data, e, hd, he⟩
    · exact absurd h hs
    · simp only [he]
    · simp only [hd, he]

/-- C15: when the global directory exists and `os.ReadDir` lists it,
`LoadGlobalRules` returns the three baseline rules (通用命名规范, 代码注释规范,
错误处理规范), then the rules synthesized for the tech stacks that the project
declares, that is for the `tech_stacks` strings of the decoded
`project/tech_stack.yaml` (none when that file is missing, unreadable or
rejected by the decoder), then the rules parsed from the readable `.md` files
of the directory, in directory order; with no entry in the directory and no
declared tech stack these are exactly the 3 baseline rules. -/
theorem LoadGlobalRules_order (l : FileLoader) (fs : FileSystem) (unmarshal : Unmarshal)
    (now : Nat) (files : List DirEntry)
    (hdir : fs.Stat [l.basePath, "global".toList] ≠ .notExist)
    (hread : fs.ReadDir [l.basePath, "global".toList] = .ok files) :
    (∀ data techStack,
      fs.Stat [l.basePath, "project".toList, "tech_stack.yaml".toList] ≠ .notExist →
      fs.ReadFile [l.basePath, "project".toList, "tech_stack.yaml".toList] = .ok data →
      unmarshal data = .ok techStack →
      l.LoadGlobalRules fs unmarshal now =
        .ok (baselineRules now ++
          l.generateTechSpecificRules now (getStringSlice techStack "tech_stacks".toList) ++
          files.flatMap (globalFileRules l fs now [l.basePath, "global".toList]))) ∧
    ((fs.Stat [l.basePath, "project".toList, "tech_stack.yaml".toList] = .notExist ∨
        (∃ e,
          fs.ReadFile [l.basePath, "project".toList, "tech_stack.yaml".toList] = .error e) ∨
        (∃ data e,
          fs.ReadFile [l.basePath, "project".toList, "tech_stack.yaml".toList] = .ok data ∧
          unmarshal data = .error e)) →
      l.LoadGlobalRules fs unmarshal now =
        .ok (baselineRules now ++
          files.flatMap (globalFileRules l fs now [l.basePath, "global".toList]))) ∧
    (baselineRules now).map (fun r => r.Title) =
      ["通用命名规范".toList, "代码注释规范".toList, "错误处理规范".toList] ∧
    (files = [] →
      (fs.Stat [l.basePath, "project".toList, "tech_stack.yaml".toList] = .notExist ∨
        (∃ e,
          fs.ReadFile [l.basePath, "project".toList, "tech_stack.yaml".toList] = .error e) ∨
        (∃ data e,
          fs.ReadFile [l.basePath, "project".toList, "tech_stack.yaml".toList] = .ok data ∧
          unmarshal data = .error e) ∨
        (∃ data techStack,
          fs.ReadFile [l.basePath, "project".toList, "tech_stack.yaml".toList] = .ok data ∧
          unmarshal data = .ok techStack ∧
          getStringSlice techStack "tech_stacks".toList = [])) →
      l.LoadGlobalRules fs unmarshal now = .ok (baselineRules now) ∧
        (baselineRules now).length = 3) := by
  have h := LoadGlobalRules_present l fs unmarshal now files hdir hread
  have hnone : l.generateTechSpecificRules now [] = [] := rfl
  refine ⟨?_, ?_, rfl, ?_⟩
  · intro data techStack hstat hfile hdec
    rw [h, getProjectTechStacks_decoded l fs unmarshal data techStack hstat hfile hdec]
  · intro hun
    rw [h, getProjectTechStacks_undeclared l fs unmarshal hun, hnone, List.append_nil]
  · intro hfiles hun
    have hts : l.getProjectTechStacks fs unmarshal = [] := by
      rcases hun with h1 | h2 | h3 | ⟨data, techStack, hfile, hdec, hempty⟩
      · exact getProjectTechStacks_undeclared l fs unmarshal (Or.inl h1)
      · exact getProjectTechStacks_undeclared l fs unmarshal (Or.inr (Or.inl h2))
      · exact getProjectTechStacks_undeclared l fs unmarshal (Or.inr (Or.inr h3))
      · by_cases hs :
            fs.Stat [l.basePath, "project".toList, "tech_stack.yaml".toList] = .notExist
        · exact getProjectTechStacks_undeclared l fs unmarshal (Or.inl hs)
        · rw [getProjectTechStacks_decoded l fs unmarshal data techStack hs hfile hdec, hempty]
    rw [h, hfiles, hts, hnone]
    exact ⟨rfl, rfl⟩

theorem LoadGlobalRules_order_witness :
    (listFS
        (demoFiles ++
          [(["rules".toList, "global".toList, "go.md".toList], "## 安全\n- a".toList)])
        [(["rules".toList, "global".toList],
          [{ Name := "go.md".toList, IsDir := false }])]).Stat
        ["rules".toList, "global".toList] ≠ .notExist ∧
      ((FileLoader.LoadGlobalRules ⟨"rules".toList⟩
        (listFS
          (demoFiles ++
            [(["rules".toList, "global".toList, "go.md".toList], "## 安全\n- a".toList)])
          [(["rules".toList, "global".toList],
            [{ Name := "go.md".toList, IsDir := false }])]) demoUnmarshal 0).map
        (fun rules => rules.map (fun r => r.Title))) =
        .ok ["通用命名规范".toList, "代码注释规范".toList, "错误处理规范".toList,
          "Go代码规范".toList, "Go错误处理".toList, "安全".toList] ∧
      (listFS [] [(["rules".toList, "global".toList], [])]).Stat
        ["rules".toList, "global".toList] ≠ .notExist ∧
      FileLoader.LoadGlobalRules ⟨"rules".toList⟩
        (listFS [] [(["rules".toList, "global".toList], [])]) demoUnmarshal 0 =
        .ok (baselineRules 0) :=
  ⟨by decide,
    ((congrArg (Except.map (fun rules => rules.map (fun r => r.Title)))
      ((LoadGlobalRules_order ⟨"rules".toList⟩
        (listFS
          (demoFiles ++
            [(["rules".toList, "global".toList, "go.md".toList], "## 安全\n- a".toList)])
          [(["rules".toList, "global".toList],
            [{ Name := "go.md".toList, IsDir := false }])]) demoUnmarshal 0
        [{ Name := "go.md".toList, IsDir := false }] (by decide) rfl).1
        "project_name: demo\ntech_stacks:\n  - Go+Gin\n".toList
        (some [("project_name".toList, .str "demo".toList),
          ("tech_stacks".toList, .seq [.str "Go+Gin".toList])])
        (by decide) rfl rfl)).trans rfl),
    by decide,
    ((LoadGlobalRules_order ⟨"rules".toList⟩
      (listFS [] [(["rules".toList, "global".toList], [])]) demoUnmarshal 0 []
      (by decide) rfl).2.2.2 rfl (Or.inl (by decide))).1⟩

/-- C16: `generateTechSpecificRules` returns the concatenation, in input
order, of the contributions of the tech strings, the contribution of a string
being the rules of the first category of `techCategories` (PHP, Go, Java,
Python, Node.js, React or Vue, MySQL or PostgreSQL, Redis or Memcached, Docker
or Kubernetes) one of whose keywords occurs in it: 2 rules for PHP, 3 with
"Laravel", 2 for Go, 1 for any other category, none without a category;
"PHP+MySQL" contributes the PHP rules only. -/
theorem generateTechSpecificRules_first_category (l : FileLoader) (now : Nat)
    (techStacks : List Str) (tech : Str) :
    l.generateTechSpecificRules now techStacks =
        techStacks.flatMap (techContribution l now) ∧
      (techContribution l now tech).length =
        (if Contains tech "PHP".toList = true then
          (if Contains tech "Laravel".toList = true then 3 else 2)
        else if Contains tech "Go".toList = true then 2
        else if techCategories.any (fun c => c.1.any (fun k => Contains tech k)) = true then 1
        else 0) ∧
      techContribution l now "PHP+MySQL".toList = l.generatePHPRules now "PHP+MySQL".toList ∧
      techContribution l now "Rust".toList = [] := by
  refine ⟨generateTechSpecificRules_eq l now techStacks, ?_, rfl, rfl⟩
  unfold techContribution
  simp only [techCategories, List.find?_cons, List.find?_nil, List.any_cons, List.any_nil,
    Bool.or_false]
  generalize Contains tech "PHP".toList = b1
  generalize Contains tech "Go".toList = b2
  generalize Contains tech "Java".toList = b3
  generalize Contains tech "Python".toList = b4
  generalize Contains tech "Node.js".toList = b5
  generalize (Contains tech "React".toList || Contains tech "Vue".toList) = b6
  generalize (Contains tech "MySQL".toList || Contains tech "PostgreSQL".toList) = b7
  generalize (Contains tech "Redis".toList || Contains tech "Memcached".toList) = b8
  generalize (Contains tech "Docker".toList || Contains tech "Kubernetes".toList) = b9
  cases b1
  · cases b2
    · cases b3 <;> cases b4 <;> cases b5 <;> cases b6 <;> cases b7 <;> cases b8 <;>
        cases b9 <;> rfl
    · rfl
  · simp only [FileLoader.generatePHPRules, if_true]
    split_ifs <;> rfl



theorem scenario_project (l : FileLoader) (fs : FileSystem) (unmarshal : Unmarshal)
    (now : Nat) (h : RoundTripScenario l fs unmarshal) :
    l.LoadProjectRules fs unmarshal now = .ok [techStackRule now ["Go+Gin".toList]] := by
  obtain ⟨data, m, hread, hyaml, hstacks, _⟩ := h.techStackDecodes
  have h1 : readRequirements fs
      [l.basePath, "project".toList, "requirements.md".toList] = .ok [] := by
    unfold readRequirements
    rw [if_neg h.noRequirements]
  have h2 : readTechStack fs unmarshal
      [l.basePath, "project".toList, "tech_stack.yaml".toList] = .ok (some m) := by
    unfold readTechStack
    rw [if_pos h.techStackFile, hread]
    simp only [hyaml]
  have h3 : getStringSlice (some m) "tech_stacks".toList = ["Go+Gin".toList] := by
    unfold getStringSlice
    rw [hstacks]
    rfl
  rw [LoadProjectRules_present l fs unmarshal now [] (some m) h.projectDir h1 h2,
    assembleProjectRules_eq, h3, if_neg (List.cons_ne_nil _ _)]
  rfl

theorem scenario_techStacks (l : FileLoader) (fs : FileSystem) (unmarshal : Unmarshal)
    (h : RoundTripScenario l fs unmarshal) :
    l.getProjectTechStacks fs unmarshal = ["Go+Gin".toList] := by
  obtain ⟨data, m, hread, hyaml, hstacks, _⟩ := h.techStackDecodes
  unfold FileLoader.getProjectTechStacks
  simp only [h.techStackFile, reduceCtorEq, if_false, hread, hyaml]
  unfold getStringSlice
  rw [hstacks]
  rfl

theorem scenario_metadata (l : FileLoader) (fs : FileSystem) (unmarshal : Unmarshal)
    (now : Nat) (h : RoundTripScenario l fs unmarshal) :
    ∃ md, l.LoadMetadata fs unmarshal now = .ok md ∧ md.ProjectName = "demo".toList := by
  obtain ⟨data, m, hread, hyaml, _, hname⟩ := h.techStackDecodes
  obtain ⟨cdata, config, hcread, hcyaml⟩ := h.configDecodes
  unfold FileLoader.LoadMetadata
  simp only [List.cons_append, List.nil_append, hread, hyaml, hcread, hcyaml]
  refine ⟨_, rfl, ?_⟩
  unfold getString
  simp only [hname]

theorem LoadTemplateRules_eq (l : FileLoader) (fs : FileSystem) :
    l.LoadTemplateRules fs = .ok [] := by
  unfold FileLoader.LoadTemplateRules
  simp only [ite_self]

/-- C17: in the round-trip scenario with the `global` directory absent,
`LoadAllRules` succeeds, `ProjectRules` is one rule of type `tech_stack` whose
content contains "Go+Gin", and the project name of the metadata is "demo". -/
theorem LoadAllRules_round_trip_project (l : FileLoader) (fs : FileSystem)
    (unmarshal : Unmarshal) (now : Nat) (h : RoundTripScenario l fs unmarshal)
    (hglobal : fs.Stat [l.basePath, "global".toList] = .notExist) :
    ∃ rs, l.LoadAllRules fs unmarshal now = .ok rs ∧
      (∃ r, rs.ProjectRules = [r] ∧ r.Type_ = "tech_stack".toList ∧
        Contains r.Content "Go+Gin".toList = true) ∧
      rs.Metadata.ProjectName = "demo".toList := by
  obtain ⟨md, hmd, hname⟩ := scenario_metadata l fs unmarshal now h
  have hg : l.LoadGlobalRules fs unmarshal now = .ok [] := by
    unfold FileLoader.LoadGlobalRules
    simp only [hglobal, if_true]
  unfold FileLoader.LoadAllRules
  simp only [scenario_project l fs unmarshal now h, hg, LoadTemplateRules_eq, hmd]
  exact ⟨_, rfl, ⟨_, rfl, rfl, rfl⟩, hname⟩

theorem demo_scenario :
    RoundTripScenario ⟨"rules".toList⟩ (listFS demoFiles demoDirs) demoUnmarshal :=
  ⟨by decide, by decide, by decide, ⟨_, _, rfl, rfl, rfl, rfl⟩, ⟨_, _, rfl, rfl⟩⟩

theorem LoadAllRules_round_trip_project_witness :
    ∃ rs, FileLoader.LoadAllRules ⟨"rules".toList⟩ (listFS demoFiles demoDirs)
        demoUnmarshal 0 = .ok rs ∧
      (∃ r, rs.ProjectRules = [r] ∧ r.Type_ = "tech_stack".toList ∧
        Contains r.Content "Go+Gin".toList = true) ∧
      rs.Metadata.ProjectName = "demo".toList :=
  LoadAllRules_round_trip_project ⟨"rules".toList⟩ (listFS demoFiles demoDirs) demoUnmarshal 0
    demo_scenario (by decide)

/-- C18, as the claim states it, fails: in the round-trip scenario the
`global` directory is absent, so `LoadAllRules` succeeds with no global rule
at all, not five. -/
theorem LoadAllRules_round_trip_global_empty :
    (FileLoader.LoadAllRules ⟨"rules".toList⟩ (listFS demoFiles demoDirs)
        demoUnmarshal 0).map (fun rs => rs.GlobalRules) = .ok [] ∧
    ¬ ∃ rs, FileLoader.LoadAllRules ⟨"rules".toList⟩ (listFS demoFiles demoDirs)
        demoUnmarshal 0 = .ok rs ∧ rs.GlobalRules.length = 5 := by
  have h : ∃ rs, FileLoader.LoadAllRules ⟨"rules".toList⟩ (listFS demoFiles demoDirs)
      demoUnmarshal 0 = .ok rs ∧ rs.GlobalRules = [] := ⟨_, rfl, rfl⟩
  obtain ⟨rs, hrs, hg⟩ := h
  refine ⟨by rw [hrs]; simp only [Except.map, hg], ?_⟩
  rintro ⟨rs2, hrs2, hlen⟩
  rw [hrs] at hrs2
  simp only [Except.ok.injEq] at hrs2
  rw [← hrs2, hg] at hlen
  exact absurd hlen (by decide)

/-- C18, amended: in the round-trip scenario `GlobalRules` is empty when the
`global` directory is absent; when it exists and has no entry, `GlobalRules`
is exactly the 3 baseline rules followed by the 2 Go rules, 5 rules. -/
theorem LoadAllRules_round_trip_global (l : FileLoader) (fs : FileSystem)
    (unmarshal : Unmarshal) (now : Nat) (h : RoundTripScenario l fs unmarshal) :
    (fs.Stat [l.basePath, "global".toList] = .notExist →
      ∃ rs, l.LoadAllRules fs unmarshal now = .ok rs ∧ rs.GlobalRules = []) ∧
    (fs.Stat [l.basePath, "global".toList] ≠ .notExist →
      fs.ReadDir [l.basePath, "global".toList] = .ok [] →
      ∃ rs, l.LoadAllRules fs unmarshal now = .ok rs ∧
        rs.GlobalRules = baselineRules now ++ l.generateGoRules now "Go+Gin".toList ∧
        rs.GlobalRules.length = 5) := by
  obtain ⟨md, hmd, _⟩ := scenario_metadata l fs unmarshal now h
  constructor
  · intro hglobal
    have hg : l.LoadGlobalRules fs unmarshal now = .ok [] := by
      unfold FileLoader.LoadGlobalRules
      simp only [hglobal, if_true]
    unfold FileLoader.LoadAllRules
    simp only [scenario_project l fs unmarshal now h, hg, LoadTemplateRules_eq, hmd]
    exact ⟨_, rfl, rfl⟩
  · intro hglobal hread
    have hg := LoadGlobalRules_present l fs unmarshal now [] hglobal hread
    rw [scenario_techStacks l fs unmarshal h] at hg
    unfold FileLoader.LoadAllRules
    simp only [scenario_project l fs unmarshal now h, hg, LoadTemplateRules_eq, hmd]
    exact ⟨_, rfl, rfl, rfl⟩

theorem LoadAllRules_round_trip_global_witness :
    (∃ rs, FileLoader.LoadAllRules ⟨"rules".toList⟩ (listFS demoFiles demoDirs)
        demoUnmarshal 0 = .ok rs ∧ rs.GlobalRules = []) ∧
    (∃ rs, FileLoader.LoadAllRules ⟨"rules".toList⟩
        (listFS demoFiles (demoDirs ++ [(["rules".toList, "global".toList], [])]))
        demoUnmarshal 0 = .ok rs ∧
      rs.GlobalRules =
        baselineRules 0 ++ FileLoader.generateGoRules ⟨"rules".toList⟩ 0 "Go+Gin".toList ∧
      rs.GlobalRules.length = 5) :=
  ⟨(LoadAllRules_round_trip_global ⟨"rules".toList⟩ (listFS demoFiles demoDirs)
      demoUnmarshal 0 demo_scenario).1 (by decide),
    (LoadAllRules_round_trip_global ⟨"rules".toList⟩
      (listFS demoFiles (demoDirs ++ [(["rules".toList, "global".toList], [])]))
      demoUnmarshal 0
      ⟨by decide, by decide, by decide, ⟨_, _, rfl, rfl, rfl, rfl⟩, ⟨_, _, rfl, rfl⟩⟩).2
      (by decide) rfl⟩



/-- C19: `LoadAllRules` fails with the error of `LoadProjectRules` wrapped as
"加载项目规则失败", else with that of `LoadGlobalRules` wrapped as "加载全局规则失败",
else (`LoadTemplateRules` never fails) with that of `LoadMetadata` wrapped as
"加载元数据失败"; when the four loaders succeed the rule set holds their four
results unchanged; so it fails exactly when one of the loaders fails. -/
theorem LoadAllRules_stages (l : FileLoader) (fs : FileSystem) (unmarshal : Unmarshal)
    (now : Nat) :
    (∀ e, l.LoadProjectRules fs unmarshal now = .error e →
      l.LoadAllRules fs unmarshal now = .error (.wrapped "加载项目规则失败: ".toList e)) ∧
    (∀ p e, l.LoadProjectRules fs unmarshal now = .ok p →
      l.LoadGlobalRules fs unmarshal now = .error e →
      l.LoadAllRules fs unmarshal now = .error (.wrapped "加载全局规则失败: ".toList e)) ∧
    (∀ e, l.LoadTemplateRules fs ≠ .error e) ∧
    (∀ p g t e, l.LoadProjectRules fs unmarshal now = .ok p →
      l.LoadGlobalRules fs unmarshal now = .ok g → l.LoadTemplateRules fs = .ok t →
      l.LoadMetadata fs unmarshal now = .error e →
      l.LoadAllRules fs unmarshal now = .error (.wrapped "加载元数据失败: ".toList e)) ∧
    (∀ p g t m, l.LoadProjectRules fs unmarshal now = .ok p →
      l.LoadGlobalRules fs unmarshal now = .ok g → l.LoadTemplateRules fs = .ok t →
      l.LoadMetadata fs unmarshal now = .ok m →
      l.LoadAllRules fs unmarshal now =
        .ok { ProjectRules := p, GlobalRules := g, TemplateRules := t, Metadata := m }) ∧
    ((∃ e, l.LoadAllRules fs unmarshal now = .error e) ↔
      ((∃ e, l.LoadProjectRules fs unmarshal now = .error e) ∨
        (∃ e, l.LoadGlobalRules fs unmarshal now = .error e) ∨
        (∃ e, l.LoadTemplateRules fs = .error e) ∨
        (∃ e, l.LoadMetadata fs unmarshal now = .error e))) := by
  refine ⟨?_, ?_, ?_, ?_, ?_, ?_⟩
  · intro e he
    unfold FileLoader.LoadAllRules
    simp only [he]
  · intro p e hp hg
    unfold FileLoader.LoadAllRules
    simp only [hp, hg]
  · intro e he
    rw [LoadTemplateRules_eq] at he
    exact Except.noConfusion he
  · intro p g t e hp hg ht hm
    unfold FileLoader.LoadAllRules
    simp only [hp, hg, ht, hm]
  · intro p g t m hp hg ht hm
    unfold FileLoader.LoadAllRules
    simp only [hp, hg, ht, hm]
  · unfold FileLoader.LoadAllRules
    rw [LoadTemplateRules_eq]
    cases l.LoadProjectRules fs unmarshal now <;>
      cases l.LoadGlobalRules fs unmarshal now <;>
      cases l.LoadMetadata fs unmarshal now <;> simp



theorem LoadAllRules_stages_witness :
    FileLoader.LoadAllRules ⟨"rules".toList⟩
        (listFS [] [(["rules".toList, "project".toList], []),
          (["rules".toList, "project".toList, "requirements.md".toList], [])])
        demoUnmarshal 0 =
      .error (.wrapped "加载项目规则失败: ".toList
        (.wrapped "读取项目需求文件失败: ".toList (.base "no such file or directory".toList))) ∧
    FileLoader.LoadAllRules ⟨"rules".toList⟩
        (listFS (demoFiles ++ [(["rules".toList, "global".toList], [])]) demoDirs)
        demoUnmarshal 0 =
      .error (.wrapped "加载全局规则失败: ".toList
        (.wrapped "读取全局规则文件失败: ".toList
          (.wrapped "读取全局目录失败: ".toList (.base "no such file or directory".toList)))) ∧
    FileLoader.LoadAllRules ⟨"rules".toList⟩
        (listFS [] [(["rules".toList, "project".toList], [])]) demoUnmarshal 0 =
      .error (.wrapped "加载元数据失败: ".toList
        (.wrapped "读取技术栈文件失败: ".toList (.base "no such file or directory".toList))) ∧
    FileLoader.LoadAllRules ⟨"rules".toList⟩ (listFS demoFiles demoDirs) demoUnmarshal 0 =
      .ok { ProjectRules := [techStackRule 0 ["Go+Gin".toList]]
            GlobalRules := []
            TemplateRules := []
            Metadata :=
              { ProjectName := "demo".toList
                TechStacks := ["Go+Gin".toList]
                AIEditors := []
                CreatedAt := 0
                LastUpdatedAt := 0
                Version := "1.0.0".toList } } :=
  ⟨(LoadAllRules_stages ⟨"rules".toList⟩
      (listFS [] [(["rules".toList, "project".toList], []),
        (["rules".toList, "project".toList, "requirements.md".toList], [])])
      demoUnmarshal 0).1 _ rfl,
    (LoadAllRules_stages ⟨"rules".toList⟩
      (listFS (demoFiles ++ [(["rules".toList, "global".toList], [])]) demoDirs)
      demoUnmarshal 0).2.1 _ _ rfl rfl,
    (LoadAllRules_stages ⟨"rules".toList⟩
      (listFS [] [(["rules".toList, "project".toList], [])]) demoUnmarshal 0).2.2.2.1
      _ _ _ _ rfl rfl rfl rfl,
    (LoadAllRules_stages ⟨"rules".toList⟩ (listFS demoFiles demoDirs)
      demoUnmarshal 0).2.2.2.2.1 _ _ _ _ rfl rfl rfl rfl⟩

/-- C20, as the claim states it, fails: an empty `project/tech_stack.yaml` is
not a YAML mapping, the decoder reports no error for it and leaves the map
nil, and `LoadMetadata` succeeds with the default metadata. -/
theorem LoadMetadata_accepts_empty_document :
    (listFS emptyDocFiles demoDirs).ReadFile
        ["rules".toList, "project".toList, "tech_stack.yaml".toList] = .ok [] ∧
      emptyDocUnmarshal [] = .ok none ∧
      (¬ ∃ m : YamlMap, emptyDocUnmarshal [] = .ok (some m)) ∧
      FileLoader.LoadMetadata ⟨"rules".toList⟩ (listFS emptyDocFiles demoDirs)
          emptyDocUnmarshal 0 =
        .ok { ProjectName := "未知项目".toList
              TechStacks := []
              AIEditors := []
              CreatedAt := 0
              LastUpdatedAt := 0
              Version := "1.0.0".toList } := by
  refine ⟨rfl, rfl, ?_, rfl⟩
  rintro ⟨m, hm⟩
  have h : emptyDocUnmarshal [] = .ok none := rfl
  rw [h] at hm
  simp at hm

/-- C20, amended: `LoadMetadata` fails exactly when `project/tech_stack.yaml`
cannot be read or `yaml.Unmarshal` reports an error for it, or `config.yaml`
cannot be read or `yaml.Unmarshal` reports an error for it; two file systems
with the same tech-stack file on which it succeeds give the same metadata,
whatever their `config.yaml` holds; and a tech-stack file that the decoder
accepts while leaving the map nil (an empty or null document) is no error: the
metadata then has the default project name and no tech stack or editor. -/
theorem LoadMetadata_error_iff (l : FileLoader) (fs : FileSystem) (unmarshal : Unmarshal)
    (now : Nat) :
    ((∃ e, l.LoadMetadata fs unmarshal now = .error e) ↔
      ((∃ e, fs.ReadFile [l.basePath, "project".toList, "tech_stack.yaml".toList] = .error e) ∨
        (∃ data e,
          fs.ReadFile [l.basePath, "project".toList, "tech_stack.yaml".toList] = .ok data ∧
          unmarshal data = .error e) ∨
        (∃ e, fs.ReadFile [l.basePath, "config.yaml".toList] = .error e) ∨
        (∃ data e, fs.ReadFile [l.basePath, "config.yaml".toList] = .ok data ∧
          unmarshal data = .error e))) ∧
    (∀ (fs2 : FileSystem) (m m2 : Metadata),
      fs2.ReadFile [l.basePath, "project".toList, "tech_stack.yaml".toList] =
        fs.ReadFile [l.basePath, "project".toList, "tech_stack.yaml".toList] →
      l.LoadMetadata fs unmarshal now = .ok m → l.LoadMetadata fs2 unmarshal now = .ok m2 →
      m2 = m) ∧
    (∀ (data cdata : Str) (config : Option YamlMap),
      fs.ReadFile [l.basePath, "project".toList, "tech_stack.yaml".toList] = .ok data →
      unmarshal data = .ok none →
      fs.ReadFile [l.basePath, "config.yaml".toList] = .ok cdata →
      unmarshal cdata = .ok config →
      l.LoadMetadata fs unmarshal now =
        .ok { ProjectName := "未知项目".toList
              TechStacks := []
              AIEditors := []
              CreatedAt := now
              LastUpdatedAt := now
              Version := "1.0.0".toList }) := by
  have key : ∀ (f : FileSystem) (md : Metadata), l.LoadMetadata f unmarshal now = .ok md →
      ∃ data techStack,
        f.ReadFile [l.basePath, "project".toList, "tech_stack.yaml".toList] = .ok data ∧
        unmarshal data = .ok techStack ∧
        md = { ProjectName := getString techStack "project_name".toList "未知项目".toList
               TechStacks := getStringSlice techStack "tech_stacks".toList
               AIEditors := getStringSlice techStack "ai_editors".toList
               CreatedAt := now
               LastUpdatedAt := now
               Version := "1.0.0".toList } := by
    intro f md hmd
    unfold FileLoader.LoadMetadata at hmd
    simp only [List.cons_append, List.nil_append] at hmd
    cases h1 : f.ReadFile [l.basePath, "project".toList, "tech_stack.yaml".toList] with
    | error e => rw [h1] at hmd; simp at hmd
    | ok data =>
      rw [h1] at hmd
      cases h2 : unmarshal data with
      | error e => simp [h2] at hmd
      | ok techStack =>
        simp only [h2] at hmd
        cases h3 : f.ReadFile [l.basePath, "config.yaml".toList] with
        | error e => rw [h3] at hmd; simp at hmd
        | ok cdata =>
          rw [h3] at hmd
          cases h4 : unmarshal cdata with
          | error e => simp [h4] at hmd
          | ok config =>
            simp only [h4, Except.ok.injEq] at hmd
            exact ⟨data, techStack, rfl, h2, hmd.symm⟩
  constructor
  · unfold FileLoader.LoadMetadata
    simp only [List.cons_append, List.nil_append]
    cases h1 : fs.ReadFile [l.basePath, "project".toList, "tech_stack.yaml".toList] with
    | error e => simp
    | ok data =>
      cases h2 : unmarshal data with
      | error e => simp [h2]
      | ok techStack =>
        cases h3 : fs.ReadFile [l.basePath, "config.yaml".toList] with
        | error e => simp [h2]
        | ok cdata =>
          cases h4 : unmarshal cdata with
          | error e => simp [h2, h4]
          | ok config => simp [h2, h4]
  constructor
  · intro fs2 m m2 hsame hm hm2
    obtain ⟨d, ts, hd, hts, hmeq⟩ := key fs m hm
    obtain ⟨d2, ts2, hd2, hts2, hmeq2⟩ := key fs2 m2 hm2
    rw [hsame, hd] at hd2
    simp only [Except.ok.injEq] at hd2
    rw [← hd2, hts] at hts2
    simp only [Except.ok.injEq] at hts2
    rw [hmeq, hmeq2, hts2]
  · intro data cdata config h1 h2 h3 h4
    unfold FileLoader.LoadMetadata
    simp only [List.cons_append, List.nil_append, h1, h2, h3, h4]
    rfl

theorem LoadMetadata_error_iff_witness :
    (∃ e, FileLoader.LoadMetadata ⟨"rules".toList⟩
        (listFS [(["rules".toList, "project".toList, "tech_stack.yaml".toList],
          "project_name: demo\ntech_stacks:\n  - Go+Gin\n".toList)] demoDirs)
        demoUnmarshal 0 = .error e) ∧
    ({ ProjectName := "demo".toList
       TechStacks := ["Go+Gin".toList]
       AIEditors := []
       CreatedAt := 0
       LastUpdatedAt := 0
       Version := "1.0.0".toList } : Metadata) =
      { ProjectName := "demo".toList
        TechStacks := ["Go+Gin".toList]
        AIEditors := []
        CreatedAt := 0
        LastUpdatedAt := 0
        Version := "1.0.0".toList } ∧
    FileLoader.LoadMetadata ⟨"rules".toList⟩ (listFS emptyDocFiles demoDirs)
        emptyDocUnmarshal 7 =
      .ok { ProjectName := "未知项目".toList
            TechStacks := []
            AIEditors := []
            CreatedAt := 7
            LastUpdatedAt := 7
            Version := "1.0.0".toList } :=
  ⟨(LoadMetadata_error_iff ⟨"rules".toList⟩
      (listFS [(["rules".toList, "project".toList, "tech_stack.yaml".toList],
        "project_name: demo\ntech_stacks:\n  - Go+Gin\n".toList)] demoDirs)
      demoUnmarshal 0).1.mpr (Or.inr (Or.inr (Or.inl ⟨_, rfl⟩))),
    (LoadMetadata_error_iff ⟨"rules".toList⟩ (listFS demoFiles demoDirs) demoUnmarshal 0).2.1
      (listFS [(["rules".toList, "project".toList, "tech_stack.yaml".toList],
          "project_name: demo\ntech_stacks:\n  - Go+Gin\n".toList),
        (["rules".toList, "config.yaml".toList], "\x7b\x7d".toList)] demoDirs)
      _ _ rfl rfl rfl,
    (LoadMetadata_error_iff ⟨"rules".toList⟩ (listFS emptyDocFiles demoDirs)
      emptyDocUnmarshal 7).2.2 [] "version: 1\n".toList
      (some [("version".toList, .other)]) rfl rfl rfl rfl⟩

/-! ## The platform adapters, the metadata and the priorities: facts and claims -/

theorem flatMap_enabled (rules : List Rule) (f : Rule → Str) :
    rules.flatMap (fun r => if r.Enabled = true then f r else []) =
      (rules.filter (fun r => r.Enabled)).flatMap f := by
  induction rules with
  | nil => rfl
  | cons r rest ih =>
    cases h : r.Enabled with
    | true => simp [List.flatMap_cons, List.filter_cons, h, ih]
    | false => simp [List.flatMap_cons, List.filter_cons, h, ih]

theorem projectRuleStep_eq (content : Str) (rule : Rule) :
    projectRuleStep content rule =
      content ++ (if rule.Enabled = true then ruleBlock rule else []) := by
  unfold projectRuleStep ruleBlock
  cases rule.Enabled <;> simp only [Bool.not_true, Bool.not_false, Bool.false_eq_true, if_true,
    if_false, List.append_nil, List.append_assoc]

theorem globalRuleStep_eq (content : Str) (rule : Rule) :
    globalRuleStep content rule =
      content ++ (if rule.Enabled = true then ruleBlock rule else []) := by
  unfold globalRuleStep ruleBlock
  cases rule.Enabled <;> simp only [Bool.not_true, Bool.not_false, Bool.false_eq_true, if_true,
    if_false, List.append_nil, List.append_assoc]

theorem templateRuleStep_eq (content : Str) (rule : Rule) :
    templateRuleStep content rule =
      content ++ (if rule.Enabled = true then ruleBlock rule else []) := by
  unfold templateRuleStep ruleBlock
  cases rule.Enabled <;> simp only [Bool.not_true, Bool.not_false, Bool.false_eq_true, if_true,
    if_false, List.append_nil, List.append_assoc]

theorem length_pos_iff_ne_nil {α : Type} (l : List α) : 0 < l.length ↔ l ≠ [] := by
  cases l <;> simp

theorem writeProjectRules_eq (content : Str) (rules : List Rule) :
    writeProjectRules content rules =
      content ++ renderSection "## 项目特定规则\n\n".toList
        "*这些规则具有最高优先级，适用于当前项目*\n\n".toList rules := by
  unfold writeProjectRules renderSection
  by_cases h : rules = []
  · subst h
    simp only [List.length_nil, Nat.lt_irrefl, if_false, if_true, List.append_nil]
  · rw [if_pos ((length_pos_iff_ne_nil rules).mpr h), if_neg h]
    dsimp only
    rw [foldl_append_flatMap projectRuleStep _ projectRuleStep_eq, flatMap_enabled]
    simp only [List.append_assoc]

theorem writeGlobalRules_eq (content : Str) (rules : List Rule) :
    writeGlobalRules content rules =
      content ++ renderSection "## 全局通用规则\n\n".toList
        "*这些规则适用于所有项目，具有中等优先级*\n\n".toList rules := by
  unfold writeGlobalRules renderSection
  by_cases h : rules = []
  · subst h
    simp only [List.length_nil, Nat.lt_irrefl, if_false, if_true, List.append_nil]
  · rw [if_pos ((length_pos_iff_ne_nil rules).mpr h), if_neg h]
    dsimp only
    rw [foldl_append_flatMap globalRuleStep _ globalRuleStep_eq, flatMap_enabled]
    simp only [List.append_assoc]

theorem writeTemplateRules_eq (content : Str) (rules : List Rule) :
    writeTemplateRules content rules =
      content ++ renderSection "## 自定义模板规则\n\n".toList
        "*这些规则来自用户自定义模板*\n\n".toList rules := by
  unfold writeTemplateRules renderSection
  by_cases h : rules = []
  · subst h
    simp only [List.length_nil, Nat.lt_irrefl, if_false, if_true, List.append_nil]
  · rw [if_pos ((length_pos_iff_ne_nil rules).mpr h), if_neg h]
    dsimp only
    rw [foldl_append_flatMap templateRuleStep _ templateRuleStep_eq, flatMap_enabled]
    simp only [List.append_assoc]

theorem Convert_eq (t : TraeAdapter) (ruleSet : RuleSet) (clock : Str) :
    t.Convert ruleSet clock =
      .ok (traeHeader ruleSet.Metadata clock ++
        renderSection "## 项目特定规则\n\n".toList
          "*这些规则具有最高优先级，适用于当前项目*\n\n".toList ruleSet.ProjectRules ++
        renderSection "## 全局通用规则\n\n".toList
          "*这些规则适用于所有项目，具有中等优先级*\n\n".toList ruleSet.GlobalRules ++
        renderSection "## 自定义模板规则\n\n".toList
          "*这些规则来自用户自定义模板*\n\n".toList ruleSet.TemplateRules ++
        traeUsage) := by
  unfold TraeAdapter.Convert
  simp only [writeProjectRules_eq, writeGlobalRules_eq, writeTemplateRules_eq, traeHeader,
    traeUsage, List.nil_append, List.append_assoc]

theorem lookup_filter_ne {β : Type} (k : Str) :
    ∀ (l : List (Str × β)) (n : Str),
      (l.filter (fun e => e.1 != k)).lookup n = if n = k then none else l.lookup n
  | [], n => by simp
  | (a, b) :: l, n => by
    have ih := lookup_filter_ne k l n
    by_cases hak : a = k
    · have hf : ((a, b) :: l).filter (fun e => e.1 != k) = l.filter (fun e => e.1 != k) := by
        rw [List.filter_cons_of_neg (by simp [hak])]
      rw [hf, ih]
      by_cases hn : n = k
      · rw [if_pos hn, if_pos hn]
      · rw [if_neg hn, if_neg hn]
        have hna : (n == a) = false := by
          rw [hak]
          simpa using hn
        rw [List.lookup_cons, hna]
    · have hf : ((a, b) :: l).filter (fun e => e.1 != k) =
          (a, b) :: l.filter (fun e => e.1 != k) := by
        rw [List.filter_cons_of_pos (by simp [hak])]
      rw [hf, List.lookup_cons, List.lookup_cons, ih]
      cases hna : (n == a) with
      | true =>
        have : n = a := by simpa using hna
        simp only [this, hak, if_false]
      | false => rfl

theorem Get_Register (r : PlatformRegistry) (a : PlatformAdapter) (n : Str) :
    (r.Register a).Get n = if n = a.Name then some a else r.Get n := by
  unfold PlatformRegistry.Register PlatformRegistry.Get
  rw [List.lookup_cons]
  by_cases hn : n = a.Name
  · rw [if_pos hn]
    have : (n == a.Name) = true := by simpa using hn
    rw [this]
  · rw [if_neg hn]
    have : (n == a.Name) = false := by simpa using hn
    rw [this, lookup_filter_ne, if_neg hn]

/-- C23: after `Register a`, `Get` of the name of `a` returns `a`, and `Get` of
any other name returns what it returned before; so a second registration under
the same name replaces the first; `Get` on a new registry finds nothing, and
neither does `Get` of a name that none of the registered adapters has. -/
theorem registry_get_register (r : PlatformRegistry) (a b : PlatformAdapter) (n : Str)
    (adapters : List PlatformAdapter) :
    (r.Register a).Get a.Name = some a ∧
    (n ≠ a.Name → (r.Register a).Get n = r.Get n) ∧
    (b.Name = a.Name → ((r.Register a).Register b).Get a.Name = some b) ∧
    NewPlatformRegistry.Get n = none ∧
    ((∀ c ∈ adapters, c.Name ≠ n) →
      (adapters.foldl PlatformRegistry.Register NewPlatformRegistry).Get n = none) := by
  refine ⟨?_, ?_, ?_, rfl, ?_⟩
  · rw [Get_Register, if_pos rfl]
  · intro hn
    rw [Get_Register, if_neg hn]
  · intro hb
    rw [Get_Register, if_pos hb.symm]
  · have key : ∀ (cs : List PlatformAdapter) (reg : PlatformRegistry),
        (∀ c ∈ cs, c.Name ≠ n) → reg.Get n = none →
        (cs.foldl PlatformRegistry.Register reg).Get n = none := by
      intro cs
      induction cs with
      | nil => intro reg _ h; exact h
      | cons c cs ih =>
        intro reg hcs h
        rw [List.foldl_cons]
        apply ih
        · exact fun d hd => hcs d (List.mem_cons_of_mem _ hd)
        · rw [Get_Register, if_neg (fun hn => hcs c (List.mem_cons_self _ _) hn.symm)]
          exact h
    intro h
    exact key adapters NewPlatformRegistry h rfl

theorem registry_get_register_witness :
    "cursor".toList ≠ (TraeAdapter.toPlatformAdapter {}).Name ∧
      (NewPlatformRegistry.Register (TraeAdapter.toPlatformAdapter {})).Get "cursor".toList =
        NewPlatformRegistry.Get "cursor".toList ∧
    ({ Name := "trae".toList, DefaultOutputPath := [], Convert := fun _ _ => .ok [] } :
        PlatformAdapter).Name = (TraeAdapter.toPlatformAdapter {}).Name ∧
      ((NewPlatformRegistry.Register (TraeAdapter.toPlatformAdapter {})).Register
          { Name := "trae".toList, DefaultOutputPath := [], Convert := fun _ _ => .ok [] }).Get
          (TraeAdapter.toPlatformAdapter {}).Name =
        some { Name := "trae".toList, DefaultOutputPath := [], Convert := fun _ _ => .ok [] } ∧
    (∀ c ∈ [TraeAdapter.toPlatformAdapter {}], c.Name ≠ "cursor".toList) ∧
      ([TraeAdapter.toPlatformAdapter {}].foldl PlatformRegistry.Register
        NewPlatformRegistry).Get "cursor".toList = none :=
  ⟨by decide,
    (registry_get_register NewPlatformRegistry (TraeAdapter.toPlatformAdapter {})
      (TraeAdapter.toPlatformAdapter {}) "cursor".toList []).2.1 (by decide),
    rfl,
    (registry_get_register NewPlatformRegistry (TraeAdapter.toPlatformAdapter {})
      { Name := "trae".toList, DefaultOutputPath := [], Convert := fun _ _ => .ok [] }
      [] []).2.2.1 rfl,
    by decide,
    (registry_get_register NewPlatformRegistry (TraeAdapter.toPlatformAdapter {})
      (TraeAdapter.toPlatformAdapter {}) "cursor".toList
      [TraeAdapter.toPlatformAdapter {}]).2.2.2.2 (by decide)⟩

/-- C24: `TraeAdapter.Convert` is total: on every rule set and clock it returns
a text and no error. -/
theorem Convert_total (t : TraeAdapter) (ruleSet : RuleSet) (clock : Str) :
    ∃ out, t.Convert ruleSet clock = .ok out :=
  ⟨_, Convert_eq t ruleSet clock⟩

theorem renderSection_congr (header caveat : Str) (rules rules2 : List Rule)
    (hf : rules.filter (fun r => r.Enabled) = rules2.filter (fun r => r.Enabled))
    (he : rules = [] ↔ rules2 = []) :
    renderSection header caveat rules = renderSection header caveat rules2 := by
  unfold renderSection
  by_cases h : rules = []
  · rw [if_pos h, if_pos (he.mp h)]
  · rw [if_neg h, if_neg (fun h2 => h (he.mpr h2)), hf]

theorem filter_enabled_replace (pre post : List Rule) (d d2 : Rule)
    (hd : d.Enabled = false) (hd2 : d2.Enabled = false) :
    (pre ++ d :: post).filter (fun r => r.Enabled) =
      (pre ++ d2 :: post).filter (fun r => r.Enabled) := by
  simp [List.filter_append, List.filter_cons, hd, hd2]

theorem renderSection_replace (header caveat : Str) (pre post : List Rule) (d d2 : Rule)
    (hd : d.Enabled = false) (hd2 : d2.Enabled = false) :
    renderSection header caveat (pre ++ d :: post) =
      renderSection header caveat (pre ++ d2 :: post) :=
  renderSection_congr header caveat _ _ (filter_enabled_replace pre post d d2 hd hd2)
    (by simp)

/-- C25: the output of `TraeAdapter.Convert` depends on the rules only through
the enabled rules of each sequence and through whether each sequence is empty;
so replacing a disabled rule by any other disabled rule at the same position,
in any of the three sequences, leaves the output unchanged. -/
theorem Convert_ignores_disabled (t : TraeAdapter) (clock : Str) :
    (∀ rs rs2 : RuleSet, rs.Metadata = rs2.Metadata →
      rs.ProjectRules.filter (fun r => r.Enabled) =
        rs2.ProjectRules.filter (fun r => r.Enabled) →
      (rs.ProjectRules = [] ↔ rs2.ProjectRules = []) →
      rs.GlobalRules.filter (fun r => r.Enabled) =
        rs2.GlobalRules.filter (fun r => r.Enabled) →
      (rs.GlobalRules = [] ↔ rs2.GlobalRules = []) →
      rs.TemplateRules.filter (fun r => r.Enabled) =
        rs2.TemplateRules.filter (fun r => r.Enabled) →
      (rs.TemplateRules = [] ↔ rs2.TemplateRules = []) →
      t.Convert rs clock = t.Convert rs2 clock) ∧
    (∀ (rs : RuleSet) (pre post : List Rule) (d d2 : Rule),
      d.Enabled = false → d2.Enabled = false →
      t.Convert { rs with ProjectRules := pre ++ d :: post } clock =
          t.Convert { rs with ProjectRules := pre ++ d2 :: post } clock ∧
        t.Convert { rs with GlobalRules := pre ++ d :: post } clock =
          t.Convert { rs with GlobalRules := pre ++ d2 :: post } clock ∧
        t.Convert { rs with TemplateRules := pre ++ d :: post } clock =
          t.Convert { rs with TemplateRules := pre ++ d2 :: post } clock) := by
  constructor
  · intro rs rs2 hm hp hp0 hg hg0 ht ht0
    rw [Convert_eq, Convert_eq, hm, renderSection_congr _ _ _ _ hp hp0,
      renderSection_congr _ _ _ _ hg hg0, renderSection_congr _ _ _ _ ht ht0]
  · intro rs pre post d d2 hd hd2
    refine ⟨?_, ?_, ?_⟩ <;>
    · rw [Convert_eq, Convert_eq]
      dsimp only
      rw [renderSection_replace _ _ pre post d d2 hd hd2]

/-- C26: for a rule set whose three sequences are empty, `Convert` succeeds
and its output is exactly the title line "# <ProjectName> 项目规则集", the
metadata block and the usage instructions, which start with "## 使用说明". -/
theorem Convert_empty (t : TraeAdapter) (metadata : Metadata) (clock : Str) :
    t.Convert
        { ProjectRules := [], GlobalRules := [], TemplateRules := [], Metadata := metadata }
        clock =
      .ok (("# ".toList ++ metadata.ProjectName ++ " 项目规则集\n\n".toList) ++
        ("## 项目信息\n\n".toList ++
          ("- **项目名称**: ".toList ++ metadata.ProjectName ++ "\n".toList) ++
          ("- **技术栈**: ".toList ++ Join metadata.TechStacks ", ".toList ++ "\n".toList) ++
          ("- **目标AI编辑器**: ".toList ++ Join metadata.AIEditors ", ".toList ++
            "\n".toList) ++
          ("- **生成时间**: ".toList ++ clock ++ "\n".toList) ++
          ("- **版本**: ".toList ++ metadata.Version ++ "\n\n".toList)) ++
        traeUsage) ∧
    HasPrefix traeUsage "## 使用说明".toList = true := by
  refine ⟨?_, by decide⟩
  rw [Convert_eq]
  simp only [renderSection, if_true, List.append_nil, traeHeader, List.append_assoc]

/-- C27: the output of `Convert` is, in this order, the title and metadata
block (made of the metadata and the clock), the section of the project rules,
that of the global rules, that of the template rules (each made of its own
sequence only), and the usage instructions, a constant text. -/
theorem Convert_five_parts (t : TraeAdapter) (ruleSet : RuleSet) (clock : Str) :
    t.Convert ruleSet clock =
      .ok (traeHeader ruleSet.Metadata clock ++
        renderSection "## 项目特定规则\n\n".toList
          "*这些规则具有最高优先级，适用于当前项目*\n\n".toList ruleSet.ProjectRules ++
        renderSection "## 全局通用规则\n\n".toList
          "*这些规则适用于所有项目，具有中等优先级*\n\n".toList ruleSet.GlobalRules ++
        renderSection "## 自定义模板规则\n\n".toList
          "*这些规则来自用户自定义模板*\n\n".toList ruleSet.TemplateRules ++
        traeUsage) :=
  Convert_eq t ruleSet clock

/-- C28: in the output of `TraeAdapter.Convert`, the section of every
non-empty rule sequence is its header, its caveat line, and the blocks of the
enabled rules in sequence order, placed after the metadata block and the
earlier sections and before the later sections and the usage text; so does
each builder block of `Convert`; the block of a rule is the same in the three
sections: "### <Title>", the line of type, priority and tags joined with ", ",
the description, and the content under "**规则内容**:". -/
theorem sections_render_enabled_blocks (t : TraeAdapter) (ruleSet : RuleSet) (clock : Str) :
    (ruleSet.ProjectRules ≠ [] →
      t.Convert ruleSet clock =
        .ok (traeHeader ruleSet.Metadata clock ++
          ("## 项目特定规则\n\n".toList ++
            "*这些规则具有最高优先级，适用于当前项目*\n\n".toList ++
            (ruleSet.ProjectRules.filter (fun r => r.Enabled)).flatMap ruleBlock) ++
          renderSection "## 全局通用规则\n\n".toList
            "*这些规则适用于所有项目，具有中等优先级*\n\n".toList ruleSet.GlobalRules ++
          renderSection "## 自定义模板规则\n\n".toList
            "*这些规则来自用户自定义模板*\n\n".toList ruleSet.TemplateRules ++
          traeUsage)) ∧
    (ruleSet.GlobalRules ≠ [] →
      t.Convert ruleSet clock =
        .ok (traeHeader ruleSet.Metadata clock ++
          renderSection "## 项目特定规则\n\n".toList
            "*这些规则具有最高优先级，适用于当前项目*\n\n".toList ruleSet.ProjectRules ++
          ("## 全局通用规则\n\n".toList ++
            "*这些规则适用于所有项目，具有中等优先级*\n\n".toList ++
            (ruleSet.GlobalRules.filter (fun r => r.Enabled)).flatMap ruleBlock) ++
          renderSection "## 自定义模板规则\n\n".toList
            "*这些规则来自用户自定义模板*\n\n".toList ruleSet.TemplateRules ++
          traeUsage)) ∧
    (ruleSet.TemplateRules ≠ [] →
      t.Convert ruleSet clock =
        .ok (traeHeader ruleSet.Metadata clock ++
          renderSection "## 项目特定规则\n\n".toList
            "*这些规则具有最高优先级，适用于当前项目*\n\n".toList ruleSet.ProjectRules ++
          renderSection "## 全局通用规则\n\n".toList
            "*这些规则适用于所有项目，具有中等优先级*\n\n".toList ruleSet.GlobalRules ++
          ("## 自定义模板规则\n\n".toList ++
            "*这些规则来自用户自定义模板*\n\n".toList ++
            (ruleSet.TemplateRules.filter (fun r => r.Enabled)).flatMap ruleBlock) ++
          traeUsage)) ∧
    (∀ (content : Str) (rules : List Rule), rules ≠ [] →
      writeProjectRules content rules =
        content ++ ("## 项目特定规则\n\n".toList ++
          "*这些规则具有最高优先级，适用于当前项目*\n\n".toList ++
          (rules.filter (fun r => r.Enabled)).flatMap ruleBlock) ∧
      writeGlobalRules content rules =
        content ++ ("## 全局通用规则\n\n".toList ++
          "*这些规则适用于所有项目，具有中等优先级*\n\n".toList ++
          (rules.filter (fun r => r.Enabled)).flatMap ruleBlock) ∧
      writeTemplateRules content rules =
        content ++ ("## 自定义模板规则\n\n".toList ++
          "*这些规则来自用户自定义模板*\n\n".toList ++
          (rules.filter (fun r => r.Enabled)).flatMap ruleBlock)) ∧
    (∀ r : Rule, ruleBlock r =
      "### ".toList ++ r.Title ++ "\n\n".toList ++
        ("**类型**: ".toList ++ r.Type_ ++ "  |  **优先级**: ".toList ++
          formatInt r.Priority ++ "  |  **标签**: ".toList ++ Join r.Tags ", ".toList ++
          "\n\n".toList) ++
        (r.Description ++ "\n\n".toList) ++
        ("**规则内容**:\n".toList ++ r.Content ++ "\n\n".toList)) := by
  refine ⟨?_, ?_, ?_, ?_, fun r => rfl⟩
  · intro h
    have e : renderSection "## 项目特定规则\n\n".toList
        "*这些规则具有最高优先级，适用于当前项目*\n\n".toList ruleSet.ProjectRules =
        "## 项目特定规则\n\n".toList ++ "*这些规则具有最高优先级，适用于当前项目*\n\n".toList ++
          (ruleSet.ProjectRules.filter (fun r => r.Enabled)).flatMap ruleBlock := by
      rw [renderSection, if_neg h]
    rw [Convert_eq, e]
  · intro h
    have e : renderSection "## 全局通用规则\n\n".toList
        "*这些规则适用于所有项目，具有中等优先级*\n\n".toList ruleSet.GlobalRules =
        "## 全局通用规则\n\n".toList ++ "*这些规则适用于所有项目，具有中等优先级*\n\n".toList ++
          (ruleSet.GlobalRules.filter (fun r => r.Enabled)).flatMap ruleBlock := by
      rw [renderSection, if_neg h]
    rw [Convert_eq, e]
  · intro h
    have e : renderSection "## 自定义模板规则\n\n".toList
        "*这些规则来自用户自定义模板*\n\n".toList ruleSet.TemplateRules =
        "## 自定义模板规则\n\n".toList ++ "*这些规则来自用户自定义模板*\n\n".toList ++
          (ruleSet.TemplateRules.filter (fun r => r.Enabled)).flatMap ruleBlock := by
      rw [renderSection, if_neg h]
    rw [Convert_eq, e]
  · intro content rules h
    refine ⟨?_, ?_, ?_⟩
    · rw [writeProjectRules_eq, renderSection, if_neg h]
    · rw [writeGlobalRules_eq, renderSection, if_neg h]
    · rw [writeTemplateRules_eq, renderSection, if_neg h]

theorem Convert_ignores_disabled_witness :
    (hiddenRule "旧".toList).Enabled = false ∧ (hiddenRule "新".toList).Enabled = false ∧
      TraeAdapter.Convert {}
          { ProjectRules := [demoRule] ++ hiddenRule "旧".toList :: [demoRule]
            GlobalRules := []
            TemplateRules := []
            Metadata := demoMetadata } "2026-01-01 00:00:00".toList =
        TraeAdapter.Convert {}
          { ProjectRules := [demoRule] ++ hiddenRule "新".toList :: [demoRule]
            GlobalRules := []
            TemplateRules := []
            Metadata := demoMetadata } "2026-01-01 00:00:00".toList :=
  ⟨rfl, rfl,
    ((Convert_ignores_disabled {} "2026-01-01 00:00:00".toList).2
      { ProjectRules := [], GlobalRules := [], TemplateRules := [], Metadata := demoMetadata }
      [demoRule] [demoRule] (hiddenRule "旧".toList) (hiddenRule "新".toList) rfl rfl).1⟩

theorem sections_render_enabled_blocks_witness :
    [demoRule, hiddenRule "旧".toList] ≠ [] ∧
      TraeAdapter.Convert {}
          { ProjectRules := [demoRule, hiddenRule "旧".toList]
            GlobalRules := []
            TemplateRules := []
            Metadata := demoMetadata } "2026-01-01 00:00:00".toList =
        .ok (traeHeader demoMetadata "2026-01-01 00:00:00".toList ++
          ("## 项目特定规则\n\n*这些规则具有最高优先级，适用于当前项目*\n\n" ++
            "### 接口\n\n**类型**: api  |  **优先级**: 4  |  **标签**: api, interface\n\n" ++
            "项目 接口 相关的要求和规范\n\n**规则内容**:\nREST\n\n").toList ++
          traeUsage) :=
  ⟨by decide,
    ((sections_render_enabled_blocks {}
      { ProjectRules := [demoRule, hiddenRule "旧".toList]
        GlobalRules := []
        TemplateRules := []
        Metadata := demoMetadata } "2026-01-01 00:00:00".toList).1 (by decide)).trans
      (congrArg
        (fun s => Except.ok (traeHeader demoMetadata "2026-01-01 00:00:00".toList ++ s ++ traeUsage))
        (by decide))⟩

theorem LoadMetadata_ok (l : FileLoader) (fs : FileSystem) (unmarshal : Unmarshal) (now : Nat)
    (md : Metadata) (hmd : l.LoadMetadata fs unmarshal now = .ok md) :
    ∃ data techStack,
      fs.ReadFile [l.basePath, "project".toList, "tech_stack.yaml".toList] = .ok data ∧
      unmarshal data = .ok techStack ∧
      md = { ProjectName := getString techStack "project_name".toList "未知项目".toList
             TechStacks := getStringSlice techStack "tech_stacks".toList
             AIEditors := getStringSlice techStack "ai_editors".toList
             CreatedAt := now
             LastUpdatedAt := now
             Version := "1.0.0".toList } := by
  unfold FileLoader.LoadMetadata at hmd
  simp only [List.cons_append, List.nil_append] at hmd
  cases h1 : fs.ReadFile [l.basePath, "project".toList, "tech_stack.yaml".toList] with
  | error e => rw [h1] at hmd; simp at hmd
  | ok data =>
    rw [h1] at hmd
    cases h2 : unmarshal data with
    | error e => simp [h2] at hmd
    | ok techStack =>
      simp only [h2] at hmd
      cases h3 : fs.ReadFile [l.basePath, "config.yaml".toList] with
      | error e => rw [h3] at hmd; simp at hmd
      | ok cdata =>
        rw [h3] at hmd
        cases h4 : unmarshal cdata with
        | error e => simp [h4] at hmd
        | ok config =>
          simp only [h4, Except.ok.injEq] at hmd
          exact ⟨data, techStack, rfl, h2, hmd.symm⟩

theorem getString_str (data : Option YamlMap) (key dflt s : Str)
    (h : mapLookup data key = some (.str s)) : getString data key dflt = s := by
  unfold getString
  rw [h]

theorem getString_default (data : Option YamlMap) (key dflt : Str)
    (h : ∀ s, mapLookup data key ≠ some (.str s)) : getString data key dflt = dflt := by
  unfold getString
  cases hm : mapLookup data key with
  | none => rfl
  | some v =>
    cases v with
    | str s => exact absurd hm (h s)
    | null => rfl
    | seq items => rfl
    | other => rfl

theorem getStringSlice_seq (data : Option YamlMap) (key : Str) (items : List YamlValue)
    (h : mapLookup data key = some (.seq items)) :
    getStringSlice data key =
      items.map (fun item =>
        match item with
        | .str s => s
        | _ => []) := by
  unfold getStringSlice
  rw [h]

theorem getStringSlice_default (data : Option YamlMap) (key : Str)
    (h : ∀ items, mapLookup data key ≠ some (.seq items)) : getStringSlice data key = [] := by
  unfold getStringSlice
  cases hm : mapLookup data key with
  | none => rfl
  | some v =>
    cases v with
    | seq items => exact absurd hm (h items)
    | null => rfl
    | str s => rfl
    | other => rfl

/-- C21: when `LoadMetadata` succeeds on a tech-stack file that decodes to
`techStack`: the project name is the value of `project_name` when that is a
string and "未知项目" otherwise; `TechStacks` and `AIEditors` are the items of
`tech_stacks` and `ai_editors` when these are sequences (an item that is not a
string gives the empty string) and empty otherwise; the version is "1.0.0". -/
theorem LoadMetadata_fields (l : FileLoader) (fs : FileSystem) (unmarshal : Unmarshal)
    (now : Nat) (md : Metadata) (data : Str) (techStack : Option YamlMap)
    (hread : fs.ReadFile [l.basePath, "project".toList, "tech_stack.yaml".toList] = .ok data)
    (hyaml : unmarshal data = .ok techStack)
    (hmd : l.LoadMetadata fs unmarshal now = .ok md) :
    (∀ s, mapLookup techStack "project_name".toList = some (.str s) → md.ProjectName = s) ∧
    ((∀ s, mapLookup techStack "project_name".toList ≠ some (.str s)) →
      md.ProjectName = "未知项目".toList) ∧
    (∀ items, mapLookup techStack "tech_stacks".toList = some (.seq items) →
      md.TechStacks =
        items.map (fun item =>
          match item with
          | .str s => s
          | _ => [])) ∧
    ((∀ items, mapLookup techStack "tech_stacks".toList ≠ some (.seq items)) →
      md.TechStacks = []) ∧
    (∀ items, mapLookup techStack "ai_editors".toList = some (.seq items) →
      md.AIEditors =
        items.map (fun item =>
          match item with
          | .str s => s
          | _ => [])) ∧
    ((∀ items, mapLookup techStack "ai_editors".toList ≠ some (.seq items)) →
      md.AIEditors = []) ∧
    md.Version = "1.0.0".toList := by
  obtain ⟨data2, techStack2, hread2, hyaml2, hmeq⟩ := LoadMetadata_ok l fs unmarshal now md hmd
  rw [hread] at hread2
  simp only [Except.ok.injEq] at hread2
  rw [← hread2, hyaml] at hyaml2
  simp only [Except.ok.injEq] at hyaml2
  rw [hmeq, ← hyaml2]
  exact ⟨fun s h => getString_str _ _ _ s h, fun h => getString_default _ _ _ h,
    fun items h => getStringSlice_seq _ _ items h, fun h => getStringSlice_default _ _ h,
    fun items h => getStringSlice_seq _ _ items h, fun h => getStringSlice_default _ _ h, rfl⟩

theorem LoadMetadata_fields_witness :
    FileLoader.LoadMetadata ⟨"rules".toList⟩ (listFS demoFiles demoDirs) demoUnmarshal 0 =
        .ok demoMetadata ∧
      demoMetadata.ProjectName = "demo".toList ∧
      demoMetadata.TechStacks = ["Go+Gin".toList] ∧
      demoMetadata.AIEditors = [] ∧
      demoMetadata.Version = "1.0.0".toList :=
  ⟨rfl,
    (LoadMetadata_fields ⟨"rules".toList⟩ (listFS demoFiles demoDirs) demoUnmarshal 0
      demoMetadata "project_name: demo\ntech_stacks:\n  - Go+Gin\n".toList
      (some [("project_name".toList, .str "demo".toList),
        ("tech_stacks".toList, .seq [.str "Go+Gin".toList])]) rfl rfl rfl).1 "demo".toList rfl,
    (LoadMetadata_fields ⟨"rules".toList⟩ (listFS demoFiles demoDirs) demoUnmarshal 0
      demoMetadata "project_name: demo\ntech_stacks:\n  - Go+Gin\n".toList
      (some [("project_name".toList, .str "demo".toList),
        ("tech_stacks".toList, .seq [.str "Go+Gin".toList])]) rfl rfl rfl).2.2.1
      [.str "Go+Gin".toList] rfl,
    (LoadMetadata_fields ⟨"rules".toList⟩ (listFS demoFiles demoDirs) demoUnmarshal 0
      demoMetadata "project_name: demo\ntech_stacks:\n  - Go+Gin\n".toList
      (some [("project_name".toList, .str "demo".toList),
        ("tech_stacks".toList, .seq [.str "Go+Gin".toList])]) rfl rfl rfl).2.2.2.2.2.1
      (fun _ h => nomatch h),
    (LoadMetadata_fields ⟨"rules".toList⟩ (listFS demoFiles demoDirs) demoUnmarshal 0
      demoMetadata "project_name: demo\ntech_stacks:\n  - Go+Gin\n".toList
      (some [("project_name".toList, .str "demo".toList),
        ("tech_stacks".toList, .seq [.str "Go+Gin".toList])]) rfl rfl rfl).2.2.2.2.2.2⟩

/-- C22: `LoadTemplateRules` returns the empty sequence and no error on every
file system, whether the templates directory exists or not and whatever it
holds. -/
theorem LoadTemplateRules_always_empty (l : FileLoader) (fs : FileSystem) :
    l.LoadTemplateRules fs = .ok [] :=
  LoadTemplateRules_eq l fs

theorem parse_priority (now : Nat) (content : Str) (r : Rule)
    (hr : r ∈ parseRequirementsMarkdown now content) : r.Priority = 4 ∨ r.Priority = 5 := by
  rw [parseRequirementsMarkdown_eq, List.mem_filterMap] at hr
  obtain ⟨sec, _, hsec⟩ := hr
  obtain ⟨_, hk, hc⟩ := sectionRule_eq_some now sec r hsec
  rw [createRuleFromSection_some now sec.1 _ hk] at hc
  rw [← Option.some.inj hc]
  dsimp only
  split_ifs
  · exact Or.inr rfl
  · exact Or.inl rfl

theorem markdown_priority (l : FileLoader) (now : Nat) (content filename : Str) (r : Rule)
    (hr : r ∈ l.parseMarkdownRules now content filename) : r.Priority = 4 := by
  rw [parseMarkdownRules_eq, List.mem_filterMap] at hr
  obtain ⟨sec, _, hsec⟩ := hr
  rw [(mdSectionRule_eq_some l now filename sec r hsec).2]

theorem globalFileRules_priority (l : FileLoader) (fs : FileSystem) (now : Nat)
    (globalDir : Path) (file : DirEntry) (r : Rule)
    (hr : r ∈ globalFileRules l fs now globalDir file) : r.Priority = 4 := by
  unfold globalFileRules at hr
  split_ifs at hr with h
  · exact absurd hr (List.not_mem_nil _)
  · cases hread : fs.ReadFile (globalDir ++ [file.Name]) with
    | error e => rw [hread] at hr; exact absurd hr (List.not_mem_nil _)
    | ok content =>
      rw [hread] at hr
      exact markdown_priority l now content file.Name r hr

theorem techContribution_cases (l : FileLoader) (now : Nat) (tech : Str) :
    techContribution l now tech = [] ∨
      techContribution l now tech = l.generatePHPRules now tech ∨
      techContribution l now tech = l.generateGoRules now tech ∨
      techContribution l now tech = l.generateJavaRules now tech ∨
      techContribution l now tech = l.generatePythonRules now tech ∨
      techContribution l now tech = l.generateNodeRules now tech ∨
      techContribution l now tech = l.generateFrontendRules now tech ∨
      techContribution l now tech = l.generateDatabaseRules now tech ∨
      techContribution l now tech = l.generateCacheRules now tech ∨
      techContribution l now tech = l.generateDevOpsRules now tech := by
  unfold techContribution
  simp only [techCategories, List.find?_cons, List.find?_nil, List.any_cons, List.any_nil,
    Bool.or_false]
  generalize Contains tech "PHP".toList = b1
  generalize Contains tech "Go".toList = b2
  generalize Contains tech "Java".toList = b3
  generalize Contains tech "Python".toList = b4
  generalize Contains tech "Node.js".toList = b5
  generalize (Contains tech "React".toList || Contains tech "Vue".toList) = b6
  generalize (Contains tech "MySQL".toList || Contains tech "PostgreSQL".toList) = b7
  generalize (Contains tech "Redis".toList || Contains tech "Memcached".toList) = b8
  generalize (Contains tech "Docker".toList || Contains tech "Kubernetes".toList) = b9
  cases b1
  · cases b2
    · cases b3
      · cases b4
        · cases b5
          · cases b6
            · cases b7
              · cases b8
                · cases b9
                  · exact Or.inl rfl
                  · exact Or.inr (Or.inr (Or.inr (Or.inr (Or.inr (Or.inr (Or.inr (Or.inr
                      (Or.inr rfl))))))))
                · exact Or.inr (Or.inr (Or.inr (Or.inr (Or.inr (Or.inr (Or.inr (Or.inr
                    (Or.inl rfl))))))))
              · exact Or.inr (Or.inr (Or.inr (Or.inr (Or.inr (Or.inr (Or.inr (Or.inl rfl)))))))
            · exact Or.inr (Or.inr (Or.inr (Or.inr (Or.inr (Or.inr (Or.inl rfl))))))
          · exact Or.inr (Or.inr (Or.inr (Or.inr (Or.inr (Or.inl rfl)))))
        · exact Or.inr (Or.inr (Or.inr (Or.inr (Or.inl rfl))))
      · exact Or.inr (Or.inr (Or.inr (Or.inl rfl)))
    · exact Or.inr (Or.inr (Or.inl rfl))
  · exact Or.inr (Or.inl rfl)

theorem techContribution_priority (l : FileLoader) (now : Nat) (tech : Str) (r : Rule)
    (hr : r ∈ techContribution l now tech) : r.Priority = 4 ∨ r.Priority = 5 := by
  rcases techContribution_cases l now tech with h | h | h | h | h | h | h | h | h | h <;>
    rw [h] at hr
  · exact absurd hr (List.not_mem_nil _)
  · unfold FileLoader.generatePHPRules at hr
    dsimp only at hr
    split_ifs at hr <;>
      simp only [List.cons_append, List.nil_append, List.mem_cons, List.mem_singleton,
        List.not_mem_nil, or_false] at hr <;>
      rcases hr with rfl | rfl | rfl <;> simp
  · simp only [FileLoader.generateGoRules, List.mem_cons, List.mem_singleton,
      List.not_mem_nil, or_false] at hr
    rcases hr with rfl | rfl <;> simp
  · simp only [FileLoader.generateJavaRules, List.mem_singleton] at hr
    rw [hr]; simp
  · simp only [FileLoader.generatePythonRules, List.mem_singleton] at hr
    rw [hr]; simp
  · simp only [FileLoader.generateNodeRules, List.mem_singleton] at hr
    rw [hr]; simp
  · simp only [FileLoader.generateFrontendRules, List.mem_singleton] at hr
    rw [hr]; simp
  · simp only [FileLoader.generateDatabaseRules, List.mem_singleton] at hr
    rw [hr]; simp
  · simp only [FileLoader.generateCacheRules, List.mem_singleton] at hr
    rw [hr]; simp
  · simp only [FileLoader.generateDevOpsRules, List.mem_singleton] at hr
    rw [hr]; simp

theorem assembleProjectRules_priority (now : Nat) (techStack : Option YamlMap)
    (requirementsRules : List Rule)
    (hreq : ∀ r ∈ requirementsRules, r.Priority = 4 ∨ r.Priority = 5) (r : Rule)
    (hr : r ∈ assembleProjectRules now techStack requirementsRules) :
    r.Priority = 4 ∨ r.Priority = 5 := by
  rw [assembleProjectRules_eq] at hr
  split_ifs at hr with h1 h2
  · simp only [fallbackRules, List.mem_cons, List.mem_singleton, List.not_mem_nil,
      or_false] at hr
    rcases hr with rfl | rfl <;> simp
  · exact hreq r hr
  · rcases List.mem_cons.mp hr with rfl | h
    · exact Or.inr rfl
    · exact hreq r h

theorem LoadProjectRules_priority (l : FileLoader) (fs : FileSystem) (unmarshal : Unmarshal)
    (now : Nat) (rules : List Rule) (hok : l.LoadProjectRules fs unmarshal now = .ok rules)
    (r : Rule) (hr : r ∈ rules) : r.Priority = 4 ∨ r.Priority = 5 := by
  by_cases hdir : fs.Stat [l.basePath, "project".toList] = .notExist
  · rw [LoadProjectRules_absent l fs unmarshal now hdir] at hok
    simp only [Except.ok.injEq] at hok
    rw [← hok] at hr
    exact absurd hr (List.not_mem_nil _)
  · obtain ⟨content, techStack, _, _, hrules⟩ :=
      LoadProjectRules_ok_present l fs unmarshal now rules hdir hok
    rw [hrules] at hr
    exact assembleProjectRules_priority now techStack _
      (fun x hx => parse_priority now content x hx) r hr

theorem LoadGlobalRules_priority (l : FileLoader) (fs : FileSystem) (unmarshal : Unmarshal)
    (now : Nat) (rules : List Rule) (hok : l.LoadGlobalRules fs unmarshal now = .ok rules)
    (r : Rule) (hr : r ∈ rules) : r.Priority = 3 ∨ r.Priority = 4 ∨ r.Priority = 5 := by
  by_cases hdir : fs.Stat [l.basePath, "global".toList] = .notExist
  · unfold FileLoader.LoadGlobalRules at hok
    simp only [hdir, if_true, Except.ok.injEq] at hok
    rw [← hok] at hr
    exact absurd hr (List.not_mem_nil _)
  · cases hread : fs.ReadDir [l.basePath, "global".toList] with
    | error e =>
      unfold FileLoader.LoadGlobalRules FileLoader.loadGlobalFiles at hok
      simp only [hdir, if_false, hread] at hok
      exact Except.noConfusion hok
    | ok files =>
      rw [LoadGlobalRules_present l fs unmarshal now files hdir hread] at hok
      simp only [Except.ok.injEq] at hok
      rw [← hok, generateTechSpecificRules_eq, List.mem_append, List.mem_append] at hr
      rcases hr with (hb | ht) | hf
      · simp only [baselineRules, List.mem_cons, List.mem_singleton, List.not_mem_nil,
          or_false] at hb
        rcases hb with rfl | rfl | rfl <;> simp
      · obtain ⟨tech, _, htech⟩ := List.mem_flatMap.mp ht
        exact Or.inr (techContribution_priority l now tech r htech)
      · obtain ⟨file, _, hfile⟩ := List.mem_flatMap.mp hf
        exact Or.inr (Or.inl (globalFileRules_priority l fs now _ file r hfile))

theorem LoadAllRules_ok (l : FileLoader) (fs : FileSystem) (unmarshal : Unmarshal)
    (now : Nat) (rs : RuleSet) (hok : l.LoadAllRules fs unmarshal now = .ok rs) :
    l.LoadProjectRules fs unmarshal now = .ok rs.ProjectRules ∧
      l.LoadGlobalRules fs unmarshal now = .ok rs.GlobalRules ∧
      rs.TemplateRules = [] ∧
      l.LoadMetadata fs unmarshal now = .ok rs.Metadata := by
  unfold FileLoader.LoadAllRules at hok
  rw [LoadTemplateRules_eq] at hok
  cases hp : l.LoadProjectRules fs unmarshal now with
  | error e => rw [hp] at hok; exact Except.noConfusion hok
  | ok p =>
    cases hg : l.LoadGlobalRules fs unmarshal now with
    | error e => rw [hp, hg] at hok; exact Except.noConfusion hok
    | ok g =>
      cases hm : l.LoadMetadata fs unmarshal now with
      | error e => rw [hp, hg, hm] at hok; exact Except.noConfusion hok
      | ok m =>
        rw [hp, hg, hm] at hok
        simp only [Except.ok.injEq] at hok
        rw [← hok]
        exact ⟨rfl, rfl, rfl, rfl⟩

/-- C29: every rule returned by `LoadProjectRules` and by `LoadGlobalRules`,
and every rule of a rule set returned by `LoadAllRules`, has a priority within
1 and 5, in fact 3, 4 or 5. -/
theorem loaded_rules_priority (l : FileLoader) (fs : FileSystem) (unmarshal : Unmarshal)
    (now : Nat) :
    (∀ rules, l.LoadProjectRules fs unmarshal now = .ok rules → ∀ r ∈ rules,
      (1 ≤ r.Priority ∧ r.Priority ≤ 5) ∧
        (r.Priority = 3 ∨ r.Priority = 4 ∨ r.Priority = 5)) ∧
    (∀ rules, l.LoadGlobalRules fs unmarshal now = .ok rules → ∀ r ∈ rules,
      (1 ≤ r.Priority ∧ r.Priority ≤ 5) ∧
        (r.Priority = 3 ∨ r.Priority = 4 ∨ r.Priority = 5)) ∧
    (∀ rs, l.LoadAllRules fs unmarshal now = .ok rs →
      ∀ r ∈ rs.ProjectRules ++ rs.GlobalRules ++ rs.TemplateRules,
      (1 ≤ r.Priority ∧ r.Priority ≤ 5) ∧
        (r.Priority = 3 ∨ r.Priority = 4 ∨ r.Priority = 5)) := by
  have bounds : ∀ r : Rule, (r.Priority = 3 ∨ r.Priority = 4 ∨ r.Priority = 5) →
      (1 ≤ r.Priority ∧ r.Priority ≤ 5) ∧
        (r.Priority = 3 ∨ r.Priority = 4 ∨ r.Priority = 5) := by
    intro r h
    refine ⟨?_, h⟩
    omega
  refine ⟨?_, ?_, ?_⟩
  · intro rules hok r hr
    exact bounds r (Or.inr (LoadProjectRules_priority l fs unmarshal now rules hok r hr))
  · intro rules hok r hr
    exact bounds r (LoadGlobalRules_priority l fs unmarshal now rules hok r hr)
  · intro rs hok r hr
    obtain ⟨hp, hg, ht, _⟩ := LoadAllRules_ok l fs unmarshal now rs hok
    rw [ht, List.append_nil, List.mem_append] at hr
    rcases hr with h | h
    · exact bounds r (Or.inr (LoadProjectRules_priority l fs unmarshal now _ hp r h))
    · exact bounds r (LoadGlobalRules_priority l fs unmarshal now _ hg r h)

theorem loaded_rules_priority_witness :
    (techStackRule 0 ["Go+Gin".toList] ∈ [techStackRule 0 ["Go+Gin".toList]] ∧
      (1 ≤ (techStackRule 0 ["Go+Gin".toList]).Priority ∧
        (techStackRule 0 ["Go+Gin".toList]).Priority ≤ 5)) ∧
    (∀ r ∈ baselineRules 0 ++ FileLoader.generateGoRules ⟨"rules".toList⟩ 0 "Go+Gin".toList,
      (1 ≤ r.Priority ∧ r.Priority ≤ 5) ∧
        (r.Priority = 3 ∨ r.Priority = 4 ∨ r.Priority = 5)) :=
  ⟨⟨by decide,
      ((loaded_rules_priority ⟨"rules".toList⟩ (listFS demoFiles demoDirs) demoUnmarshal 0).1
        [techStackRule 0 ["Go+Gin".toList]] rfl (techStackRule 0 ["Go+Gin".toList])
        (by decide)).1⟩,
    (loaded_rules_priority ⟨"rules".toList⟩
      (listFS demoFiles (demoDirs ++ [(["rules".toList, "global".toList], [])]))
      demoUnmarshal 0).2.1
      (baselineRules 0 ++ FileLoader.generateGoRules ⟨"rules".toList⟩ 0 "Go+Gin".toList)
      (by with_unfolding_all rfl)⟩

/-- C30 fails on the code: the section "优化" is typed `performance` by its
keyword, yet its rule gets priority 4, since the priority is read off the
words "安全" and "性能" of the section name. -/
theorem createRuleFromSection_optimization_priority :
    (createRuleFromSection 0 "优化".toList ["减少数据库查询".toList]).map
        (fun r => (r.Type_, r.Priority)) = some ("performance".toList, 4) ∧
      (parseRequirementsMarkdown 0 "## 优化\n- 减少数据库查询".toList).map
        (fun r => (r.Type_, r.Priority)) = [("performance".toList, 4)] := by
  decide

theorem renderSection_eq_nil_iff (header caveat : Str) (rules : List Rule)
    (hh : header ≠ []) : renderSection header caveat rules = [] ↔ rules = [] := by
  unfold renderSection
  by_cases h : rules = []
  · simp only [h, if_true]
  · simp only [h, if_false, List.append_eq_nil, hh, false_and, iff_false, not_false_eq_true]

theorem renderSection_all_disabled (header caveat : Str) (rules : List Rule)
    (hne : rules ≠ []) (hd : ∀ r ∈ rules, r.Enabled = false) :
    renderSection header caveat rules = header ++ caveat := by
  unfold renderSection
  have hf : rules.filter (fun r => r.Enabled) = [] := by
    rw [List.filter_eq_nil_iff]
    intro r hr
    simp [hd r hr]
  rw [if_neg hne, hf]
  simp

theorem renderSection_filter_length (header caveat : Str) (rules : List Rule) :
    (renderSection header caveat (rules.filter (fun r => r.Enabled))).length ≤
      (renderSection header caveat rules).length := by
  unfold renderSection
  by_cases h : rules.filter (fun r => r.Enabled) = []
  · rw [if_pos h]
    exact Nat.zero_le _
  · have hne : rules ≠ [] := by
      intro h2
      rw [h2] at h
      exact h rfl
    rw [if_neg h, if_neg hne, List.filter_filter]
    simp

theorem renderSection_filter_eq_iff (header caveat : Str) (rules : List Rule)
    (hh : header ≠ []) :
    renderSection header caveat (rules.filter (fun r => r.Enabled)) =
        renderSection header caveat rules ↔
      (rules ≠ [] → ∃ r ∈ rules, r.Enabled = true) := by
  constructor
  · intro heq hne
    by_contra hno
    have hf : rules.filter (fun r => r.Enabled) = [] := by
      rw [List.filter_eq_nil_iff]
      intro r hr hen
      exact hno ⟨r, hr, hen⟩
    rw [hf] at heq
    have h0 : renderSection header caveat rules = [] := by
      rw [← heq]
      rfl
    exact hne ((renderSection_eq_nil_iff header caveat rules hh).mp h0)
  · intro h
    apply renderSection_congr
    · rw [List.filter_filter]
      simp
    · constructor
      · intro hf
        by_contra hne
        obtain ⟨r, hr, hen⟩ := h hne
        have : r ∈ rules.filter (fun r => r.Enabled) := List.mem_filter.mpr ⟨hr, hen⟩
        rw [hf] at this
        exact List.not_mem_nil _ this
      · intro h2
        rw [h2]
        rfl

theorem Convert_withoutDisabled_iff (t : TraeAdapter) (ruleSet : RuleSet) (clock : Str) :
    t.Convert ruleSet.withoutDisabled clock = t.Convert ruleSet clock ↔
      (ruleSet.ProjectRules ≠ [] → ∃ r ∈ ruleSet.ProjectRules, r.Enabled = true) ∧
      (ruleSet.GlobalRules ≠ [] → ∃ r ∈ ruleSet.GlobalRules, r.Enabled = true) ∧
      (ruleSet.TemplateRules ≠ [] → ∃ r ∈ ruleSet.TemplateRules, r.Enabled = true) := by
  rw [Convert_eq, Convert_eq]
  simp only [RuleSet.withoutDisabled, Except.ok.injEq, List.append_assoc,
    List.append_cancel_left_eq]
  have hp := renderSection_filter_length "## 项目特定规则\n\n".toList
    "*这些规则具有最高优先级，适用于当前项目*\n\n".toList ruleSet.ProjectRules
  have hg := renderSection_filter_length "## 全局通用规则\n\n".toList
    "*这些规则适用于所有项目，具有中等优先级*\n\n".toList ruleSet.GlobalRules
  have ht := renderSection_filter_length "## 自定义模板规则\n\n".toList
    "*这些规则来自用户自定义模板*\n\n".toList ruleSet.TemplateRules
  rw [← renderSection_filter_eq_iff "## 项目特定规则\n\n".toList
      "*这些规则具有最高优先级，适用于当前项目*\n\n".toList ruleSet.ProjectRules (by decide),
    ← renderSection_filter_eq_iff "## 全局通用规则\n\n".toList
      "*这些规则适用于所有项目，具有中等优先级*\n\n".toList ruleSet.GlobalRules (by decide),
    ← renderSection_filter_eq_iff "## 自定义模板规则\n\n".toList
      "*这些规则来自用户自定义模板*\n\n".toList ruleSet.TemplateRules (by decide)]
  constructor
  · intro h
    have hlen := congrArg List.length h
    simp only [List.length_append] at hlen
    have h1 := List.append_inj h (by omega)
    have h2 := List.append_inj h1.2 (by omega)
    have h3 := List.append_inj h2.2 (by omega)
    exact ⟨h1.1, h2.1, h3.1⟩
  · rintro ⟨h1, h2, h3⟩
    rw [h1, h2, h3]


/-- C31: in `TraeAdapter.Convert` a section is rendered exactly when its rule
sequence is not empty, whatever the `Enabled` flags: each of the three builder
blocks adds nothing for the empty sequence and only then; for a non-empty
sequence whose rules are all disabled it adds the header and the caveat and no
rule block; and the output for a rule set equals the output for the rule set
without its disabled rules exactly when no sequence is non-empty with all its
rules disabled, so the two outputs can differ. -/
theorem Convert_section_iff_nonempty (t : TraeAdapter) (clock : Str) :
    (∀ content rules,
      (writeProjectRules content rules = content ↔ rules = []) ∧
      (writeGlobalRules content rules = content ↔ rules = []) ∧
      (writeTemplateRules content rules = content ↔ rules = [])) ∧
    (∀ content rules, rules ≠ [] → (∀ r ∈ rules, r.Enabled = false) →
      writeProjectRules content rules =
        content ++ ("## 项目特定规则\n\n".toList ++
          "*这些规则具有最高优先级，适用于当前项目*\n\n".toList) ∧
      writeGlobalRules content rules =
        content ++ ("## 全局通用规则\n\n".toList ++
          "*这些规则适用于所有项目，具有中等优先级*\n\n".toList) ∧
      writeTemplateRules content rules =
        content ++ ("## 自定义模板规则\n\n".toList ++
          "*这些规则来自用户自定义模板*\n\n".toList)) ∧
    (∀ ruleSet : RuleSet,
      t.Convert ruleSet.withoutDisabled clock = t.Convert ruleSet clock ↔
        (ruleSet.ProjectRules ≠ [] → ∃ r ∈ ruleSet.ProjectRules, r.Enabled = true) ∧
        (ruleSet.GlobalRules ≠ [] → ∃ r ∈ ruleSet.GlobalRules, r.Enabled = true) ∧
        (ruleSet.TemplateRules ≠ [] → ∃ r ∈ ruleSet.TemplateRules, r.Enabled = true)) ∧
    (∃ ruleSet : RuleSet, t.Convert ruleSet.withoutDisabled clock ≠ t.Convert ruleSet clock) := by
  refine ⟨?_, ?_, fun ruleSet => Convert_withoutDisabled_iff t ruleSet clock, ?_⟩
  · intro content rules
    rw [writeProjectRules_eq, writeGlobalRules_eq, writeTemplateRules_eq]
    simp only [List.append_right_eq_self]
    exact ⟨renderSection_eq_nil_iff _ _ rules (by decide),
      renderSection_eq_nil_iff _ _ rules (by decide),
      renderSection_eq_nil_iff _ _ rules (by decide)⟩
  · intro content rules hne hd
    rw [writeProjectRules_eq, writeGlobalRules_eq, writeTemplateRules_eq,
      renderSection_all_disabled _ _ rules hne hd, renderSection_all_disabled _ _ rules hne hd,
      renderSection_all_disabled _ _ rules hne hd]
    exact ⟨rfl, rfl, rfl⟩
  · refine ⟨⟨[hiddenRule "旧".toList], [], [], demoMetadata⟩, ?_⟩
    intro heq
    have h := (Convert_withoutDisabled_iff t _ clock).mp heq
    obtain ⟨r, hr, hen⟩ := h.1 (List.cons_ne_nil _ _)
    rw [List.mem_singleton] at hr
    rw [hr] at hen
    exact absurd hen (by decide)

theorem Convert_section_iff_nonempty_witness :
    [hiddenRule "旧".toList] ≠ [] ∧ (∀ r ∈ [hiddenRule "旧".toList], r.Enabled = false) ∧
      writeProjectRules "# demo\n\n".toList [hiddenRule "旧".toList] =
        "# demo\n\n## 项目特定规则\n\n*这些规则具有最高优先级，适用于当前项目*\n\n".toList ∧
      writeProjectRules "# demo\n\n".toList [] = "# demo\n\n".toList :=
  ⟨by decide, by decide,
    (((Convert_section_iff_nonempty {} "2026-01-01 00:00:00".toList).2.1 "# demo\n\n".toList
      [hiddenRule "旧".toList] (by decide) (by decide)).1).trans (by decide),
    by decide⟩

/-- C32: on a file system where a readable `project/tech_stack.yaml` implies
that `os.Stat` does not report the `project` directory as not existing, every
rule set that `LoadAllRules` returns has at least one project rule: the
tech-stack file is readable, the project directory exists, and the project
rules are the tech-stack rule followed by the parsed rules, or the parsed
rules (at least one), or the two fallback rules. -/
theorem LoadAllRules_project_rules_nonempty (l : FileLoader) (fs : FileSystem)
    (unmarshal : Unmarshal) (now : Nat) (rs : RuleSet)
    (hfs : ∀ data,
      fs.ReadFile [l.basePath, "project".toList, "tech_stack.yaml".toList] = .ok data →
      fs.Stat [l.basePath, "project".toList] ≠ .notExist)
    (hok : l.LoadAllRules fs unmarshal now = .ok rs) :
    rs.ProjectRules ≠ [] ∧ 0 < rs.ProjectRules.length ∧
      (∃ data, fs.ReadFile [l.basePath, "project".toList, "tech_stack.yaml".toList] = .ok data) ∧
      fs.Stat [l.basePath, "project".toList] ≠ .notExist ∧
      l.LoadProjectRules fs unmarshal now = .ok rs.ProjectRules ∧
      ∃ content techStack,
        readRequirements fs
          [l.basePath, "project".toList, "requirements.md".toList] = .ok content ∧
        readTechStack fs unmarshal
          [l.basePath, "project".toList, "tech_stack.yaml".toList] = .ok techStack ∧
        (rs.ProjectRules =
            techStackRule now (getStringSlice techStack "tech_stacks".toList) ::
              parseRequirementsMarkdown now content ∨
          (rs.ProjectRules = parseRequirementsMarkdown now content ∧
            parseRequirementsMarkdown now content ≠ []) ∨
          rs.ProjectRules = fallbackRules now) := by
  obtain ⟨hp, _, _, hm⟩ := LoadAllRules_ok l fs unmarshal now rs hok
  obtain ⟨data, _, hread, _, _⟩ := LoadMetadata_ok l fs unmarshal now rs.Metadata hm
  have hdir := hfs data hread
  obtain ⟨content, techStack, hreq, htech, hrules⟩ :=
    LoadProjectRules_ok_present l fs unmarshal now rs.ProjectRules hdir hp
  have hne : rs.ProjectRules ≠ [] := by
    rw [hrules]
    exact assembleProjectRules_ne_nil now techStack _
  refine ⟨hne, (length_pos_iff_ne_nil _).mpr hne, ⟨data, hread⟩, hdir, hp, content, techStack,
    hreq, htech, ?_⟩
  rw [hrules, assembleProjectRules_eq]
  split_ifs with h1 h2
  · exact Or.inr (Or.inr rfl)
  · exact Or.inr (Or.inl ⟨rfl, h2⟩)
  · exact Or.inl rfl

theorem LoadAllRules_project_rules_nonempty_witness :
    FileLoader.LoadAllRules ⟨"rules".toList⟩ (listFS demoFiles demoDirs) demoUnmarshal 0 =
        .ok { ProjectRules := [techStackRule 0 ["Go+Gin".toList]]
              GlobalRules := []
              TemplateRules := []
              Metadata := demoMetadata } ∧
      [techStackRule 0 ["Go+Gin".toList]] ≠ [] :=
  ⟨rfl,
    (LoadAllRules_project_rules_nonempty ⟨"rules".toList⟩ (listFS demoFiles demoDirs)
      demoUnmarshal 0
      { ProjectRules := [techStackRule 0 ["Go+Gin".toList]]
        GlobalRules := []
        TemplateRules := []
        Metadata := demoMetadata }
      (fun _ _ => by decide) rfl).1⟩

/-- C34: `getStringSlice` keeps the length: for a key whose value is a
sequence it returns, item by item, the string when the item is a string and
the empty string when it is not, so as many strings as there are items; for a
missing key or a value that is not a sequence it returns the empty sequence.
Hence, when the project directory exists and `tech_stacks` in the decoded
tech-stack file is a non-empty sequence without any string, `LoadProjectRules`
still returns the tech-stack rule, made of as many empty strings, followed by
the rules parsed from the requirements. -/
theorem getStringSlice_length_preserving (data : Option YamlMap) (key : Str) :
    (∀ items, mapLookup data key = some (.seq items) →
      getStringSlice data key =
          items.map (fun item =>
            match item with
            | .str s => s
            | _ => []) ∧
        (getStringSlice data key).length = items.length ∧
        (∀ (i : Nat) (s : Str), items[i]? = some (.str s) →
          (getStringSlice data key)[i]? = some s) ∧
        (∀ (i : Nat) (v : YamlValue), items[i]? = some v → (∀ s, v ≠ .str s) →
          (getStringSlice data key)[i]? = some [])) ∧
    (mapLookup data key = none → getStringSlice data key = []) ∧
    ((∀ items, mapLookup data key ≠ some (.seq items)) → getStringSlice data key = []) ∧
    (∀ (l : FileLoader) (fs : FileSystem) (unmarshal : Unmarshal) (now : Nat) (content : Str)
        (techStack : Option YamlMap) (items : List YamlValue),
      fs.Stat [l.basePath, "project".toList] ≠ .notExist →
      readRequirements fs
        [l.basePath, "project".toList, "requirements.md".toList] = .ok content →
      readTechStack fs unmarshal
        [l.basePath, "project".toList, "tech_stack.yaml".toList] = .ok techStack →
      mapLookup techStack "tech_stacks".toList = some (.seq items) → items ≠ [] →
      (∀ v ∈ items, ∀ s, v ≠ .str s) →
      l.LoadProjectRules fs unmarshal now =
        .ok (techStackRule now (List.replicate items.length []) ::
          parseRequirementsMarkdown now content)) := by
  refine ⟨?_, ?_, getStringSlice_default data key, ?_⟩
  · intro items h
    rw [getStringSlice_seq data key items h]
    refine ⟨rfl, List.length_map _ _, ?_, ?_⟩
    · intro i s hi
      rw [List.getElem?_map, hi]
      rfl
    · intro i v hi hv
      rw [List.getElem?_map, hi]
      cases v with
      | str s => exact absurd rfl (hv s)
      | null => rfl
      | seq x => rfl
      | other => rfl
  · intro h
    exact getStringSlice_default data key (fun items hi => by rw [h] at hi; exact nomatch hi)
  · intro l fs unmarshal now content techStack items hdir hreq htech hitems hne hnostr
    rw [LoadProjectRules_present l fs unmarshal now content techStack hdir hreq htech,
      assembleProjectRules_eq,
      if_neg (getStringSlice_seq_ne_nil techStack _ items hitems hne)]
    have hmap : getStringSlice techStack "tech_stacks".toList =
        List.replicate items.length [] := by
      rw [getStringSlice_seq techStack _ items hitems, List.eq_replicate_iff]
      refine ⟨List.length_map _ _, ?_⟩
      intro b hb
      obtain ⟨v, hv, rfl⟩ := List.mem_map.mp hb
      cases v with
      | str s => exact absurd rfl (hnostr _ hv s)
      | null => rfl
      | seq x => rfl
      | other => rfl
    rw [hmap]

theorem getStringSlice_length_preserving_witness :
    getStringSlice (some [("tech_stacks".toList, .seq [.str "Go".toList, .other, .null])])
        "tech_stacks".toList = ["Go".toList, [], []] ∧
      FileLoader.LoadProjectRules ⟨"rules".toList⟩ (listFS numbersFiles demoDirs)
          numbersUnmarshal 0 = .ok [techStackRule 0 [[], []]] ∧
      (techStackRule 0 [[], []]).Content = "技术栈: , ".toList :=
  ⟨((getStringSlice_length_preserving
      (some [("tech_stacks".toList, .seq [.str "Go".toList, .other, .null])])
      "tech_stacks".toList).1 [.str "Go".toList, .other, .null] rfl).1,
    (getStringSlice_length_preserving none []).2.2.2 ⟨"rules".toList⟩
      (listFS numbersFiles demoDirs) numbersUnmarshal 0 []
      (some [("tech_stacks".toList, .seq [.other, .other])]) [.other, .other]
      (by decide) rfl rfl rfl (by simp) (by simp),
    by decide⟩

/-- C33, as the claim states it, fails: "MongoDB" holds "go" but not "Go", so it
matches no category and `generateTechSpecificRules` returns no rule for it,
which is not the result for "Go+Gin". -/
theorem mongodb_matches_no_category :
    Contains "MongoDB".toList "Go".toList = false ∧
      FileLoader.generateTechSpecificRules ⟨"rules".toList⟩ 0 ["MongoDB".toList] = [] ∧
      FileLoader.generateTechSpecificRules ⟨"rules".toList⟩ 0 ["MongoDB".toList] ≠
        FileLoader.generateTechSpecificRules ⟨"rules".toList⟩ 0 ["Go+Gin".toList] := by
  decide

/-- C33, amended: tech-stack matching is a case-sensitive substring test, so
the tech string "MongoDB", one of the choices offered by init, which holds "go"
but not "Go", matches no category: `generateTechSpecificRules ["MongoDB"]`
returns no rule, whereas `["Go+Gin"]` gives exactly the two Go rules
"Go代码规范" and "Go错误处理". -/
theorem generateTechSpecificRules_case_sensitive (l : FileLoader) (now : Nat) :
    "MongoDB".toList ∈ techStackOptions ∧
      Contains "MongoDB".toList "go".toList = true ∧
      Contains "MongoDB".toList "Go".toList = false ∧
      l.generateTechSpecificRules now ["MongoDB".toList] = [] ∧
      l.generateTechSpecificRules now ["Go+Gin".toList] = l.generateGoRules now "Go+Gin".toList ∧
      (l.generateGoRules now "Go+Gin".toList).map (fun r => r.Title) =
        ["Go代码规范".toList, "Go错误处理".toList] := by
  refine ⟨by decide, by decide, by decide, rfl, rfl, rfl⟩

/-! ## Project initialisation and the requirements parser: facts and claims -/

theorem Split_of_not_mem (sep : Char) : ∀ (s : Str), sep ∉ s → Split s sep = [s]
  | [], _ => rfl
  | c :: s, h => by
    have hc : c ≠ sep := fun e => h (by rw [e]; exact List.mem_cons_self _ _)
    have hs : sep ∉ s := fun m => h (List.mem_cons_of_mem _ m)
    rw [Split_cons, if_neg hc, Split_of_not_mem sep s hs]

theorem Join_cons_cons (l l2 : Str) (ls : List Str) (sep : Str) :
    Join (l :: l2 :: ls) sep = l ++ (sep ++ Join (l2 :: ls) sep) := by
  simp [Join, List.intercalate, List.intersperse]

theorem Split_Join (sep : Char) :
    ∀ (l : Str) (ls : List Str),
      Split (Join (l :: ls) [sep]) sep = (l :: ls).flatMap (fun x => Split x sep)
  | l, [] => by simp [Join, List.intercalate]
  | l, l2 :: ls => by
    have ih := Split_Join sep l2 ls
    rw [Join_cons_cons, List.singleton_append, Split_append_sep, ih]
    simp only [List.flatMap_cons]

theorem requirementsContent_eq_Join (projectName clock : Str) (techStacks : List Str)
    (codeStandards securityConstraints : Str) (aiEditors : List Str) :
    requirementsContent projectName clock techStacks codeStandards securityConstraints
        aiEditors =
      Join
        [ "# ".toList ++ projectName ++ " 项目需求文档".toList, [],
          "## 项目基本信息".toList, "- 项目名称：".toList ++ projectName,
          "- 初始化时间：".toList ++ clock, [],
          "## 技术栈".toList, formatList techStacks "- ".toList, [],
          "## 代码规范".toList, codeStandards, [],
          "## 安全约束".toList, securityConstraints, [],
          "## 目标 AI 编辑器".toList, formatList aiEditors "- ".toList, [] ]
        ['\n'] := by
  simp [requirementsContent, Join, List.intercalate, List.intersperse]


theorem TrimSpace_prefix_of_head (c : Char) (t : Str) (hc : isSpace c = false) :
    TrimSpace (c :: t) <+: c :: t := by
  unfold TrimSpace
  rw [List.dropWhile_cons_of_neg (by simp [hc])]
  rw [← List.reverse_suffix, List.reverse_reverse]
  exact List.dropWhile_suffix _

theorem isHeader_mono (a b : Str) (h : a <+: b) (ha : isHeader a = true) :
    isHeader b = true := by
  unfold isHeader HasPrefix at ha ⊢
  rw [List.isPrefixOf_iff_prefix] at ha ⊢
  exact ha.trans h

theorem isHeader_TrimSpace_of_head (c : Char) (t : Str) (hc : isSpace c = false)
    (hh : isHeader (c :: t) = false) : isHeader (TrimSpace (c :: t)) = false := by
  cases h : isHeader (TrimSpace (c :: t)) with
  | false => rfl
  | true =>
    rw [isHeader_mono _ _ (TrimSpace_prefix_of_head c t hc) h] at hh
    exact absurd hh (by decide)

theorem isHeader_dash (t : Str) : isHeader ('-' :: t) = false := by
  simp [isHeader, HasPrefix, List.isPrefixOf]

theorem isHeader_title (t : Str) : isHeader ('#' :: ' ' :: t) = false := by
  simp [isHeader, HasPrefix, List.isPrefixOf]

theorem isHeader_TrimSpace_of_prefix_dash (line t : Str)
    (h : line <+: '-' :: t) : isHeader (TrimSpace line) = false := by
  cases line with
  | nil => rfl
  | cons c rest =>
    have hc : c = '-' := by
      obtain ⟨x, hx⟩ := h
      simp at hx
      exact hx.1
    subst hc
    exact isHeader_TrimSpace_of_head _ _ (by decide) (isHeader_dash _)

theorem Split_prefix_pieces (sep : Char) :
    ∀ (p s : Str), p <+: s →
      ∃ init last x rest, Split p sep = init ++ [last] ∧
        Split s sep = init ++ (last ++ x) :: rest
  | [], s, _ => by
    cases hs : Split s sep with
    | nil => exact absurd hs (Split_ne_nil s sep)
    | cons h t => exact ⟨[], [], h, t, rfl, rfl⟩
  | c :: p, [], h => by
    exact absurd h (by simp)
  | c :: p, d :: s, h => by
    rw [List.cons_prefix_cons] at h
    obtain ⟨hcd, hps⟩ := h
    subst hcd
    obtain ⟨init, last, x, rest, h1, h2⟩ := Split_prefix_pieces sep p s hps
    rw [Split_cons, Split_cons, h1, h2]
    by_cases hc : c = sep
    · rw [if_pos hc, if_pos hc]
      exact ⟨[] :: init, last, x, rest, rfl, rfl⟩
    · rw [if_neg hc, if_neg hc]
      cases init with
      | nil => exact ⟨[], c :: last, x, rest, rfl, rfl⟩
      | cons i init2 => exact ⟨(c :: i) :: init2, last, x, rest, rfl, rfl⟩

theorem Split_prefix_line (sep : Char) (p s : Str) (h : p <+: s) :
    ∀ line ∈ Split p sep, ∃ line2 ∈ Split s sep, line <+: line2 := by
  obtain ⟨init, last, x, rest, h1, h2⟩ := Split_prefix_pieces sep p s h
  intro line hl
  rw [h1, List.mem_append, List.mem_singleton] at hl
  rw [h2]
  rcases hl with hl | hl
  · exact ⟨line, List.mem_append_left _ hl, List.prefix_refl _⟩
  · subst hl
    exact ⟨line ++ x, List.mem_append_right _ (List.mem_cons_self _ _), List.prefix_append _ _⟩

theorem foldl_formatList (pfx : Str) :
    ∀ (items : List Str) (acc : Str),
      items.foldl (fun result item => result ++ (pfx ++ item ++ "\n".toList)) acc =
        acc ++ items.flatMap (fun item => pfx ++ item ++ "\n".toList)
  | [], acc => by simp
  | item :: items, acc => by
    rw [List.foldl_cons, foldl_formatList pfx items, List.flatMap_cons, List.append_assoc]

theorem Split_formatList_lines (pfx : Str) (hp : '\n' ∉ pfx) :
    ∀ (items : List Str), (∀ item ∈ items, '\n' ∉ item) →
      Split (items.flatMap (fun item => pfx ++ item ++ "\n".toList)) '\n' =
        items.map (fun item => pfx ++ item) ++ [[]]
  | [], _ => rfl
  | item :: items, h => by
    have ih := Split_formatList_lines pfx hp items (fun x hx => h x (List.mem_cons_of_mem _ hx))
    have hi : '\n' ∉ pfx ++ item := by
      rw [List.mem_append]
      rintro (h1 | h1)
      · exact hp h1
      · exact h item (List.mem_cons_self _ _) h1
    have hform : (item :: items).flatMap (fun item => pfx ++ item ++ "\n".toList) =
        (pfx ++ item) ++ '\n' :: items.flatMap (fun item => pfx ++ item ++ "\n".toList) := by
      rw [List.flatMap_cons]
      simp
    rw [hform, Split_append_sep, ih, Split_of_not_mem _ _ hi]
    rfl

theorem formatList_lines_not_header (items : List Str) (h : ∀ item ∈ items, '\n' ∉ item) :
    ∀ line ∈ (Split (formatList items "- ".toList) '\n').map TrimSpace,
      isHeader line = false := by
  intro line hl
  obtain ⟨raw, hraw, rfl⟩ := List.mem_map.mp hl
  unfold formatList at hraw
  cases items with
  | nil =>
    have hraw2 : raw ∈ ["暂无配置".toList] := hraw
    rw [List.mem_singleton] at hraw2
    subst hraw2
    decide
  | cons item items =>
    rw [if_neg (by simp), foldl_formatList, List.nil_append] at hraw
    have hpre : TrimSpace ((item :: items).flatMap (fun i => "- ".toList ++ i ++ "\n".toList)) <+:
        (item :: items).flatMap (fun i => "- ".toList ++ i ++ "\n".toList) := by
      have hform : (item :: items).flatMap (fun i => "- ".toList ++ i ++ "\n".toList) =
          '-' :: (' ' :: (item ++ "\n".toList) ++
            items.flatMap (fun i => "- ".toList ++ i ++ "\n".toList)) := by
        rw [List.flatMap_cons]
        simp
      rw [hform]
      exact TrimSpace_prefix_of_head _ _ (by decide)
    obtain ⟨line2, hl2, hpl⟩ := Split_prefix_line '\n' _ _ hpre raw hraw
    rw [Split_formatList_lines _ (by decide) _ h, List.mem_append, List.mem_singleton] at hl2
    rcases hl2 with hl2 | hl2
    · obtain ⟨i, _, rfl⟩ := List.mem_map.mp hl2
      exact isHeader_TrimSpace_of_prefix_dash raw (' ' :: i) hpl
    · subst hl2
      rw [List.prefix_nil] at hpl
      subst hpl
      rfl


theorem not_mem_append_of (c : Char) (a b : Str) (ha : c ∉ a) (hb : c ∉ b) : c ∉ a ++ b := by
  rw [List.mem_append]
  rintro (h | h)
  · exact ha h
  · exact hb h

theorem requirementsContent_docLines (projectName clock : Str) (techStacks : List Str)
    (codeStandards securityConstraints : Str) (aiEditors : List Str)
    (hname : '\n' ∉ projectName) (hclock : '\n' ∉ clock)
    (hcode : '\n' ∉ codeStandards) (hsec : '\n' ∉ securityConstraints) :
    docLines (requirementsContent projectName clock techStacks codeStandards
        securityConstraints aiEditors) =
      [TrimSpace ("# ".toList ++ projectName ++ " 项目需求文档".toList), [],
        "## 项目基本信息".toList, TrimSpace ("- 项目名称：".toList ++ projectName),
        TrimSpace ("- 初始化时间：".toList ++ clock), [], "## 技术栈".toList] ++
      ((Split (formatList techStacks "- ".toList) '\n').map TrimSpace ++
      ([[], "## 代码规范".toList, TrimSpace codeStandards, [], "## 安全约束".toList,
          TrimSpace securityConstraints, [], "## 目标 AI 编辑器".toList] ++
      ((Split (formatList aiEditors "- ".toList) '\n').map TrimSpace ++ [[]]))) := by
  have h1 : Split ("# ".toList ++ projectName ++ " 项目需求文档".toList) '\n' =
      ["# ".toList ++ projectName ++ " 项目需求文档".toList] :=
    Split_of_not_mem _ _
      (not_mem_append_of _ _ _ (not_mem_append_of _ _ _ (by decide) hname) (by decide))
  have h2 : Split ("- 项目名称：".toList ++ projectName) '\n' =
      ["- 项目名称：".toList ++ projectName] :=
    Split_of_not_mem _ _ (not_mem_append_of _ _ _ (by decide) hname)
  have h3 : Split ("- 初始化时间：".toList ++ clock) '\n' =
      ["- 初始化时间：".toList ++ clock] :=
    Split_of_not_mem _ _ (not_mem_append_of _ _ _ (by decide) hclock)
  have h4 : Split "## 项目基本信息".toList '\n' = ["## 项目基本信息".toList] := by decide
  have h5 : Split "## 技术栈".toList '\n' = ["## 技术栈".toList] := by decide
  have h6 : Split "## 代码规范".toList '\n' = ["## 代码规范".toList] := by decide
  have h7 : Split "## 安全约束".toList '\n' = ["## 安全约束".toList] := by decide
  have h8 : Split "## 目标 AI 编辑器".toList '\n' = ["## 目标 AI 编辑器".toList] := by decide
  have h9 : Split [] '\n' = [[]] := rfl
  have t0 : TrimSpace [] = [] := rfl
  have t4 : TrimSpace "## 项目基本信息".toList = "## 项目基本信息".toList := by decide
  have t5 : TrimSpace "## 技术栈".toList = "## 技术栈".toList := by decide
  have t6 : TrimSpace "## 代码规范".toList = "## 代码规范".toList := by decide
  have t7 : TrimSpace "## 安全约束".toList = "## 安全约束".toList := by decide
  have t8 : TrimSpace "## 目标 AI 编辑器".toList = "## 目标 AI 编辑器".toList := by decide
  rw [List.append_assoc] at h1
  unfold docLines
  rw [requirementsContent_eq_Join, Split_Join]
  simp only [List.flatMap_cons, List.flatMap_nil, h1, h2, h3, h4, h5, h6, h7, h8, h9,
    Split_of_not_mem _ _ hcode, Split_of_not_mem _ _ hsec, List.map_append, List.map_cons,
    List.map_nil, t0, t4, t5, t6, t7, t8, List.cons_append, List.nil_append, List.append_nil,
    List.append_assoc]

theorem rules_skip (now : Nat) (pre rest : List Str) (h : ∀ x ∈ pre, isHeader x = false) :
    (sections (pre ++ rest)).filterMap (sectionRule now) =
      (sections rest).filterMap (sectionRule now) := by
  rw [sections_append_of_no_header pre rest h]

theorem rules_suppressed (now : Nat) (header : Str) (rest : List Str)
    (hh : isHeader header = true) (hs : headerText header ∈ suppressedNames) :
    (sections (header :: rest)).filterMap (sectionRule now) =
      (sections rest).filterMap (sectionRule now) := by
  rw [sections, if_pos hh, List.filterMap_cons]
  have : sectionRule now (headerText header, rest.takeWhile (fun x => !isHeader x)) = none := by
    unfold sectionRule
    rw [if_pos hs]
  rw [this]

theorem rules_one_line (now : Nat) (header body next : Str) (rest : List Str)
    (hh : isHeader header = true) (hs : headerText header ∉ suppressedNames)
    (hb : body ≠ []) (hb2 : HasPrefix body "#".toList = false)
    (hn : isHeader next = true) :
    (sections (header :: body :: [] :: next :: rest)).filterMap (sectionRule now) =
      (createRuleFromSection now (headerText header) [body]).toList ++
        (sections (next :: rest)).filterMap (sectionRule now) := by
  have hbh : isHeader body = false := by
    cases h : isHeader body with
    | false => rfl
    | true =>
      unfold isHeader HasPrefix at h
      unfold HasPrefix at hb2
      rw [List.isPrefixOf_iff_prefix] at h
      have h2 : "#".toList <+: body := (show "#".toList <+: "## ".toList by decide).trans h
      rw [← List.isPrefixOf_iff_prefix] at h2
      rw [h2] at hb2
      exact absurd hb2 (by decide)
  have he : isHeader [] = false := rfl
  have htake : (body :: [] :: next :: rest).takeWhile (fun x => !isHeader x) = [body, []] := by
    simp [List.takeWhile_cons, hbh, he, hn]
  have hb3 : HasPrefix body ['#'] = false := hb2
  have hkept : keptLines [body, []] = [body] := by
    simp [keptLines, List.filter_cons, hb, hb3]
  have hrest : sections (body :: [] :: next :: rest) = sections (next :: rest) :=
    sections_append_of_no_header [body, []] (next :: rest) (by
      intro x hx
      simp only [List.mem_cons, List.mem_singleton, List.not_mem_nil, or_false] at hx
      rcases hx with rfl | rfl
      · exact hbh
      · exact he)
  rw [sections, if_pos hh, List.filterMap_cons, htake, hrest]
  unfold sectionRule
  dsimp only
  rw [if_neg hs, hkept]
  cases createRuleFromSection now (headerText header) [body] <;> rfl


theorem rules_skip_cons (now : Nat) (x : Str) (rest : List Str) (h : isHeader x = false) :
    (sections (x :: rest)).filterMap (sectionRule now) =
      (sections rest).filterMap (sectionRule now) := by
  rw [sections, if_neg (by simp [h])]

theorem Join_singleton (x sep : Str) : Join [x] sep = x := by
  simp [Join, List.intercalate]

/-- C35, as the claim states it, fails: the answer " #注释" for the code standard
is a single non-blank line that does not start with `#`, yet the parser trims
the line before testing it and drops it, so the text written by init gives
only the rule "安全约束". -/
theorem init_round_trip_indented_hash :
    '\n' ∉ " #注释".toList ∧ TrimSpace " #注释".toList ≠ [] ∧
      HasPrefix " #注释".toList "#".toList = false ∧
      (parseRequirementsMarkdown 0
        (requirementsContent "demo".toList "2026-01-01 00:00:00".toList ["Go+Gin".toList]
          " #注释".toList "敏感数据需加密存储".toList ["Trae".toList])).map
        (fun r => r.Title) = ["安全约束".toList] := by
  decide

/-- C35, amended: init and the requirements parser agree. For every project
name, clock text, tech-stack list and editor list without line breaks, and for
code-standard and security-constraint answers that are each a single non-blank
line whose first character after trimming is not `#`, the parser applied to
the text written by `collectProjectRequirements` returns exactly two rules, in
order: "代码规范" (type `code_style`, priority 4, content the trimmed
code-standard answer) and "安全约束" (type `security`, priority 5, content the
trimmed security answer); the sections 项目基本信息, 技术栈 and 目标 AI 编辑器
contribute nothing. -/
theorem init_requirements_round_trip (now : Nat) (projectName clock : Str)
    (techStacks : List Str) (codeStandards securityConstraints : Str) (aiEditors : List Str)
    (hname : '\n' ∉ projectName) (hclock : '\n' ∉ clock)
    (htech : ∀ item ∈ techStacks, '\n' ∉ item) (hedit : ∀ item ∈ aiEditors, '\n' ∉ item)
    (hcode : '\n' ∉ codeStandards) (hcode2 : TrimSpace codeStandards ≠ [])
    (hcode3 : HasPrefix (TrimSpace codeStandards) "#".toList = false)
    (hsec : '\n' ∉ securityConstraints) (hsec2 : TrimSpace securityConstraints ≠ [])
    (hsec3 : HasPrefix (TrimSpace securityConstraints) "#".toList = false) :
    parseRequirementsMarkdown now
        (requirementsContent projectName clock techStacks codeStandards securityConstraints
          aiEditors) =
      [{ Title := "代码规范".toList
         Description := "项目 代码规范 相关的要求和规范".toList
         Type_ := "code_style".toList
         Content := TrimSpace codeStandards
         Priority := 4
         Enabled := true
         Tags := ["code".toList, "style".toList, "naming".toList, "代码规范".toList]
         CreatedAt := now
         UpdatedAt := now },
       { Title := "安全约束".toList
         Description := "项目 安全约束 相关的要求和规范".toList
         Type_ := "security".toList
         Content := TrimSpace securityConstraints
         Priority := 5
         Enabled := true
         Tags := ["security".toList, "encryption".toList, "安全约束".toList]
         CreatedAt := now
         UpdatedAt := now }] := by
  rw [parseRequirementsMarkdown_eq,
    requirementsContent_docLines _ _ _ _ _ _ hname hclock hcode hsec]
  have hF1 := formatList_lines_not_header techStacks htech
  have hF2 := formatList_lines_not_header aiEditors hedit
  have ht : isHeader (TrimSpace ("# ".toList ++ projectName ++ " 项目需求文档".toList)) = false :=
    isHeader_TrimSpace_of_head '#' (' ' :: (projectName ++ " 项目需求文档".toList)) (by decide)
      (isHeader_title _)
  have hl2 : isHeader (TrimSpace ("- 项目名称：".toList ++ projectName)) = false :=
    isHeader_TrimSpace_of_head '-' (" 项目名称：".toList ++ projectName) (by decide)
      (isHeader_dash _)
  have hl3 : isHeader (TrimSpace ("- 初始化时间：".toList ++ clock)) = false :=
    isHeader_TrimSpace_of_head '-' (" 初始化时间：".toList ++ clock) (by decide)
      (isHeader_dash _)
  simp only [List.cons_append, List.nil_append]
  rw [rules_skip_cons now _ _ ht, rules_skip_cons now [] _ rfl,
    rules_suppressed now "## 项目基本信息".toList _ (by decide) (by decide),
    rules_skip_cons now _ _ hl2, rules_skip_cons now _ _ hl3, rules_skip_cons now [] _ rfl,
    rules_suppressed now "## 技术栈".toList _ (by decide) (by decide),
    rules_skip now _ _ hF1, rules_skip_cons now [] _ rfl,
    rules_one_line now "## 代码规范".toList _ "## 安全约束".toList _ (by decide) (by decide)
      hcode2 hcode3 (by decide),
    rules_one_line now "## 安全约束".toList _ "## 目标 AI 编辑器".toList _ (by decide)
      (by decide) hsec2 hsec3 (by decide),
    rules_suppressed now "## 目标 AI 编辑器".toList _ (by decide) (by decide),
    rules_skip now _ _ hF2,
    createRuleFromSection_some now _ _ (List.cons_ne_nil _ _),
    createRuleFromSection_some now _ _ (List.cons_ne_nil _ _), Join_singleton, Join_singleton]
  have e1 : headerText "## 代码规范".toList = "代码规范".toList := by decide
  have e2 : headerText "## 安全约束".toList = "安全约束".toList := by decide
  rw [e1, e2]
  rfl

theorem init_requirements_round_trip_witness :
    (parseRequirementsMarkdown 0
        (requirementsContent "demo".toList "2026-01-01 00:00:00".toList
          ["Go+Gin".toList, "MongoDB".toList] "  函数命名采用 snake_case ".toList
          "敏感数据需加密存储".toList [])).map
        (fun r => (r.Title, r.Type_, r.Priority, r.Content)) =
      [("代码规范".toList, "code_style".toList, 4, "函数命名采用 snake_case".toList),
        ("安全约束".toList, "security".toList, 5, "敏感数据需加密存储".toList)] :=
  (congrArg (List.map (fun r => (r.Title, r.Type_, r.Priority, r.Content)))
    (init_requirements_round_trip 0 "demo".toList "2026-01-01 00:00:00".toList
      ["Go+Gin".toList, "MongoDB".toList] "  函数命名采用 snake_case ".toList
      "敏感数据需加密存储".toList [] (by decide) (by decide) (by decide) (by decide) (by decide)
      (by decide) (by decide) (by decide) (by decide) (by decide))).trans (by decide)

end PfRuler
